import Mathlib

/-!
Verification development for the chorddiagram repository: a shallow
embedding of the configuration/codec/geometry core of
`src/js/fretboard.js` and the control-panel file `src/unnamed/part_000`,
with theorems settling the frozen claims about it.

Text is modelled as `List Char`; JavaScript strings, objects and the
small literal language used by the export/import codec are embedded as
explicit Lean structures and functions translated from the source.
-/

namespace ChordDiagram

/-- Texts are lists of characters; JavaScript strings are modelled this way. -/
abbrev Str := List Char

/-- The single-quote character. -/
def sq : Char := Char.ofNat 39

/-- The double-quote character. -/
def dq : Char := Char.ofNat 34

/-- The backslash character. -/
def bsl : Char := Char.ofNat 92

/-- The backtick character. -/
def btick : Char := Char.ofNat 96

/-- The opening-brace character. -/
def obr : Char := Char.ofNat 123

/-- The closing-brace character. -/
def cbr : Char := Char.ofNat 125

/-- JavaScript `a || d` for strings: an absent or empty string falls back to the default. -/
def jsOr (o : Option Str) (d : Str) : Str :=
  match o with
  | some s => if s = [] then d else s
  | none => d

/-- JavaScript `array.join(sep)`. -/
def joinWith (sep : Str) : List Str → Str
  | [] => []
  | [a] => a
  | a :: t => a ++ sep ++ joinWith sep t

/-- Emission loop `keys.forEach((k, idx) => code += item + (idx < last ? "," : "") + "\n")`
used by the exporter for map and list blocks. -/
def emitLines : List Str → Str
  | [] => []
  | [a] => a ++ [Char.ofNat 10]
  | a :: t => a ++ [','] ++ [Char.ofNat 10] ++ emitLines t

/-- Stable insertion step for the JavaScript `Array.prototype.sort` model:
an element is inserted after every element that compares less-or-equal to it. -/
def insertByJS (le : α → α → Bool) (a : α) : List α → List α
  | [] => [a]
  | b :: t => if le b a then b :: insertByJS le a t else a :: b :: t

/-- Stable sort modelling `Array.prototype.sort(comparator)` for a consistent
comparator: `le a b` stands for `comparator(a, b) <= 0`. -/
def sortByJS (le : α → α → Bool) (l : List α) : List α :=
  l.foldl (fun acc a => insertByJS le a acc) []

/-- JavaScript whitespace test for `String.prototype.trim`. -/
def isJsWs (c : Char) : Bool :=
  c.toNat = 32 || c.toNat = 9 || c.toNat = 10 || c.toNat = 13 || c.toNat = 12 || c.toNat = 11

/-- JavaScript `s.trim()`. -/
def jsTrim (s : Str) : Str :=
  ((s.dropWhile isJsWs).reverse.dropWhile isJsWs).reverse

/-- JavaScript `s.trimEnd()`. -/
def jsTrimEnd (s : Str) : Str :=
  (s.reverse.dropWhile isJsWs).reverse

/-- Decimal digit character for a value below ten. -/
def digitChar (n : Nat) : Char := Char.ofNat (48 + n)

/-- Decimal digit test by code point (48..57). -/
def isDigitCh (c : Char) : Bool := decide (48 ≤ c.toNat) && decide (c.toNat ≤ 57)

/-- Value of a decimal digit character. -/
def digitVal (c : Char) : Nat := c.toNat - 48

/-- Fuel-driven helper for the decimal printer; the fuel always exceeds the
number being printed. -/
def natDigitsAux : Nat → Nat → Str
  | 0, _ => []
  | fuel + 1, n =>
      if n < 10 then [digitChar n]
      else natDigitsAux fuel (n / 10) ++ [digitChar (n % 10)]

/-- Decimal representation of a natural number, most significant digit
first (JavaScript ToString on a non-negative integer). -/
def natDigits (n : Nat) : Str := natDigitsAux (n + 1) n

theorem natDigitsAux_congr : ∀ (n f1 f2 : Nat), n < f1 → n < f2 →
    natDigitsAux f1 n = natDigitsAux f2 n := by
  intro n
  induction n using Nat.strong_induction_on with
  | _ n ih =>
      intro f1 f2 h1 h2
      match f1, h1 with
      | a + 1, h1 =>
        match f2, h2 with
        | b + 1, h2 =>
          show (if n < 10 then [digitChar n] else natDigitsAux a (n / 10) ++ _) =
            (if n < 10 then [digitChar n] else natDigitsAux b (n / 10) ++ _)
          by_cases hn : n < 10
          · rw [if_pos hn, if_pos hn]
          · rw [if_neg hn, if_neg hn,
              ih (n / 10) (Nat.div_lt_self (by omega) (by norm_num)) a b (by omega) (by omega)]

/-- Unfolding rule of the decimal printer. -/
theorem natDigits_eq (n : Nat) :
    natDigits n = if n < 10 then [digitChar n]
      else natDigits (n / 10) ++ [digitChar (n % 10)] := by
  show natDigitsAux (n + 1) n = _
  show (if n < 10 then [digitChar n] else natDigitsAux n (n / 10) ++ _) = _
  by_cases hn : n < 10
  · rw [if_pos hn, if_pos hn]
  · rw [if_neg hn, if_neg hn,
      natDigitsAux_congr (n / 10) n (n / 10 + 1)
        (Nat.div_lt_self (by omega) (by norm_num)) (by omega)]
    rfl

/-- JavaScript number-to-source-text for the integers the exporter emits. -/
def intStr (n : Int) : Str :=
  if n < 0 then '-' :: natDigits n.natAbs else natDigits n.toNat

/-- Value of a digit list, most significant digit first. -/
def digitsVal (l : Str) : Nat := l.foldl (fun a c => a * 10 + digitVal c) 0

/-- JavaScript `parseInt` restricted to decimal input: skip leading
whitespace, read an optional sign and a non-empty run of digits; `none`
models `NaN`. -/
def jsParseInt (s : Str) : Option Int :=
  match s.dropWhile isJsWs with
  | '-' :: r =>
      let d := r.takeWhile isDigitCh
      if d = [] then none else some (-(digitsVal d : Int))
  | '+' :: r =>
      let d := r.takeWhile isDigitCh
      if d = [] then none else some ((digitsVal d : Int))
  | t =>
      let d := t.takeWhile isDigitCh
      if d = [] then none else some ((digitsVal d : Int))

/-- Membership of a key in an association list (JavaScript `hasOwnProperty`). -/
def aHas {V : Type} (m : List (Str × V)) (k : Str) : Bool := m.any (fun p => p.1 = k)

/-- Lookup in an association list (JavaScript property read; `none` is `undefined`). -/
def aGet {V : Type} (m : List (Str × V)) (k : Str) : Option V :=
  (m.find? (fun p => p.1 = k)).map (fun p => p.2)

/-- JavaScript property assignment `m[k] = v` on an object modelled as an
association list: an existing key is overwritten in place, a new key is
appended (matching JavaScript property-insertion order). -/
def aSet {V : Type} (m : List (Str × V)) (k : Str) (v : V) : List (Str × V) :=
  if m.any (fun p => p.1 = k) then m.map (fun p => if p.1 = k then (k, v) else p)
  else m ++ [(k, v)]

/-! ## Fingering entries (data model shared by the reconciler and the codec)

A JavaScript `fret` value in a fingering entry is a number or one of the
sentinels `'none'`, `null`, `undefined` (`src/js/fretboard.js`,
`src/unnamed/part_000` lines 2814-2852). -/

/-- A JavaScript `fret` field value: a number or one of the three sentinels. -/
inductive FretV where
  | num (n : Int)
  | noneStr
  | null
  | undef
deriving DecidableEq, Repr

/-- A fingering entry `{string, fret, finger}`; `finger` is `none` when the
JavaScript value is `null` or `undefined`. -/
structure FEntry where
  string : Int
  fret : FretV
  finger : Option Int
deriving DecidableEq, Repr

/-- The exporter's per-entry validity test, from `generateExportCode`
(`src/unnamed/part_000` lines 2817-2819 and 2849-2851):
`fret !== undefined && fret !== null && fret !== 'none' && fret !== -1 &&
typeof fret === 'number' && fret >= 0`. -/
def fretIsValid : FretV → Bool
  | .num n => decide (n ≠ -1) && decide (0 ≤ n)
  | _ => false

/-- The spec's validation rule for a "valid" entry, written from the claim's
words for comparison with the exporter's test: `fret` is a number, `fret ≥ -1`,
and not the sentinels `'none'`/`null`/`undefined`. -/
def specValidEntry (f : FEntry) : Bool :=
  match f.fret with
  | .num n => decide (-1 ≤ n)
  | _ => false

/-- `hasValidFingering` from `generateExportCode` (lines 2816-2820):
`fingering.length > 0 && fingering.some(validity test)`. -/
def hasValidFingering (fing : List FEntry) : Bool :=
  decide (0 < fing.length) && fing.any (fun f => fretIsValid f.fret)

/-- Sort key used by the exporter's secondary comparison (lines 2843-2845):
sentinel frets count as `-999`, numeric frets as themselves (`a.fret || 0`
maps the number `0` to `0`). -/
def fretSortKey : FretV → Int
  | .num n => n
  | .noneStr => -999
  | .null => -999
  | .undef => -999

/-- The exporter's fingering comparator as a less-or-equal test:
primary key the string number (`a.string || 0`), secondary key the fret
(lines 2838-2846). -/
def fingeringLe (a b : FEntry) : Bool :=
  if a.string = b.string then decide (fretSortKey a.fret ≤ fretSortKey b.fret)
  else decide (a.string < b.string)

/-- `sortedFingering` from `generateExportCode` (lines 2838-2846). -/
def sortedFingering (fing : List FEntry) : List FEntry :=
  sortByJS fingeringLe fing

/-- `validFingering` from `generateExportCode` (lines 2849-2852): the sorted
list filtered to entries passing the exporter's validity test. -/
def validFingering (fing : List FEntry) : List FEntry :=
  (sortedFingering fing).filter (fun f => fretIsValid f.fret)

/-! ## Facts about the decimal printer and `parseInt` model -/

theorem digitChar_toNat (n : Nat) (h : n < 10) : (digitChar n).toNat = 48 + n := by
  unfold digitChar
  interval_cases n <;> decide

theorem isDigitCh_digitChar (n : Nat) (h : n < 10) : isDigitCh (digitChar n) = true := by
  unfold isDigitCh digitChar
  interval_cases n <;> decide

theorem digitVal_digitChar (n : Nat) (h : n < 10) : digitVal (digitChar n) = n := by
  unfold digitVal digitChar
  interval_cases n <;> decide

theorem not_isJsWs_digitChar (n : Nat) (h : n < 10) : isJsWs (digitChar n) = false := by
  unfold isJsWs digitChar
  interval_cases n <;> decide

theorem natDigits_ne_nil (n : Nat) : natDigits n ≠ [] := by
  rw [natDigits_eq]
  split
  · simp
  · simp

theorem natDigits_all_digits (n : Nat) : ∀ c ∈ natDigits n, isDigitCh c = true := by
  induction n using Nat.strong_induction_on with
  | _ n ih =>
      rw [natDigits_eq]
      split
      · intro c hc
        rw [List.mem_singleton] at hc
        subst hc
        exact isDigitCh_digitChar n (by omega)
      · intro c hc
        rcases List.mem_append.mp hc with h1 | h2
        · exact ih (n / 10) (Nat.div_lt_self (by omega) (by norm_num)) c h1
        · rw [List.mem_singleton] at h2
          subst h2
          exact isDigitCh_digitChar _ (Nat.mod_lt _ (by norm_num))

theorem digitsVal_append_singleton (l : Str) (c : Char) :
    digitsVal (l ++ [c]) = digitsVal l * 10 + digitVal c := by
  unfold digitsVal
  rw [List.foldl_append]
  rfl

theorem digitsVal_natDigits (n : Nat) : digitsVal (natDigits n) = n := by
  induction n using Nat.strong_induction_on with
  | _ n ih =>
      rw [natDigits_eq]
      split
      · rename_i h
        show digitsVal [digitChar n] = n
        unfold digitsVal
        simp [digitVal_digitChar n h]
      · rename_i h
        rw [digitsVal_append_singleton,
          ih (n / 10) (Nat.div_lt_self (by omega) (by norm_num)),
          digitVal_digitChar _ (Nat.mod_lt _ (by norm_num))]
        omega

theorem takeWhile_eq_self_of_all {p : Char → Bool} (l : Str) (h : ∀ c ∈ l, p c = true) :
    l.takeWhile p = l := by
  induction l with
  | nil => rfl
  | cons a t ih =>
      rw [List.takeWhile_cons, h a (List.mem_cons_self a t),
        ih (fun c hc => h c (List.mem_cons_of_mem a hc))]
      simp

theorem natDigits_head_digit (n : Nat) :
    ∃ c t, natDigits n = c :: t ∧ isDigitCh c = true := by
  rcases hd : natDigits n with _ | ⟨c, t⟩
  · exact absurd hd (natDigits_ne_nil n)
  · exact ⟨c, t, rfl, natDigits_all_digits n c (hd ▸ List.mem_cons_self c t)⟩

theorem jsParseInt_intStr (k : Int) : jsParseInt (intStr k) = some k := by
  unfold intStr jsParseInt
  by_cases hk : k < 0
  · rw [if_pos hk, List.dropWhile_cons_of_neg (by decide)]
    split
    · rename_i r heq
      obtain ⟨-, hr⟩ := List.cons.inj heq
      rw [← hr, takeWhile_eq_self_of_all _ (natDigits_all_digits k.natAbs),
        if_neg (natDigits_ne_nil k.natAbs), digitsVal_natDigits]
      congr 1
      omega
    · rename_i r heq
      exact absurd (List.cons.inj heq).1 (by decide)
    · rename_i hn1 hn2
      exact absurd (hn1 (natDigits k.natAbs) rfl) (fun h => h)
  · rw [if_neg hk]
    rcases natDigits_head_digit k.toNat with ⟨c, t, hd, hdig⟩
    have hnw : isJsWs c = false := by
      unfold isDigitCh at hdig
      unfold isJsWs
      rcases Bool.and_eq_true_iff.mp hdig with ⟨h1, h2⟩
      have := of_decide_eq_true h1
      simp only [Bool.or_eq_false_iff, decide_eq_false_iff_not]
      omega
    have hne : c ≠ '-' := by
      intro hc
      subst hc
      exact absurd hdig (by decide)
    have hnp : c ≠ '+' := by
      intro hc
      subst hc
      exact absurd hdig (by decide)
    rw [hd, List.dropWhile_cons_of_neg (by rw [hnw]; decide)]
    split
    · rename_i r heq
      obtain ⟨hc, -⟩ := List.cons.inj heq
      exact absurd hc hne
    · rename_i r heq
      obtain ⟨hc, -⟩ := List.cons.inj heq
      exact absurd hc hnp
    · rw [← hd, takeWhile_eq_self_of_all _ (natDigits_all_digits k.toNat),
        if_neg (natDigits_ne_nil k.toNat), digitsVal_natDigits]
      congr 1
      omega

/-! ## Settings snapshot model

The three settings groups as they appear in a state snapshot handed to the
exporter. An `Option` field is `none` when the key is absent from the stored
object (for `tuning`, `name`, `root` also when it is explicitly `null`, which
the exporter treats identically). -/

/-- Settings Group A as stored (instrument and layout). -/
structure GroupACfg where
  dotTextMode : Option Str := none
  showFretIndicators : Option Str := none
  tuning : Option (List (Int × Str)) := none
  numStrings : Option Int := none
  stringType : Option Str := none
  cssVariables : Option (List (Str × Str)) := none
deriving DecidableEq, Repr

/-- Settings Group B as stored (skin). -/
structure GroupBCfg where
  fretMarkers : Option (List (Int × Str)) := none
  fretboardBindingDisplay : Option Bool := none
  cssVariables : Option (List (Str × Str)) := none
  customCSS : Option Str := none
deriving DecidableEq, Repr

/-- Settings Group C as stored (chord). -/
structure GroupCCfg where
  name : Option Str := none
  root : Option Str := none
  startFret : Option Int := none
  numFrets : Option Int := none
  fingering : Option (List FEntry) := none
deriving DecidableEq, Repr

/-- A full settings snapshot (`state` handed to `generateExportCode`);
an absent group behaves as the empty object `{}`. -/
structure FretboardState where
  settingsGroupA : Option GroupACfg := none
  settingsGroupB : Option GroupBCfg := none
  settingsGroupC : Option GroupCCfg := none
deriving DecidableEq, Repr

/-! ## The exporter `generateExportCode` (`src/unnamed/part_000` lines 2624-2875)

The builder mirrors the source statement by statement. The DOM-derived
inputs are parameters: `containerId` (the target element's id), `targetId`,
and `env`, the computed-style lookup used by `getAllDefaultCSSVariables`
(lines 2564-2622) when `includeAllVariables` is requested. -/

/-- `value.replace(/'/g, "\\'")` (lines 2724 and 2786). -/
def escapeSq (v : Str) : Str :=
  v.flatMap (fun c => if c = sq then [bsl, sq] else [c])

/-- The `customCSS` escaping chain (lines 2798-2802): backslashes, backticks,
newlines, then single quotes, each by a global single-character replace. -/
def escapeCustomCSS (v : Str) : Str :=
  ((((v.flatMap (fun c => if c = bsl then [bsl, bsl] else [c])).flatMap
      (fun c => if c = btick then [bsl, btick] else [c])).flatMap
      (fun c => if c = Char.ofNat 10 then [bsl, 'n'] else [c])).flatMap
      (fun c => if c = sq then [bsl, sq] else [c]))

/-- Lexicographic (code-point) strict comparison of texts, as JavaScript
string comparison orders keys in `Object.keys(x).sort()`. -/
def strLt : Str → Str → Bool
  | [], [] => false
  | [], _ :: _ => true
  | _ :: _, [] => false
  | a :: as, b :: bs => if a < b then true else if b < a then false else strLt as bs

/-- Less-or-equal form of `strLt` for the stable sort model. -/
def strLe (a b : Str) : Bool := !(strLt b a)

/-- Numeric less-or-equal on pairs keyed by integers, for
`sort((a, b) => parseInt(a) - parseInt(b))` over object keys. -/
def intKeyLe (a b : Int × Str) : Bool := decide (a.1 ≤ b.1)

/-- The `groupAVars` list of `getAllDefaultCSSVariables` (lines 2570-2581). -/
def groupAVars : List Str :=
  (["--fretboard-width", "--fretboard-height", "--header-height",
    "--fret-0-height", "--string-thickest-width",
    "--string-thinnest-width", "--dot-size", "--interval-indicator-width",
    "--dot-text-font-size", "--interval-label-font-size",
    "--tuning-label-font-size", "--fret-indicator-font-size",
    "--fret-divider-height", "--fret-divider-width", "--nut-divider-height",
    "--string-1-default-color", "--string-2-default-color",
    "--string-3-default-color", "--string-4-default-color",
    "--string-5-default-color", "--string-6-default-color",
    "--string-7-color", "--string-8-color", "--string-9-color"] : List String).map
    (fun s => s.data)

/-- The `groupBVars` list of `getAllDefaultCSSVariables` (lines 2584-2609). -/
def groupBVars : List Str :=
  (["--tuning-label-color", "--fret-indicator-color",
    "--fret-indicator-secondary", "--fret-indicator-tertiary",
    "--fingerboard-row-0-color", "--fingerboard-row-0-image",
    "--main-fret-area-bg-color", "--main-fret-area-bg-image",
    "--fret-divider-color", "--fret-divider-image",
    "--nut-divider-color", "--nut-divider-image",
    "--fretbinding-width", "--fretbinding-background",
    "--fretbinding-background-image", "--marker-dot-size",
    "--marker-dot-color", "--marker-dot-background-image",
    "--marker-dot-background", "--dot-outer-circle-color",
    "--dot-inner-circle-color", "--dot-text-color",
    "--hover-dot-outer-color", "--hover-dot-outer-border-color",
    "--hover-dot-inner-color", "--hover-dot-text-color",
    "--hover-interval-indicator-text-color",
    "--hover-interval-indicator-border-color", "--interval-root-color",
    "--interval-minor-2nd-color", "--interval-major-2nd-color",
    "--interval-minor-3rd-color", "--interval-major-3rd-color",
    "--interval-perfect-4th-color", "--interval-tritone-color",
    "--interval-perfect-5th-color", "--interval-minor-6th-color",
    "--interval-major-6th-color", "--interval-minor-7th-color",
    "--interval-major-7th-color", "--interval-octave-color",
    "--interval-minor-9th-color", "--interval-major-9th-color",
    "--interval-aug-9th-color", "--interval-perfect-11th-color",
    "--interval-aug-11th-color"] : List String).map (fun s => s.data)

/-- The default `fretMarkers` preset used by the exporter (lines 2644-2648)
in ascending key order (the order `Object.keys` yields for integer keys). -/
def defaultFretMarkers : List (Int × Str) :=
  [(3, ("single").data), (5, ("single").data), (7, ("single").data), (9, ("single").data),
   (12, ("double").data), (15, ("single").data), (17, ("single").data), (19, ("single").data),
   (21, ("single").data), (24, ("double").data)]

/-- One step of the `includeAllVariables` merge (lines 2706-2714 and
2768-2776): a default variable is added only when not already present and
its computed value is non-empty. -/
def addDefaultVar (env : Str → Str) (acc : List (Str × Str)) (name : Str) : List (Str × Str) :=
  if aHas acc name then acc
  else
    let v := jsTrim (env name)
    if v = [] then acc else acc ++ [(name, v)]

/-- The `cssVarsToInclude` map for one group (lines 2702-2715, 2764-2777). -/
def cssVarsToInclude (includeAllVariables : Bool) (env : Str → Str)
    (vars : List Str) (own : List (Str × Str)) : List (Str × Str) :=
  if includeAllVariables then vars.foldl (addDefaultVar env) own else own

/-- The emitted `cssVariables: { ... }` block (lines 2718-2731, 2780-2793);
keys are sorted lexicographically and values have single quotes escaped. -/
def cssVarsBlock (m : List (Str × Str)) : Str :=
  ("        cssVariables: ").data ++ [obr, Char.ofNat 10] ++
  emitLines ((sortByJS strLe (m.map Prod.fst)).map (fun k =>
    ("            ").data ++ [sq] ++ k ++ [sq] ++ (": ").data ++ [sq] ++
      escapeSq ((aGet m k).getD []) ++ [sq])) ++
  ("        ").data ++ [cbr]

/-- The `settingsGroupA` property list (lines 2666-2734). -/
def groupAProps (g : GroupACfg) (includeAllVariables : Bool) (env : Str → Str) : List Str :=
  let mergedDotTextMode := (g.dotTextMode).getD (("note").data)
  let mergedShowFretIndicators := (g.showFretIndicators).getD (("first-fret-cond").data)
  let mergedNumStrings := (g.numStrings).getD 6
  let mergedStringType := (g.stringType).getD (("1").data)
  let mergedCss := (g.cssVariables).getD []
  let base :=
    [("        dotTextMode: ").data ++ [sq] ++ jsOr (some mergedDotTextMode) (("note").data) ++ [sq],
     ("        showFretIndicators: ").data ++ [sq] ++
       jsOr (some mergedShowFretIndicators) (("first-fret-cond").data) ++ [sq],
     ("        numStrings: ").data ++ intStr mergedNumStrings,
     ("        stringType: ").data ++ [sq] ++ jsOr (some mergedStringType) (("1").data) ++ [sq]]
  let tuningProp :=
    match g.tuning with
    | some t =>
        if t = [] then [("        tuning: null").data]
        else
          [("        tuning: ").data ++ [obr, Char.ofNat 10] ++
           emitLines ((sortByJS intKeyLe t).map (fun p =>
             ("            ").data ++ intStr p.1 ++ (": ").data ++ [sq] ++ p.2 ++ [sq])) ++
           ("        ").data ++ [cbr]]
    | none => [("        tuning: null").data]
  let css := cssVarsToInclude includeAllVariables env groupAVars mergedCss
  let cssProp := if css = [] then [] else [cssVarsBlock css]
  base ++ tuningProp ++ cssProp

/-- The `settingsGroupB` property list (lines 2737-2807). -/
def groupBProps (g : GroupBCfg) (includeAllVariables : Bool) (env : Str → Str) : List Str :=
  let markers := (g.fretMarkers).getD defaultFretMarkers
  let markersProp :=
    ("        fretMarkers: ").data ++ [obr, Char.ofNat 10] ++
    emitLines ((sortByJS intKeyLe markers).map (fun p =>
      ("            ").data ++ intStr p.1 ++ (": ").data ++ [sq] ++ p.2 ++ [sq])) ++
    ("        ").data ++ [cbr]
  let bindingProp :=
    ("        fretboardBindingDisplay: ").data ++
    (if (g.fretboardBindingDisplay).getD true then ("true").data else ("false").data)
  let css := cssVarsToInclude includeAllVariables env groupBVars ((g.cssVariables).getD [])
  let cssProp := if css = [] then [] else [cssVarsBlock css]
  let customProp :=
    match g.customCSS with
    | some v =>
        if jsTrim v = [] ∨ v = [] then []
        else [("        customCSS: ").data ++ [sq] ++ escapeCustomCSS v ++ [sq]]
    | none => []
  [markersProp, bindingProp] ++ cssProp ++ customProp

/-- The emitted value of `{ string: .., fret: .., finger: .. }` for one valid
fingering entry (lines 2855-2863). -/
def fingeringEntryLine (f : FEntry) : Str :=
  let fretValue : Int := match f.fret with | .num n => n | _ => 0
  let fingerValue : Int := (f.finger).getD 0
  let stringValue : Int := if f.string = 0 then 1 else f.string
  ("            ").data ++ [obr] ++ (" string: ").data ++ intStr stringValue ++
    (", fret: ").data ++ intStr fretValue ++ (", finger: ").data ++ intStr fingerValue ++
    [' ', cbr]

/-- The `settingsGroupC` property list (lines 2827-2866), emitted only when
`hasValidFingering` holds. -/
def groupCProps (g : GroupCCfg) : List Str :=
  let nameProp :=
    ("        name: ").data ++
    (match g.name with
     | some n => [dq] ++ n ++ [dq]
     | none => ("null").data)
  let rootProp :=
    ("        root: ").data ++
    (match g.root with
     | some r => [dq] ++ r ++ [dq]
     | none => ("null").data)
  let startFretProp := ("        startFret: ").data ++ intStr ((g.startFret).getD 1)
  let numFretsProp := ("        numFrets: ").data ++ intStr ((g.numFrets).getD 4)
  let fing := (g.fingering).getD []
  let fingeringProp :=
    ("        fingering: [").data ++ [Char.ofNat 10] ++
    emitLines ((validFingering fing).map fingeringEntryLine) ++
    ("        ]").data
  [nameProp, rootProp, startFretProp, numFretsProp, fingeringProp]

/-- The `settingsGroupC` section contribution of the exporter (lines
2810-2871): empty unless some fingering entry passes the validity test. -/
def groupCSection (gOpt : Option GroupCCfg) : Str :=
  let g := gOpt.getD {}
  let fing := (g.fingering).getD []
  if hasValidFingering fing then
    [Char.ofNat 10] ++ ("    // Settings Group C - Chord Variables").data ++ [Char.ofNat 10] ++
    ("    settingsGroupC: ").data ++ [obr, Char.ofNat 10] ++
    joinWith [',', Char.ofNat 10] (groupCProps g) ++
    [Char.ofNat 10] ++ ("    ").data ++ [cbr, Char.ofNat 10]
  else []

/-- The `settingsGroupA` section contribution (lines 2666-2735). -/
def groupASection (gOpt : Option GroupACfg) (includeAllVariables : Bool) (env : Str → Str) : Str :=
  let g := gOpt.getD {}
  [Char.ofNat 10] ++ ("    // Settings Group A - Fretboard Variables").data ++ [Char.ofNat 10] ++
  ("    settingsGroupA: ").data ++ [obr, Char.ofNat 10] ++
  joinWith [',', Char.ofNat 10] (groupAProps g includeAllVariables env) ++
  [Char.ofNat 10] ++ ("    ").data ++ [cbr, ',', Char.ofNat 10]

/-- The `settingsGroupB` section contribution (lines 2737-2808). -/
def groupBSection (gOpt : Option GroupBCfg) (includeAllVariables : Bool) (env : Str → Str) : Str :=
  let g := gOpt.getD {}
  [Char.ofNat 10] ++ ("    // Settings Group B - Fretboard Skin").data ++ [Char.ofNat 10] ++
  ("    settingsGroupB: ").data ++ [obr, Char.ofNat 10] ++
  joinWith [',', Char.ofNat 10] (groupBProps g includeAllVariables env) ++
  [Char.ofNat 10] ++ ("    ").data ++ [cbr, ',', Char.ofNat 10]

/-- `generateExportCode` (lines 2624-2875). `containerId` is the DOM id of the
target element (`'my-fretboard'` when absent) and `env` the computed-style
lookup backing `getAllDefaultCSSVariables`. -/
def generateExportCode (state : FretboardState) (containerId targetId : Str)
    (includeGroupA includeGroupB includeGroupC : Bool)
    (includeAllVariables : Bool) (env : Str → Str) : Str :=
  ("Fretboard.init(").data ++ [obr, Char.ofNat 10] ++
  ("    containerId: ").data ++ [sq] ++ containerId ++ [sq, ',', Char.ofNat 10] ++
  ("    fretboardId: ").data ++ [sq] ++ targetId ++ [sq, ',', Char.ofNat 10] ++
  ("    cssPath: ").data ++ [sq] ++ ("fretboard.css").data ++ [sq, ',', Char.ofNat 10] ++
  (if includeGroupA then groupASection state.settingsGroupA includeAllVariables env else []) ++
  (if includeGroupB then groupBSection state.settingsGroupB includeAllVariables env else []) ++
  (if includeGroupC then groupCSection state.settingsGroupC else []) ++
  [cbr] ++ (");").data

/-! ## JavaScript values

The value space for decoded configuration objects and for the stored
settings objects mutated by the update functions. -/

/-- A JavaScript value as produced by evaluating the codec's object
literals: strings, numbers (the integers the codec emits), booleans,
`null`, objects and arrays. -/
inductive JsValue where
  | str (s : Str)
  | num (n : Int)
  | bool (b : Bool)
  | null
  | obj (fields : List (Str × JsValue))
  | arr (elems : List JsValue)
deriving Repr

/-- An object modelled as an ordered association list of properties. -/
abbrev JsObj := List (Str × JsValue)

/-! ## Claim C10: `updateSettingsGroupC` key filtering
(`src/js/fretboard.js` lines 2466-2478 and 83-89) -/

/-- The stored `settingsGroupC` defaults (`defaultSettingsGroupC`,
`src/js/fretboard.js` lines 83-89). -/
def defaultSettingsGroupC : JsObj :=
  [(("name").data, JsValue.null), (("root").data, JsValue.null),
   (("startFret").data, JsValue.num 1), (("numFrets").data, JsValue.num 4),
   (("fingering").data, JsValue.arr [])]

/-- The merge loop of `updateSettingsGroupC` (`src/js/fretboard.js` lines
2474-2478): every key of the incoming settings object except `tuning`,
`numStrings` and `stringType` is written into the stored group. -/
def updateSettingsGroupC (settings : JsObj) (stored : JsObj) : JsObj :=
  settings.foldl (fun st p =>
    if p.1 = ("tuning").data ∨ p.1 = ("numStrings").data ∨ p.1 = ("stringType").data then st
    else aSet st p.1 p.2) stored

/-- A stored group is free of the three Settings-Group-A keys. -/
def noGroupAKeys (st : JsObj) : Prop :=
  aHas st (("tuning").data) = false ∧ aHas st (("numStrings").data) = false ∧
  aHas st (("stringType").data) = false

theorem aHas_aSet {V : Type} (m : List (Str × V)) (k k2 : Str) (v : V) :
    aHas (aSet m k v) k2 = (aHas m k2 || decide (k = k2)) := by
  unfold aSet aHas
  by_cases h : m.any (fun p => p.1 = k) = true
  · rw [if_pos h, List.any_map]
    have hfun : ((fun q : Str × V => decide (q.1 = k2)) ∘ fun p : Str × V =>
        if p.1 = k then (k, v) else p) = (fun p : Str × V => decide (p.1 = k2)) := by
      funext p
      by_cases hp : p.1 = k
      · simp [Function.comp, hp]
      · simp [Function.comp, hp]
    rw [hfun]
    by_cases hk : k = k2
    · subst hk
      rw [h, Bool.true_or]
    · have hd : (decide (k = k2)) = false := decide_eq_false hk
      rw [hd, Bool.or_false]
  · rw [if_neg h, List.any_append]
    simp only [List.any_cons, List.any_nil, Bool.or_false]

theorem noGroupAKeys_updateSettingsGroupC (settings : JsObj) (stored : JsObj)
    (h : noGroupAKeys stored) : noGroupAKeys (updateSettingsGroupC settings stored) := by
  unfold updateSettingsGroupC
  induction settings generalizing stored with
  | nil => exact h
  | cons p t ih =>
      simp only [List.foldl_cons]
      by_cases hp : p.1 = ("tuning").data ∨ p.1 = ("numStrings").data ∨
          p.1 = ("stringType").data
      · rw [if_pos hp]; exact ih stored h
      · rw [if_neg hp]
        push_neg at hp
        refine ih _ ⟨?_, ?_, ?_⟩
        · rw [aHas_aSet, h.1, decide_eq_false hp.1, Bool.or_false]
        · rw [aHas_aSet, h.2.1, decide_eq_false hp.2.1, Bool.or_false]
        · rw [aHas_aSet, h.2.2, decide_eq_false hp.2.2, Bool.or_false]

/-- Claim C10: every call to `updateSettingsGroupC` leaves the stored Settings
Group C free of the keys `tuning`, `numStrings` and `stringType` — the merge
loop filters them out — so starting from `defaultSettingsGroupC` no sequence
of update calls ever stores them. -/
theorem c10_groupC_never_stores_groupA_keys :
    noGroupAKeys defaultSettingsGroupC ∧
    (∀ (settings stored : JsObj), noGroupAKeys stored →
      noGroupAKeys (updateSettingsGroupC settings stored)) ∧
    (∀ updates : List JsObj,
      noGroupAKeys (updates.foldl (fun st u => updateSettingsGroupC u st)
        defaultSettingsGroupC)) := by
  have hdef : noGroupAKeys defaultSettingsGroupC := by
    refine ⟨?_, ?_, ?_⟩ <;> rfl
  refine ⟨hdef, fun settings stored h => noGroupAKeys_updateSettingsGroupC settings stored h, ?_⟩
  intro updates
  have : ∀ st : JsObj, noGroupAKeys st →
      noGroupAKeys (updates.foldl (fun st u => updateSettingsGroupC u st) st) := by
    induction updates with
    | nil => intro st h; exact h
    | cons u t ih =>
        intro st h
        exact ih _ (noGroupAKeys_updateSettingsGroupC u st h)
  exact this defaultSettingsGroupC hdef

/-- Witness for `c10_groupC_never_stores_groupA_keys`: an update that tries to
write `tuning` and `numStrings` (alongside a legitimate `name`) leaves the
stored group free of the filtered keys. -/
theorem c10_witness :
    noGroupAKeys (updateSettingsGroupC
      [(("tuning").data, JsValue.null), (("numStrings").data, JsValue.num 4),
       (("name").data, JsValue.str (("Am").data))] defaultSettingsGroupC) :=
  (c10_groupC_never_stores_groupA_keys).2.1
    [(("tuning").data, JsValue.null), (("numStrings").data, JsValue.num 4),
     (("name").data, JsValue.str (("Am").data))] defaultSettingsGroupC
    ⟨rfl, rfl, rfl⟩

/-! ## Helper lemmas about the stable sort model -/

theorem insertByJS_perm (le : α → α → Bool) (a : α) (l : List α) :
    (insertByJS le a l).Perm (a :: l) := by
  induction l with
  | nil => simp [insertByJS]
  | cons b t ih =>
      simp only [insertByJS]
      split
      · exact (List.Perm.cons b ih).trans (List.Perm.swap a b t)
      · exact List.Perm.refl _

theorem foldl_insertByJS_perm (le : α → α → Bool) (l acc : List α) :
    (l.foldl (fun acc a => insertByJS le a acc) acc).Perm (l ++ acc) := by
  induction l generalizing acc with
  | nil => simp
  | cons a t ih =>
      simp only [List.foldl_cons, List.cons_append]
      refine (ih (insertByJS le a acc)).trans ?_
      refine (List.Perm.append_left t (insertByJS_perm le a acc)).trans ?_
      exact List.perm_middle

theorem sortByJS_perm (le : α → α → Bool) (l : List α) :
    (sortByJS le l).Perm l := by
  simpa using foldl_insertByJS_perm le l []

theorem mem_sortedFingering (fing : List FEntry) (f : FEntry) :
    f ∈ sortedFingering fing ↔ f ∈ fing :=
  (sortByJS_perm fingeringLe fing).mem_iff

theorem mem_validFingering (fing : List FEntry) (f : FEntry) :
    f ∈ validFingering fing ↔ f ∈ fing ∧ fretIsValid f.fret = true := by
  unfold validFingering
  rw [List.mem_filter, mem_sortedFingering]

/-! ## Claim C2 -/

/-- Claim C2, counterexample: the entry `{string: 3, fret: -1, finger: 0}` is
valid under the claim's stated rule (`fret` a number, `fret ≥ -1`, no
sentinel), yet the exporter omits the `settingsGroupC` section entirely for a
fingering consisting of it, because the code's validity test requires
`fret >= 0` and `fret !== -1`. -/
theorem c2_counterexample :
    specValidEntry ⟨3, FretV.num (-1), some 0⟩ = true ∧
    groupCSection (some { ({} : GroupCCfg) with
      name := some (("Am").data),
      fingering := some [⟨3, FretV.num (-1), some 0⟩] }) = [] := by
  constructor
  · decide
  · rfl

/-- Claim C2 (amended): the exporter's validity rule is `fret` a number with
`fret ≥ 0`, i.e. the claim's rule strengthened to exclude the `-1` sentinel;
with that rule, the `settingsGroupC` section is omitted exactly when no entry
is valid, invalid entries are dropped from the emitted list rather than
raising an error (the emitted list holds exactly the valid members of the
input), and `fret = -1` sentinel entries never appear in the emitted list. -/
theorem c2_exporter_validity (g : GroupCCfg) (fing : List FEntry) :
    (∀ f : FEntry, fretIsValid f.fret =
      (specValidEntry f && !(decide (f.fret = FretV.num (-1))))) ∧
    hasValidFingering fing = fing.any (fun f => fretIsValid f.fret) ∧
    (hasValidFingering fing = false →
      groupCSection (some { g with fingering := some fing }) = []) ∧
    (∀ f : FEntry, f ∈ validFingering fing ↔ f ∈ fing ∧ fretIsValid f.fret = true) ∧
    (∀ (s : Int) (fin : Option Int),
      FEntry.mk s (FretV.num (-1)) fin ∉ validFingering fing) := by
  refine ⟨?_, ?_, ?_, ?_, ?_⟩
  · intro f
    rcases f with ⟨s, fr, fin⟩
    cases fr with
    | num n =>
        simp only [fretIsValid, specValidEntry]
        by_cases h : n = -1
        · subst h; rfl
        · have h1 : (decide (FretV.num n = FretV.num (-1))) = false := by
            simp [h]
          have h2 : (decide (n ≠ -1)) = true := by simp [h]
          rw [h1, h2, Bool.not_false, Bool.and_true, Bool.true_and]
          exact decide_eq_decide.mpr (by omega)
    | noneStr => rfl
    | null => rfl
    | undef => rfl
  · unfold hasValidFingering
    cases fing with
    | nil => rfl
    | cons a t => simp [List.any_cons]
  · intro h
    simp only [groupCSection, Option.getD]
    simp [h]
  · exact mem_validFingering fing
  · intro s fin hmem
    rw [mem_validFingering] at hmem
    simpa [fretIsValid] using hmem.2

/-- Witness for `c2_exporter_validity` at a concrete input: a fingering whose
single entry has the sentinel fret `'none'` is exported with no
`settingsGroupC` section. -/
theorem c2_exporter_validity_witness :
    groupCSection (some { ({} : GroupCCfg) with
      fingering := some [⟨1, FretV.noneStr, none⟩] }) = [] :=
  (c2_exporter_validity {} [⟨1, FretV.noneStr, none⟩]).2.2.1 (by decide)

/-! ## Claim C9: `applyFretHeights` (`src/js/fretboard.js` lines 1035-1149)

The geometry pass is modelled over the reals. The DOM-derived inputs are
parameters: the wrapper's measured height, the `--header-height` and
`--fret-0-height` style values, and the set of visible fret rows (row `i`
for `1 ≤ i ≤ 24` is visible when `startFret ≤ i < startFret + numFrets`,
`generateFretRows`/`setChordConfiguration` lines 935-937; row 0 always
exists and is never hidden). `NaN` has no counterpart in the real-number
model; the `isNaN` guards are noted where they occur. -/

/-- The equal-tempered fret ratio `Math.pow(2, -1/12)` (line 1099). -/
noncomputable def fretRatio : ℝ := (2 : ℝ) ^ ((-1 : ℝ) / 12)

/-- The `allFretRows` collection of `applyFretHeights` (lines 1101-1107):
row numbers `0..24` whose element exists, is not inside a non-interactive
row, and is not hidden; row 0 always qualifies, row `i ≥ 1` qualifies when
`startFret ≤ i < startFret + numFrets`. -/
def visibleFretRows (startFret numFrets : Int) : List Nat :=
  (List.range 25).filter (fun i =>
    decide (i = 0) || (decide (startFret ≤ (i : Int)) && decide ((i : Int) < startFret + numFrets)))

/-- The `ratioSum` accumulation loop (lines 1121-1125): the rows list minus
its first element, summing `fretRatio ^ fretNumber`. -/
noncomputable def ratioSum (rows : List Nat) : ℝ :=
  (rows.drop 1).foldl (fun s f => s + fretRatio ^ f) 0

/-- `applyFretHeights` (lines 1035-1149) as a function from the measured
heights and the visible rows to the written per-row heights, or `none` when
the pass defers (`requestAnimationFrame` retry, lines 1075-1081 and
1090-1096) or aborts (lines 1116-1119 and 1128-1131). A height is written
only when it passes the final `height > 0` check (line 1142). -/
noncomputable def applyFretHeights (actualHeight headerHeight fret0Height : ℝ)
    (rows : List Nat) : Option (List (Nat × ℝ)) :=
  if actualHeight ≤ 0 then none
  else if fret0Height ≤ 0 then none
  else
    let availableHeight := actualHeight - headerHeight - fret0Height
    if availableHeight ≤ 0 then none
    else
      let rs := ratioSum rows
      if rs = 0 then none
      else
        let baseHeight := availableHeight / rs
        some ((rows.drop 1).filterMap (fun f =>
          let height := baseHeight * fretRatio ^ f
          if 0 < height then some (f, height) else none))

theorem fretRatio_pos : 0 < fretRatio :=
  Real.rpow_pos_of_pos (by norm_num) _

theorem fretRatio_lt_one : fretRatio < 1 :=
  Real.rpow_lt_one_of_one_lt_of_neg (by norm_num) (by norm_num)

theorem ratioSum_eq_sum (rows : List Nat) :
    ratioSum rows = ((rows.drop 1).map (fun f => fretRatio ^ f)).sum := by
  unfold ratioSum
  generalize rows.drop 1 = t
  have : ∀ (l : List Nat) (a : ℝ),
      l.foldl (fun s f => s + fretRatio ^ f) a = a + (l.map (fun f => fretRatio ^ f)).sum := by
    intro l
    induction l with
    | nil => intro a; simp
    | cons x xs ih => intro a; simp [ih, add_assoc]
  simpa using this t 0

theorem ratioSum_pos (rows : List Nat) (h : rows.drop 1 ≠ []) : 0 < ratioSum rows := by
  rw [ratioSum_eq_sum]
  apply List.sum_pos
  · intro x hx
    rcases List.mem_map.mp hx with ⟨f, _, rfl⟩
    exact pow_pos fretRatio_pos f
  · simp only [ne_eq, List.map_eq_nil_iff]
    exact h

theorem visibleFretRows_drop_one (startFret numFrets : Int) :
    (visibleFretRows startFret numFrets).drop 1 =
      (List.range' 1 24).filter (fun i : Nat =>
        decide (startFret ≤ (i : Int)) && decide ((i : Int) < startFret + numFrets)) := by
  have h25 : List.range 25 = 0 :: List.range' 1 24 := by decide
  unfold visibleFretRows
  rw [h25]
  rw [List.filter_cons_of_pos (by rfl)]
  simp only [List.drop_one, List.tail_cons]
  apply List.filter_congr
  intro i hi
  have h1 : 1 ≤ i := (List.mem_range'_1.mp hi).1
  have : (decide (i = 0)) = false := by
    apply decide_eq_false
    omega
  rw [this, Bool.false_or]

/-- Claim C9: `applyFretHeights` assigns every visible fret row `f > 0` the
height `baseHeight * fretRatio ^ f` with
`baseHeight = availableHeight / ratioSum`; heights strictly decrease as the
fret number increases for any positive available height; the pass returns
`none` (deferred or aborted, nothing written) when the available height is
not positive or the ratio sum is zero; and a written height is never
non-positive. -/
theorem c9_applyFretHeights (actual header fret0 : ℝ) (startFret numFrets : Int)
    (hact : 0 < actual) (hf0 : 0 < fret0)
    (havail : 0 < actual - header - fret0)
    (hrows : (visibleFretRows startFret numFrets).drop 1 ≠ []) :
    let rows := visibleFretRows startFret numFrets
    let base := (actual - header - fret0) / ratioSum rows
    (applyFretHeights actual header fret0 rows =
      some ((rows.drop 1).map (fun f => (f, base * fretRatio ^ f)))) ∧
    (∀ f, f ∈ rows.drop 1 ↔
      (0 < f ∧ f < 25 ∧ startFret ≤ (f : Int) ∧ (f : Int) < startFret + numFrets)) ∧
    (∀ f g : Nat, f < g → base * fretRatio ^ g < base * fretRatio ^ f) ∧
    (∀ (a h2 f0 : ℝ) (rs : List Nat), a - h2 - f0 ≤ 0 →
      applyFretHeights a h2 f0 rs = none) ∧
    (∀ (a h2 f0 : ℝ) (rs : List Nat), ratioSum rs = 0 →
      applyFretHeights a h2 f0 rs = none) ∧
    (∀ (a h2 f0 : ℝ) (rs : List Nat) (out : List (Nat × ℝ)),
      applyFretHeights a h2 f0 rs = some out → ∀ p ∈ out, 0 < p.2) := by
  intro rows base
  have hrs : 0 < ratioSum rows := ratioSum_pos rows hrows
  have hbase : 0 < base := div_pos havail hrs
  have hpos : ∀ f : Nat, 0 < base * fretRatio ^ f := fun f =>
    mul_pos hbase (pow_pos fretRatio_pos f)
  refine ⟨?_, ?_, ?_, ?_, ?_, ?_⟩
  · unfold applyFretHeights
    rw [if_neg (not_le.mpr hact), if_neg (not_le.mpr hf0), if_neg (not_le.mpr havail),
      if_neg (ne_of_gt hrs)]
    have heq : ∀ t : List Nat, (∀ f ∈ t, (0:ℝ) < base * fretRatio ^ f) →
        t.filterMap (fun f =>
          let height := base * fretRatio ^ f
          if 0 < height then some (f, height) else none) =
        t.map (fun f => (f, base * fretRatio ^ f)) := by
      intro t
      induction t with
      | nil => intro; rfl
      | cons x xs ih =>
          intro hall
          rw [List.filterMap_cons, List.map_cons]
          simp only [if_pos (hall x (List.mem_cons_self x xs))]
          rw [ih (fun f hf => hall f (List.mem_cons_of_mem x hf))]
    exact congrArg some (heq (rows.drop 1) (fun f _ => hpos f))
  · intro f
    rw [visibleFretRows_drop_one, List.mem_filter, List.mem_range'_1]
    constructor
    · rintro ⟨⟨hge, hlt⟩, hp⟩
      rcases Bool.and_eq_true_iff.mp hp with ⟨ha, hb⟩
      exact ⟨by omega, by omega, of_decide_eq_true ha, of_decide_eq_true hb⟩
    · rintro ⟨h1, h2, h3, h4⟩
      refine ⟨⟨by omega, by omega⟩, ?_⟩
      rw [Bool.and_eq_true_iff]
      exact ⟨decide_eq_true h3, decide_eq_true h4⟩
  · intro f g hfg
    have := pow_lt_pow_right_of_lt_one₀ fretRatio_pos fretRatio_lt_one hfg
    exact (mul_lt_mul_left hbase).mpr this
  · intro a h2 f0 rs hle
    unfold applyFretHeights
    by_cases c1 : a ≤ 0
    · rw [if_pos c1]
    · rw [if_neg c1]
      by_cases c2 : f0 ≤ 0
      · rw [if_pos c2]
      · rw [if_neg c2, if_pos hle]
  · intro a h2 f0 rs hzero
    unfold applyFretHeights
    by_cases c1 : a ≤ 0
    · rw [if_pos c1]
    · rw [if_neg c1]
      by_cases c2 : f0 ≤ 0
      · rw [if_pos c2]
      · rw [if_neg c2]
        by_cases c3 : a - h2 - f0 ≤ 0
        · rw [if_pos c3]
        · rw [if_neg c3, if_pos hzero]
  · intro a h2 f0 rs out hsome p hp
    unfold applyFretHeights at hsome
    by_cases c1 : a ≤ 0
    · rw [if_pos c1] at hsome; exact absurd hsome (by simp)
    · rw [if_neg c1] at hsome
      by_cases c2 : f0 ≤ 0
      · rw [if_pos c2] at hsome; exact absurd hsome (by simp)
      · rw [if_neg c2] at hsome
        by_cases c3 : a - h2 - f0 ≤ 0
        · rw [if_pos c3] at hsome; exact absurd hsome (by simp)
        · rw [if_neg c3] at hsome
          by_cases c4 : ratioSum rs = 0
          · rw [if_pos c4] at hsome; exact absurd hsome (by simp)
          · rw [if_neg c4] at hsome
            have hout := Option.some.inj hsome
            subst hout
            rcases List.mem_filterMap.mp hp with ⟨f, _, hf⟩
            by_cases hh : (0:ℝ) < (a - h2 - f0) / ratioSum rs * fretRatio ^ f
            · simp only [if_pos hh] at hf
              cases hf
              exact hh
            · simp only [if_neg hh] at hf
              exact Option.noConfusion hf

/-- Witness for `c9_applyFretHeights`: concrete measured heights 500/40/60
and the default window `startFret = 1`, `numFrets = 4`. -/
theorem c9_applyFretHeights_witness :
    (0:ℝ) < 500 ∧ (0:ℝ) < 60 ∧ (0:ℝ) < 500 - 40 - 60 ∧
    (visibleFretRows 1 4).drop 1 ≠ [] ∧
    (∀ f g : Nat, f < g →
      (500 - 40 - 60) / ratioSum (visibleFretRows 1 4) * fretRatio ^ g <
      (500 - 40 - 60) / ratioSum (visibleFretRows 1 4) * fretRatio ^ f) := by
  refine ⟨by norm_num, by norm_num, by norm_num, by decide, ?_⟩
  exact (c9_applyFretHeights 500 40 60 1 4 (by norm_num) (by norm_num) (by norm_num)
    (by decide)).2.2.1

/-! ## The rendered diagram (`src/js/fretboard.js`)

Dot state lives in the DOM: one cell per fret row (`0..24`, all of which
exist once the diagram is initialized; rows outside the visible window are
hidden but still present and still found by the id and selector queries the
functions below use) and per string column (`1..numCols` piece wrappers per
row). A cell holds a playable dot (`.fingering_dot`) with its text and
attributes, and an unplayed (muted) marker (`.fingering_dot_unplayed`).
Attribute reads that yield `null` and empty strings are both modelled as
`[]`, matching how every use site tests them for truthiness. The 200 ms
`setTimeout` class removals are modelled as already settled. -/

/-- The per-cell dot state of one fingerboard piece wrapper. -/
structure DotCell where
  dotActive : Bool := false
  dotText : Str := []
  noteData : Str := []
  fingerData : Str := []
  interval : Str := []
  intervalAttr : Str := []
  intervalColor : Str := []
  intervalActive : Bool := false
deriving DecidableEq, Repr

/-- The rendered diagram for one target: the number of string columns per
row, the playable-dot cells, and the muted-marker `active` flags. -/
structure Diagram where
  numCols : Nat
  cells : Nat → Nat → DotCell
  unplayedActive : Nat → Nat → Bool

/-- A freshly generated diagram: nothing active, no text, no attributes. -/
def emptyDiagram (numCols : Nat) : Diagram :=
  { numCols := numCols, cells := fun _ _ => {}, unplayedActive := fun _ _ => false }

/-- One record of `PERSISTENT_DOT_STATE` (`saveDotState`,
`src/js/fretboard.js` lines 476-498); `isUnplayed` distinguishes the
`type: 'unplayed'` records. -/
structure SavedDot where
  fret : Int
  string : Nat
  isUnplayed : Bool
  text : Str := []
  noteData : Str := []
  fingerData : Str := []
  interval : Str := []
  intervalAttr : Str := []
  intervalColor : Str := []
  intervalActive : Bool := false
deriving DecidableEq, Repr

/-- `saveDotState` (lines 428-501): scan every fret row and string column;
an active playable dot is recorded with its text and attributes, otherwise
an active muted marker is recorded with `fret: -1` when it sits on fret 0.
Header and nut rows hold no dots and contribute nothing. -/
def saveDotState (d : Diagram) : List SavedDot :=
  (List.range 25).flatMap (fun fret =>
    (List.range' 1 d.numCols).filterMap (fun s =>
      let c := d.cells fret s
      if c.dotActive then
        some { fret := (fret : Int), string := s, isUnplayed := false,
               text := c.dotText, noteData := c.noteData, fingerData := c.fingerData,
               interval := c.interval, intervalAttr := c.intervalAttr,
               intervalColor := c.intervalColor, intervalActive := c.intervalActive }
      else if d.unplayedActive fret s then
        some { fret := if fret = 0 then -1 else (fret : Int), string := s, isUnplayed := true }
      else none))

/-- `restoreDotState` (lines 604-657): each saved record looks up the fret
row `chord_builder_fret_row_wrapper_${state.fret}` — which exists only for
`0 ≤ fret ≤ 24` — and the string's piece wrapper, then re-activates the
marker and rewrites the non-empty saved text fields. -/
def restoreDotState (saved : List SavedDot) (d : Diagram) : Diagram :=
  saved.foldl (fun d st =>
    if st.fret < 0 ∨ 24 < st.fret then d
    else if st.string < 1 ∨ d.numCols < st.string then d
    else
      let fret := st.fret.toNat
      if st.isUnplayed then
        { d with unplayedActive := fun f s =>
            if f = fret ∧ s = st.string then true else d.unplayedActive f s }
      else
        { d with cells := fun f s =>
            if f = fret ∧ s = st.string then
              let c := d.cells f s
              { c with
                dotActive := true,
                dotText := st.text,
                noteData := if st.noteData ≠ [] then st.noteData else c.noteData,
                fingerData := if st.fingerData ≠ [] then st.fingerData else c.fingerData,
                interval := if st.interval ≠ [] then st.interval else c.interval,
                intervalActive := if st.interval ≠ [] then
                    (if st.intervalActive then true else c.intervalActive)
                  else c.intervalActive,
                intervalAttr := if st.interval ≠ [] then
                    (if st.intervalAttr ≠ [] then st.intervalAttr else c.intervalAttr)
                  else c.intervalAttr,
                intervalColor := if st.interval ≠ [] then
                    (if st.intervalColor ≠ [] then st.intervalColor else c.intervalColor)
                  else c.intervalColor }
            else d.cells f s }) d

/-- The structural-change path of `updateSettingsGroupA` for `numStrings`
and `stringType` (lines 2098-2121, 2129-2152): capture the dot state,
regenerate the diagram (fresh rows, possibly a new column count), restore
the captured state. -/
def updateSettingsGroupA_structural (d : Diagram) (newNumCols : Nat) : Diagram :=
  restoreDotState (saveDotState d) (emptyDiagram newNumCols)

/-! ## Claim C5 -/

theorem restoreDotState_skips_negative_frets (sts : List SavedDot) (d : Diagram)
    (h : ∀ st ∈ sts, st.fret < 0) : restoreDotState sts d = d := by
  unfold restoreDotState
  induction sts with
  | nil => rfl
  | cons st t ih =>
      rw [List.foldl_cons, if_pos (Or.inl (h st (List.mem_cons_self st t)))]
      exact ih (fun x hx => h x (List.mem_cons_of_mem st hx))

/-- A diagram with an active muted marker on fret 0 of string 3 and an
active playable dot on fret 2 of string 1 (finger 2): the failing input for
the dot-state restoration path. -/
def c5ExampleDiagram : Diagram :=
  { numCols := 6,
    cells := fun f s =>
      if f = 2 ∧ s = 1 then
        { dotActive := true, dotText := ("A").data, noteData := ("A").data,
          fingerData := ("2").data }
      else {},
    unplayedActive := fun f s => decide (f = 0) && decide (s = 3) }

/-- Claim C5, failing input: regenerating via the `updateSettingsGroupA`
structural path preserves the playable dot (with its labels) but silently
drops the muted marker — `saveDotState` records it with `fret: -1` and
`restoreDotState` then looks up fret row `-1`, which does not exist. -/
theorem c5_muted_marker_lost :
    c5ExampleDiagram.unplayedActive 0 3 = true ∧
    ((saveDotState c5ExampleDiagram).any (fun st =>
      st.isUnplayed && decide (st.fret = -1) && decide (st.string = 3))) = true ∧
    (updateSettingsGroupA_structural c5ExampleDiagram 6).unplayedActive 0 3 = false ∧
    ((updateSettingsGroupA_structural c5ExampleDiagram 6).cells 2 1).dotActive = true ∧
    ((updateSettingsGroupA_structural c5ExampleDiagram 6).cells 2 1).fingerData = ("2").data ∧
    (∀ f s, (updateSettingsGroupA_structural c5ExampleDiagram 6).unplayedActive f s = false) := by
  refine ⟨rfl, by decide, rfl, rfl, rfl, ?_⟩
  intro f s
  have hneg : ∀ st ∈ (saveDotState c5ExampleDiagram).filter (fun st => st.isUnplayed),
      st.fret < 0 := by decide
  show (restoreDotState (saveDotState c5ExampleDiagram) (emptyDiagram 6)).unplayedActive f s = false
  have : ∀ (sts : List SavedDot) (d : Diagram),
      (∀ st ∈ sts, st.isUnplayed = true → st.fret < 0) →
      (∀ f s, d.unplayedActive f s = false) →
      ∀ f s, (restoreDotState sts d).unplayedActive f s = false := by
    intro sts
    unfold restoreDotState
    induction sts with
    | nil => intro d _ hd; exact hd
    | cons st t ih =>
        intro d hall hd
        rw [List.foldl_cons]
        by_cases h1 : st.fret < 0 ∨ 24 < st.fret
        · rw [if_pos h1]
          exact ih d (fun x hx => hall x (List.mem_cons_of_mem st hx)) hd
        · rw [if_neg h1]
          by_cases h2 : st.string < 1 ∨ d.numCols < st.string
          · rw [if_pos h2]
            exact ih d (fun x hx => hall x (List.mem_cons_of_mem st hx)) hd
          · rw [if_neg h2]
            by_cases h3 : st.isUnplayed
            · exact absurd (hall st (List.mem_cons_self st t) h3) (by push_neg at h1; omega)
            · rw [if_neg h3]
              exact ih _ (fun x hx => hall x (List.mem_cons_of_mem st hx)) hd
  refine this _ _ ?_ (fun _ _ => rfl) f s
  intro st hst hu
  exact hneg st (List.mem_filter.mpr ⟨hst, hu⟩)

/-! ## Click interactivity and chord application

`addDotInteractivity` (lines 1243-1360), `clearStringDots` (lines
1215-1241), `updateDotContent` (lines 1179-1213), `clearChord` (lines
1588-1634), `displayChord`'s fingering loop (lines 1784-1871) and
`getFingeringFromDotState` (lines 509-602). The pitch/interval environment
(`getNoteAtFret`, `getInterval`, `DOT_TEXT_MODE`, `CURRENT_CHORD_ROOT`) is
passed as parameters `noteAt`, `intervalOf`, `mode`, `root`. -/

/-- `clearStringDots` (lines 1215-1241): deactivate the playable dot and the
muted marker of one string in every interactive row (timeouts settled). -/
def clearStringDots (stringNumber : Nat) (d : Diagram) : Diagram :=
  { d with
    cells := fun f s =>
      if s = stringNumber then { d.cells f s with dotActive := false } else d.cells f s,
    unplayedActive := fun f s =>
      if s = stringNumber then false else d.unplayedActive f s }

/-- Activate the playable dot of one cell. -/
def activateDot (fret s : Nat) (d : Diagram) : Diagram :=
  { d with cells := fun f c =>
      if f = fret ∧ c = s then { d.cells f c with dotActive := true } else d.cells f c }

/-- Deactivate the playable dot of one cell (timeout settled). -/
def deactivateDot (fret s : Nat) (d : Diagram) : Diagram :=
  { d with cells := fun f c =>
      if f = fret ∧ c = s then { d.cells f c with dotActive := false } else d.cells f c }

/-- Activate the muted marker of one cell. -/
def activateUnplayed (fret s : Nat) (d : Diagram) : Diagram :=
  { d with unplayedActive := fun f c =>
      if f = fret ∧ c = s then true else d.unplayedActive f c }

/-- Deactivate the muted marker of one cell (timeout settled). -/
def deactivateUnplayed (fret s : Nat) (d : Diagram) : Diagram :=
  { d with unplayedActive := fun f c =>
      if f = fret ∧ c = s then false else d.unplayedActive f c }

/-- `updateDotContent` (lines 1179-1213): rewrite the clicked dot's note
text and interval label from the pitch environment; activity flags are not
touched. -/
def updateDotContent (mode : Str) (root : Option Str)
    (noteAt : Nat → Nat → Option Str) (intervalOf : Str → Str → Nat → Str)
    (fret s : Nat) (d : Diagram) : Diagram :=
  { d with cells := fun f c =>
      if f = fret ∧ c = s then
        let cell := d.cells f c
        let cell1 :=
          match noteAt s fret with
          | some note =>
              { cell with noteData := note,
                          dotText := if mode = ("note").data then note else [] }
          | none => cell
        match root, noteAt s fret with
        | some r, some note =>
            { cell1 with interval := intervalOf r note fret,
                         intervalAttr := intervalOf r note fret,
                         intervalColor := [] }
        | _, _ => { cell1 with interval := [], intervalAttr := [] }
      else d.cells f c }

/-- The click handler installed by `addDotInteractivity` (lines 1265-1356)
for a click on the piece wrapper of row `fret`, string `s`;
`clickedUnplayed` tells whether the click landed on the muted-marker element
itself (only meaningful on fret 0). Timeout-deferred class removals are
settled. -/
def clickCell (mode : Str) (root : Option Str)
    (noteAt : Nat → Nat → Option Str) (intervalOf : Str → Str → Nat → Str)
    (fret s : Nat) (clickedUnplayed : Bool) (d : Diagram) : Diagram :=
  if fret = 0 then
    let dotActive := (d.cells 0 s).dotActive
    let unplayedActive := d.unplayedActive 0 s
    if clickedUnplayed then
      if unplayedActive = false then
        let d1 := if dotActive then deactivateDot 0 s d else d
        activateUnplayed 0 s (clearStringDots s d1)
      else deactivateUnplayed 0 s d
    else
      if dotActive = false ∧ unplayedActive = false then
        updateDotContent mode root noteAt intervalOf 0 s
          (activateDot 0 s (clearStringDots s d))
      else if dotActive = true ∧ unplayedActive = false then
        activateUnplayed 0 s (deactivateDot 0 s d)
      else if dotActive = false ∧ unplayedActive = true then
        deactivateUnplayed 0 s d
      else d
  else
    if (d.cells fret s).dotActive = false then
      updateDotContent mode root noteAt intervalOf fret s
        (activateDot fret s (clearStringDots s d))
    else deactivateDot fret s d

/-- `clearChord` (lines 1588-1634): deactivate every playable dot and muted
marker and clear the interval labels (timeouts settled). -/
def clearChordState (d : Diagram) : Diagram :=
  { d with
    cells := fun f s =>
      { d.cells f s with dotActive := false, interval := [], intervalAttr := [],
                         intervalActive := false },
    unplayedActive := fun _ _ => false }

/-- The mutations `displayChord` performs on the dot of one targeted cell
(lines 1811-1867): activate it, write `data-finger` when `finger` is
present, write the text per the display mode, and fill or clear the
interval label (the label's background colour is cleared when no custom
colour applies; custom interval colours are not modelled). -/
def appliedCell (mode : Str) (root : Option Str) (showIntervals : Bool)
    (noteAt : Nat → Nat → Option Str) (intervalOf : Str → Str → Nat → Str)
    (fret s : Nat) (efin : Option Int) (cell : DotCell) : DotCell :=
  { cell with
    dotActive := true,
    fingerData :=
      match efin with
      | some k => intStr k
      | none => cell.fingerData,
    dotText :=
      if mode = ("finger").data then
        match efin with
        | some k => intStr k
        | none => cell.dotText
      else
        match noteAt s fret with
        | some nt => if mode = ("note").data then nt else cell.dotText
        | none => cell.dotText,
    interval :=
      match showIntervals, root, noteAt s fret with
      | true, some r, some nt =>
          if intervalOf r nt fret ≠ [] then intervalOf r nt fret else cell.interval
      | _, _, _ => [],
    intervalAttr :=
      match showIntervals, root, noteAt s fret with
      | true, some r, some nt =>
          if intervalOf r nt fret ≠ [] then intervalOf r nt fret else cell.intervalAttr
      | _, _, _ => [],
    intervalActive :=
      match showIntervals, root, noteAt s fret with
      | true, some r, some nt =>
          if intervalOf r nt fret ≠ [] then true else cell.intervalActive
      | _, _, _ => false,
    intervalColor :=
      match showIntervals, root, noteAt s fret with
      | true, some r, some nt =>
          if intervalOf r nt fret ≠ [] then [] else cell.intervalColor
      | _, _, _ => cell.intervalColor }

/-- One iteration of `displayChord`'s fingering loop (lines 1784-1871):
sentinel frets are skipped; `fret = -1` activates the muted marker on fret
0; a fret `0..24` whose row and string column exist gets `appliedCell`
applied to it. A `finger` that is `null`/`undefined` leaves the stored
attribute untouched. -/
def applyFingeringEntry (mode : Str) (root : Option Str) (showIntervals : Bool)
    (noteAt : Nat → Nat → Option Str) (intervalOf : Str → Str → Nat → Str)
    (d : Diagram) (e : FEntry) : Diagram :=
  match e.fret with
  | .null => d
  | .undef => d
  | .noneStr => d
  | .num n =>
      if n = -1 then
        if 1 ≤ e.string ∧ e.string ≤ (d.numCols : Int) then
          activateUnplayed 0 e.string.toNat d
        else d
      else
        if 0 ≤ n ∧ n ≤ 24 ∧ 1 ≤ e.string ∧ e.string ≤ (d.numCols : Int) then
          { d with cells := fun f c =>
              if f = n.toNat ∧ c = e.string.toNat then
                (appliedCell mode root showIntervals noteAt intervalOf
                  n.toNat e.string.toNat e.finger (d.cells f c))
              else d.cells f c }
        else d

/-- The fingering-application part of `displayChord` (lines 1688 and
1784-1871): clear the chord, then apply each entry in order. -/
def displayChordFingering (mode : Str) (root : Option Str) (showIntervals : Bool)
    (noteAt : Nat → Nat → Option Str) (intervalOf : Str → Str → Nat → Str)
    (fingering : List FEntry) (d : Diagram) : Diagram :=
  fingering.foldl (applyFingeringEntry mode root showIntervals noteAt intervalOf)
    (clearChordState d)

/-- `getFingeringFromDotState` (lines 509-602), reading the DOM directly:
scan every fret row in order and every string column; an active playable
dot yields `{string, fret, finger: parseInt(data-finger) or 0}`, otherwise
an active muted marker on fret 0 yields `{string, fret: -1, finger: 0}`.
`none` as the derived finger models a `NaN` parse. -/
def getFingeringFromDotState (d : Diagram) : List FEntry :=
  (List.range 25).flatMap (fun fret =>
    (List.range' 1 d.numCols).filterMap (fun s =>
      let c := d.cells fret s
      if c.dotActive then
        some { string := (s : Int), fret := .num (fret : Int),
               finger := if c.fingerData = [] then some 0 else jsParseInt c.fingerData }
      else if d.unplayedActive fret s ∧ fret = 0 then
        some { string := (s : Int), fret := .num (-1), finger := some 0 }
      else none))

/-! ## Characterizing the fingering application -/

/-- Whether one fingering entry makes `displayChord` activate the playable
dot of cell `(f, s)` on a diagram with `numCols` string columns. -/
def targetsDot (numCols : Nat) (f s : Nat) (e : FEntry) : Bool :=
  decide (e.fret = FretV.num (f : Int)) && decide (f ≤ 24) &&
  decide (e.string = (s : Int)) && decide (1 ≤ s) && decide (s ≤ numCols)

/-- Whether one fingering entry makes `displayChord` activate the muted
marker of fret 0, string `s`. -/
def targetsUnplayed (numCols : Nat) (s : Nat) (e : FEntry) : Bool :=
  decide (e.fret = FretV.num (-1)) && decide (e.string = (s : Int)) &&
  decide (1 ≤ s) && decide (s ≤ numCols)

theorem applyFingeringEntry_numCols (mode : Str) (root : Option Str) (si : Bool)
    (noteAt : Nat → Nat → Option Str) (io : Str → Str → Nat → Str)
    (d : Diagram) (e : FEntry) :
    (applyFingeringEntry mode root si noteAt io d e).numCols = d.numCols := by
  rcases e with ⟨es, ef, efin⟩
  cases ef with
  | num n =>
      simp only [applyFingeringEntry]
      split
      · split <;> rfl
      · split <;> rfl
  | noneStr => rfl
  | null => rfl
  | undef => rfl

theorem applyFingeringEntry_unplayed (mode : Str) (root : Option Str) (si : Bool)
    (noteAt : Nat → Nat → Option Str) (io : Str → Str → Nat → Str)
    (d : Diagram) (e : FEntry) (f s : Nat) :
    (applyFingeringEntry mode root si noteAt io d e).unplayedActive f s =
      (d.unplayedActive f s ||
        (decide (f = 0) && targetsUnplayed d.numCols s e)) := by
  rcases e with ⟨es, ef, efin⟩
  cases ef with
  | num n =>
      simp only [applyFingeringEntry]
      by_cases hn : n = -1
      · subst hn
        rw [if_pos rfl]
        by_cases hr : 1 ≤ es ∧ es ≤ (d.numCols : Int)
        · rw [if_pos hr]
          show (if f = 0 ∧ s = es.toNat then true else d.unplayedActive f s) = _
          by_cases hfs : f = 0 ∧ s = es.toNat
          · rw [if_pos hfs]
            obtain ⟨hf0, hsval⟩ := hfs
            have htrue : (decide (f = 0) && targetsUnplayed d.numCols s
                ⟨es, FretV.num (-1), efin⟩) = true := by
              unfold targetsUnplayed
              simp only [Bool.and_eq_true, decide_eq_true_eq, true_and, and_true]
              omega
            rw [htrue, Bool.or_true]
          · rw [if_neg hfs]
            have hfalse : (decide (f = 0) && targetsUnplayed d.numCols s
                ⟨es, FretV.num (-1), efin⟩) = false := by
              apply Bool.eq_false_iff.mpr
              intro hX
              unfold targetsUnplayed at hX
              simp only [Bool.and_eq_true, decide_eq_true_eq] at hX
              obtain ⟨hf0, ⟨⟨-, hes⟩, h1⟩, h2⟩ := hX
              exact hfs ⟨hf0, by omega⟩
            rw [hfalse, Bool.or_false]
        · rw [if_neg hr]
          have hfalse : (decide (f = 0) && targetsUnplayed d.numCols s
              ⟨es, FretV.num (-1), efin⟩) = false := by
            apply Bool.eq_false_iff.mpr
            intro hX
            unfold targetsUnplayed at hX
            simp only [Bool.and_eq_true, decide_eq_true_eq] at hX
            obtain ⟨-, ⟨⟨-, hes⟩, h1⟩, h2⟩ := hX
            exact hr ⟨by omega, by omega⟩
          rw [hfalse, Bool.or_false]
      · rw [if_neg hn]
        have hfalse : (decide (f = 0) && targetsUnplayed d.numCols s
            ⟨es, FretV.num n, efin⟩) = false := by
          apply Bool.eq_false_iff.mpr
          intro hX
          unfold targetsUnplayed at hX
          simp only [Bool.and_eq_true, decide_eq_true_eq] at hX
          obtain ⟨-, ⟨⟨hfr, -⟩, -⟩, -⟩ := hX
          exact hn (FretV.num.inj hfr)
        rw [hfalse, Bool.or_false]
        split
        · rfl
        · rfl
  | noneStr => simp [applyFingeringEntry, targetsUnplayed]
  | null => simp [applyFingeringEntry, targetsUnplayed]
  | undef => simp [applyFingeringEntry, targetsUnplayed]

theorem targetsDot_num (numCols f s : Nat) (es n : Int) (efin : Option Int)
    (h : targetsDot numCols f s ⟨es, FretV.num n, efin⟩ = true) :
    n = (f : Int) ∧ f ≤ 24 ∧ es = (s : Int) ∧ 1 ≤ s ∧ s ≤ numCols := by
  unfold targetsDot at h
  simp only [Bool.and_eq_true, decide_eq_true_eq] at h
  obtain ⟨⟨⟨⟨hA, hB⟩, hC⟩, hD⟩, hE⟩ := h
  exact ⟨FretV.num.inj hA, hB, hC, hD, hE⟩

theorem targetsDot_mk (numCols f s : Nat) (es n : Int) (efin : Option Int)
    (h1 : n = (f : Int)) (h2 : f ≤ 24) (h3 : es = (s : Int)) (h4 : 1 ≤ s)
    (h5 : s ≤ numCols) :
    targetsDot numCols f s ⟨es, FretV.num n, efin⟩ = true := by
  unfold targetsDot
  simp only [Bool.and_eq_true, decide_eq_true_eq]
  exact ⟨⟨⟨⟨congrArg FretV.num h1, h2⟩, h3⟩, h4⟩, h5⟩

theorem applyFingeringEntry_dotActive (mode : Str) (root : Option Str) (si : Bool)
    (noteAt : Nat → Nat → Option Str) (io : Str → Str → Nat → Str)
    (d : Diagram) (e : FEntry) (f s : Nat) :
    ((applyFingeringEntry mode root si noteAt io d e).cells f s).dotActive =
      ((d.cells f s).dotActive || targetsDot d.numCols f s e) := by
  rcases e with ⟨es, ef, efin⟩
  cases ef with
  | num n =>
      simp only [applyFingeringEntry]
      by_cases hn : n = -1
      · subst hn
        rw [if_pos rfl]
        have hfalse : targetsDot d.numCols f s ⟨es, FretV.num (-1), efin⟩ = false := by
          apply Bool.eq_false_iff.mpr
          intro hX
          have := (targetsDot_num _ _ _ _ _ _ hX).1
          omega
        rw [hfalse, Bool.or_false]
        split <;> rfl
      · rw [if_neg hn]
        by_cases hg : 0 ≤ n ∧ n ≤ 24 ∧ 1 ≤ es ∧ es ≤ (d.numCols : Int)
        · rw [if_pos hg]
          by_cases hfs : f = n.toNat ∧ s = es.toNat
          · have htrue : targetsDot d.numCols f s ⟨es, FretV.num n, efin⟩ = true :=
              targetsDot_mk _ _ _ _ _ _ (by omega) (by omega) (by omega) (by omega) (by omega)
            rw [htrue, Bool.or_true]
            dsimp only
            rw [if_pos hfs]
            rfl
          · have hfalse : targetsDot d.numCols f s ⟨es, FretV.num n, efin⟩ = false := by
              apply Bool.eq_false_iff.mpr
              intro hX
              obtain ⟨hA, hB, hC, hD, hE⟩ := targetsDot_num _ _ _ _ _ _ hX
              exact hfs ⟨by omega, by omega⟩
            rw [hfalse, Bool.or_false]
            dsimp only
            rw [if_neg hfs]
        · rw [if_neg hg]
          have hfalse : targetsDot d.numCols f s ⟨es, FretV.num n, efin⟩ = false := by
            apply Bool.eq_false_iff.mpr
            intro hX
            obtain ⟨hA, hB, hC, hD, hE⟩ := targetsDot_num _ _ _ _ _ _ hX
            exact hg ⟨by omega, by omega, by omega, by omega⟩
          rw [hfalse, Bool.or_false]
  | noneStr => simp [applyFingeringEntry, targetsDot]
  | null => simp [applyFingeringEntry, targetsDot]
  | undef => simp [applyFingeringEntry, targetsDot]

theorem applyFingeringEntry_cells_of_not_target (mode : Str) (root : Option Str)
    (si : Bool) (noteAt : Nat → Nat → Option Str) (io : Str → Str → Nat → Str)
    (d : Diagram) (e : FEntry) (f s : Nat)
    (h : targetsDot d.numCols f s e = false) :
    (applyFingeringEntry mode root si noteAt io d e).cells f s = d.cells f s := by
  rcases e with ⟨es, ef, efin⟩
  cases ef with
  | num n =>
      simp only [applyFingeringEntry]
      by_cases hn : n = -1
      · subst hn
        rw [if_pos rfl]
        split <;> rfl
      · rw [if_neg hn]
        by_cases hg : 0 ≤ n ∧ n ≤ 24 ∧ 1 ≤ es ∧ es ≤ (d.numCols : Int)
        · rw [if_pos hg]
          have hfs : ¬(f = n.toNat ∧ s = es.toNat) := by
            intro hfs
            rw [targetsDot_mk d.numCols f s es n efin (by omega) (by omega) (by omega)
              (by omega) (by omega)] at h
            exact Bool.noConfusion h
          dsimp only
          rw [if_neg hfs]
        · rw [if_neg hg]
  | noneStr => rfl
  | null => rfl
  | undef => rfl

theorem applyFingeringEntry_cells_of_target (mode : Str) (root : Option Str)
    (si : Bool) (noteAt : Nat → Nat → Option Str) (io : Str → Str → Nat → Str)
    (d : Diagram) (e : FEntry) (f s : Nat)
    (h : targetsDot d.numCols f s e = true) :
    (applyFingeringEntry mode root si noteAt io d e).cells f s =
      appliedCell mode root si noteAt io f s e.finger (d.cells f s) := by
  rcases e with ⟨es, ef, efin⟩
  cases ef with
  | num n =>
      obtain ⟨hA, hB, hC, hD, hE⟩ := targetsDot_num _ _ _ _ _ _ h
      simp only [applyFingeringEntry]
      rw [if_neg (by omega : ¬n = -1),
        if_pos (⟨by omega, by omega, by omega, by omega⟩ :
          0 ≤ n ∧ n ≤ 24 ∧ 1 ≤ es ∧ es ≤ (d.numCols : Int))]
      dsimp only
      rw [if_pos (⟨by omega, by omega⟩ : f = n.toNat ∧ s = es.toNat)]
      have hf : n.toNat = f := by omega
      have hs : es.toNat = s := by omega
      rw [hf, hs]
  | noneStr => exact absurd h (by simp [targetsDot])
  | null => exact absurd h (by simp [targetsDot])
  | undef => exact absurd h (by simp [targetsDot])

theorem foldApply_numCols (mode : Str) (root : Option Str) (si : Bool)
    (noteAt : Nat → Nat → Option Str) (io : Str → Str → Nat → Str)
    (E : List FEntry) (d0 : Diagram) :
    (E.foldl (applyFingeringEntry mode root si noteAt io) d0).numCols = d0.numCols := by
  induction E generalizing d0 with
  | nil => rfl
  | cons e t ih =>
      rw [List.foldl_cons, ih, applyFingeringEntry_numCols]

theorem foldApply_dotActive (mode : Str) (root : Option Str) (si : Bool)
    (noteAt : Nat → Nat → Option Str) (io : Str → Str → Nat → Str)
    (E : List FEntry) (d0 : Diagram) (f s : Nat) :
    (((E.foldl (applyFingeringEntry mode root si noteAt io) d0)).cells f s).dotActive =
      ((d0.cells f s).dotActive || E.any (targetsDot d0.numCols f s)) := by
  induction E generalizing d0 with
  | nil => simp
  | cons e t ih =>
      rw [List.foldl_cons, ih, applyFingeringEntry_numCols, applyFingeringEntry_dotActive,
        List.any_cons, Bool.or_assoc]

theorem foldApply_unplayed (mode : Str) (root : Option Str) (si : Bool)
    (noteAt : Nat → Nat → Option Str) (io : Str → Str → Nat → Str)
    (E : List FEntry) (d0 : Diagram) (f s : Nat) :
    (E.foldl (applyFingeringEntry mode root si noteAt io) d0).unplayedActive f s =
      (d0.unplayedActive f s ||
        (decide (f = 0) && E.any (targetsUnplayed d0.numCols s))) := by
  induction E generalizing d0 with
  | nil => simp
  | cons e t ih =>
      rw [List.foldl_cons, ih, applyFingeringEntry_numCols, applyFingeringEntry_unplayed,
        List.any_cons, Bool.and_or_distrib_left, Bool.or_assoc]

theorem foldApply_cells_of_no_target (mode : Str) (root : Option Str) (si : Bool)
    (noteAt : Nat → Nat → Option Str) (io : Str → Str → Nat → Str)
    (E : List FEntry) (d0 : Diagram) (f s : Nat)
    (h : ∀ e ∈ E, targetsDot d0.numCols f s e = false) :
    (E.foldl (applyFingeringEntry mode root si noteAt io) d0).cells f s = d0.cells f s := by
  induction E generalizing d0 with
  | nil => rfl
  | cons e t ih =>
      rw [List.foldl_cons]
      rw [ih _ (fun e2 he2 => by
        rw [applyFingeringEntry_numCols]
        exact h e2 (List.mem_cons_of_mem e he2))]
      exact applyFingeringEntry_cells_of_not_target mode root si noteAt io d0 e f s
        (h e (List.mem_cons_self e t))

theorem foldApply_fingerData_stable (mode : Str) (root : Option Str) (si : Bool)
    (noteAt : Nat → Nat → Option Str) (io : Str → Str → Nat → Str)
    (E : List FEntry) (d0 : Diagram) (f s : Nat) (k : Int)
    (hcur : ((d0.cells f s)).fingerData = intStr k)
    (hall : ∀ e2 ∈ E, targetsDot d0.numCols f s e2 = true → e2.finger = some k) :
    ((E.foldl (applyFingeringEntry mode root si noteAt io) d0).cells f s).fingerData =
      intStr k := by
  induction E generalizing d0 with
  | nil => exact hcur
  | cons e t ih =>
      rw [List.foldl_cons]
      refine ih _ ?_ ?_
      · by_cases h0 : targetsDot d0.numCols f s e = true
        · rw [applyFingeringEntry_cells_of_target mode root si noteAt io d0 e f s h0]
          rw [hall e (List.mem_cons_self e t) h0]
          rfl
        · rw [applyFingeringEntry_cells_of_not_target mode root si noteAt io d0 e f s
            (Bool.eq_false_iff.mpr h0)]
          exact hcur
      · intro e2 he2 ht2
        refine hall e2 (List.mem_cons_of_mem e he2) ?_
        rw [applyFingeringEntry_numCols] at ht2
        exact ht2

theorem foldApply_fingerData_unique (mode : Str) (root : Option Str) (si : Bool)
    (noteAt : Nat → Nat → Option Str) (io : Str → Str → Nat → Str)
    (E : List FEntry) (d0 : Diagram) (f s : Nat) (e : FEntry) (k : Int)
    (he : e ∈ E) (ht : targetsDot d0.numCols f s e = true)
    (huniq : ∀ e2 ∈ E, targetsDot d0.numCols f s e2 = true → e2 = e)
    (hk : e.finger = some k) :
    ((E.foldl (applyFingeringEntry mode root si noteAt io) d0).cells f s).fingerData =
      intStr k := by
  induction E generalizing d0 with
  | nil => exact absurd he (List.not_mem_nil e)
  | cons e0 t ih =>
      rw [List.foldl_cons]
      by_cases h0 : targetsDot d0.numCols f s e0 = true
      · have he0 : e0 = e := huniq e0 (List.mem_cons_self e0 t) h0
        refine foldApply_fingerData_stable mode root si noteAt io t _ f s k ?_ ?_
        · rw [applyFingeringEntry_cells_of_target mode root si noteAt io d0 e0 f s h0,
            he0, hk]
          rfl
        · intro e2 he2 ht2
          rw [applyFingeringEntry_numCols] at ht2
          rw [huniq e2 (List.mem_cons_of_mem e0 he2) ht2]
          exact hk
      · have hne : e ≠ e0 := by
          intro hcon
          exact h0 (hcon ▸ ht)
        have he' : e ∈ t := by
          rcases List.mem_cons.mp he with h | h
          · exact absurd h hne
          · exact h
        refine ih _ he' ?_ ?_
        · rw [applyFingeringEntry_numCols]
          exact ht
        · intro e2 he2 ht2
          rw [applyFingeringEntry_numCols] at ht2
          exact huniq e2 (List.mem_cons_of_mem e0 he2) ht2

/-! ## Claim C4: the per-string marker invariant -/

/-- String `s` carries an active marker in row `f`: a muted marker when
`u = true`, a playable dot when `u = false`. -/
def markerAt (d : Diagram) (s f : Nat) (u : Bool) : Prop :=
  (if u then d.unplayedActive f s else (d.cells f s).dotActive) = true

/-- The claimed invariant: every string has at most one active marker. -/
def atMostOnePerString (d : Diagram) : Prop :=
  ∀ (s f1 f2 : Nat) (u1 u2 : Bool),
    markerAt d s f1 u1 → markerAt d s f2 u2 → f1 = f2 ∧ u1 = u2

theorem markerAt_clearStringDots (s0 : Nat) (d : Diagram) (s f : Nat) (u : Bool) :
    markerAt (clearStringDots s0 d) s f u ↔ (s ≠ s0 ∧ markerAt d s f u) := by
  unfold markerAt clearStringDots
  by_cases hs : s = s0
  · cases u <;> simp [hs]
  · cases u <;> simp [hs]

theorem markerAt_activateDot (f0 s0 : Nat) (d : Diagram) (s f : Nat) (u : Bool) :
    markerAt (activateDot f0 s0 d) s f u ↔
      ((u = false ∧ f = f0 ∧ s = s0) ∨ markerAt d s f u) := by
  unfold markerAt activateDot
  cases u
  · by_cases hfs : f = f0 ∧ s = s0
    · simp [hfs]
    · simp only [if_neg hfs]
      constructor
      · intro h; exact Or.inr h
      · rintro (⟨-, h⟩ | h)
        · exact absurd h hfs
        · exact h
  · simp

theorem markerAt_deactivateDot (f0 s0 : Nat) (d : Diagram) (s f : Nat) (u : Bool) :
    markerAt (deactivateDot f0 s0 d) s f u ↔
      (markerAt d s f u ∧ ¬(u = false ∧ f = f0 ∧ s = s0)) := by
  unfold markerAt deactivateDot
  cases u
  · by_cases hfs : f = f0 ∧ s = s0
    · simp [hfs]
    · simp [hfs]
  · simp

theorem markerAt_activateUnplayed (f0 s0 : Nat) (d : Diagram) (s f : Nat) (u : Bool) :
    markerAt (activateUnplayed f0 s0 d) s f u ↔
      ((u = true ∧ f = f0 ∧ s = s0) ∨ markerAt d s f u) := by
  unfold markerAt activateUnplayed
  cases u
  · simp
  · by_cases hfs : f = f0 ∧ s = s0
    · simp [hfs]
    · simp only [if_neg hfs]
      constructor
      · intro h; exact Or.inr h
      · rintro (⟨-, h⟩ | h)
        · exact absurd h hfs
        · exact h

theorem markerAt_deactivateUnplayed (f0 s0 : Nat) (d : Diagram) (s f : Nat) (u : Bool) :
    markerAt (deactivateUnplayed f0 s0 d) s f u ↔
      (markerAt d s f u ∧ ¬(u = true ∧ f = f0 ∧ s = s0)) := by
  unfold markerAt deactivateUnplayed
  cases u
  · simp
  · by_cases hfs : f = f0 ∧ s = s0
    · simp [hfs]
    · simp [hfs]

theorem markerAt_updateDotContent (mode : Str) (root : Option Str)
    (noteAt : Nat → Nat → Option Str) (io : Str → Str → Nat → Str)
    (f0 s0 : Nat) (d : Diagram) (s f : Nat) (u : Bool) :
    markerAt (updateDotContent mode root noteAt io f0 s0 d) s f u ↔ markerAt d s f u := by
  unfold markerAt updateDotContent
  cases u
  · by_cases hfs : f = f0 ∧ s = s0
    · simp only [if_pos hfs]
      cases noteAt s0 f0 <;> cases root <;> rfl
    · simp only [if_neg hfs]
  · rfl

theorem inv_of_subset (d d' : Diagram)
    (hsub : ∀ s f u, markerAt d' s f u → markerAt d s f u)
    (hinv : atMostOnePerString d) : atMostOnePerString d' :=
  fun s f1 f2 u1 u2 h1 h2 => hinv s f1 f2 u1 u2 (hsub s f1 u1 h1) (hsub s f2 u2 h2)

theorem inv_of_clear_activate (d d' : Diagram) (s0 f0 : Nat) (u0 : Bool)
    (hchar : ∀ s f u, markerAt d' s f u →
      ((s = s0 ∧ f = f0 ∧ u = u0) ∨ (s ≠ s0 ∧ markerAt d s f u)))
    (hinv : atMostOnePerString d) : atMostOnePerString d' := by
  intro s f1 f2 u1 u2 h1 h2
  rcases hchar s f1 u1 h1 with ⟨hs1, hf1, hu1⟩ | ⟨hs1, hm1⟩
  · rcases hchar s f2 u2 h2 with ⟨hs2, hf2, hu2⟩ | ⟨hs2, hm2⟩
    · exact ⟨hf1.trans hf2.symm, hu1.trans hu2.symm⟩
    · exact absurd hs1 hs2
  · rcases hchar s f2 u2 h2 with ⟨hs2, hf2, hu2⟩ | ⟨hs2, hm2⟩
    · exact absurd hs2 hs1
    · exact hinv s f1 f2 u1 u2 hm1 hm2

theorem inv_of_swap (d d' : Diagram) (s0 : Nat)
    (hdot : markerAt d s0 0 false)
    (hchar : ∀ s f u, markerAt d' s f u →
      ((s = s0 ∧ f = 0 ∧ u = true) ∨
        (markerAt d s f u ∧ ¬(u = false ∧ f = 0 ∧ s = s0))))
    (hinv : atMostOnePerString d) : atMostOnePerString d' := by
  have hold : ∀ f u, markerAt d s0 f u → (f = 0 ∧ u = false) := by
    intro f u hm
    have := hinv s0 f 0 u false hm hdot
    exact this
  intro s f1 f2 u1 u2 h1 h2
  rcases hchar s f1 u1 h1 with ⟨hs1, hf1, hu1⟩ | ⟨hm1, hn1⟩
  · rcases hchar s f2 u2 h2 with ⟨hs2, hf2, hu2⟩ | ⟨hm2, hn2⟩
    · exact ⟨hf1.trans hf2.symm, hu1.trans hu2.symm⟩
    · subst hs1
      obtain ⟨hf2', hu2'⟩ := hold f2 u2 hm2
      exact absurd ⟨hu2', hf2', rfl⟩ hn2
  · rcases hchar s f2 u2 h2 with ⟨hs2, hf2, hu2⟩ | ⟨hm2, hn2⟩
    · subst hs2
      obtain ⟨hf1', hu1'⟩ := hold f1 u1 hm1
      exact absurd ⟨hu1', hf1', rfl⟩ hn1
    · exact hinv s f1 f2 u1 u2 hm1 hm2

theorem clickCell_preserves (mode : Str) (root : Option Str)
    (noteAt : Nat → Nat → Option Str) (io : Str → Str → Nat → Str)
    (fret s : Nat) (cu : Bool) (d : Diagram)
    (hinv : atMostOnePerString d) :
    atMostOnePerString (clickCell mode root noteAt io fret s cu d) := by
  unfold clickCell
  by_cases hf0 : fret = 0
  · rw [if_pos hf0]
    by_cases hcu : cu = true
    · rw [if_pos hcu]
      by_cases hu : d.unplayedActive 0 s = false
      · rw [if_pos hu]
        refine inv_of_clear_activate d _ s 0 true ?_ hinv
        intro st f u hm
        rw [markerAt_activateUnplayed] at hm
        rcases hm with ⟨hu', hf', hs'⟩ | hm
        · exact Or.inl ⟨hs', hf', hu'⟩
        · rw [markerAt_clearStringDots] at hm
          refine Or.inr ⟨hm.1, ?_⟩
          have hm2 := hm.2
          split at hm2
          · rw [markerAt_deactivateDot] at hm2
            exact hm2.1
          · exact hm2
      · rw [if_neg hu]
        refine inv_of_subset d _ ?_ hinv
        intro st f u hm
        rw [markerAt_deactivateUnplayed] at hm
        exact hm.1
    · rw [if_neg hcu]
      by_cases hb1 : (d.cells 0 s).dotActive = false ∧ d.unplayedActive 0 s = false
      · rw [if_pos hb1]
        refine inv_of_clear_activate d _ s 0 false ?_ hinv
        intro st f u hm
        rw [markerAt_updateDotContent, markerAt_activateDot] at hm
        rcases hm with ⟨hu', hf', hs'⟩ | hm
        · exact Or.inl ⟨hs', hf', hu'⟩
        · rw [markerAt_clearStringDots] at hm
          exact Or.inr hm
      · rw [if_neg hb1]
        by_cases hb2 : (d.cells 0 s).dotActive = true ∧ d.unplayedActive 0 s = false
        · rw [if_pos hb2]
          refine inv_of_swap d _ s ?_ ?_ hinv
          · unfold markerAt
            simpa using hb2.1
          · intro st f u hm
            rw [markerAt_activateUnplayed] at hm
            rcases hm with ⟨hu', hf', hs'⟩ | hm
            · exact Or.inl ⟨hs', hf', hu'⟩
            · rw [markerAt_deactivateDot] at hm
              refine Or.inr ⟨hm.1, ?_⟩
              intro ⟨hu', hf', hs'⟩
              exact hm.2 ⟨hu', hf', hs'⟩
        · rw [if_neg hb2]
          by_cases hb3 : (d.cells 0 s).dotActive = false ∧ d.unplayedActive 0 s = true
          · rw [if_pos hb3]
            refine inv_of_subset d _ ?_ hinv
            intro st f u hm
            rw [markerAt_deactivateUnplayed] at hm
            exact hm.1
          · rw [if_neg hb3]
            exact hinv
  · rw [if_neg hf0]
    by_cases hact : (d.cells fret s).dotActive = false
    · rw [if_pos hact]
      refine inv_of_clear_activate d _ s fret false ?_ hinv
      intro st f u hm
      rw [markerAt_updateDotContent, markerAt_activateDot] at hm
      rcases hm with ⟨hu', hf', hs'⟩ | hm
      · exact Or.inl ⟨hs', hf', hu'⟩
      · rw [markerAt_clearStringDots] at hm
        exact Or.inr hm
    · rw [if_neg hact]
      refine inv_of_subset d _ ?_ hinv
      intro st f u hm
      rw [markerAt_deactivateDot] at hm
      exact hm.1

theorem targetsUnplayed_num (numCols s : Nat) (e : FEntry)
    (h : targetsUnplayed numCols s e = true) :
    e.fret = FretV.num (-1) ∧ e.string = (s : Int) ∧ 1 ≤ s ∧ s ≤ numCols := by
  unfold targetsUnplayed at h
  simp only [Bool.and_eq_true, decide_eq_true_eq] at h
  obtain ⟨⟨⟨hA, hB⟩, hC⟩, hD⟩ := h
  exact ⟨hA, hB, hC, hD⟩

theorem displayChord_dotActive (mode : Str) (root : Option Str) (si : Bool)
    (noteAt : Nat → Nat → Option Str) (io : Str → Str → Nat → Str)
    (E : List FEntry) (d : Diagram) (f s : Nat) :
    ((displayChordFingering mode root si noteAt io E d).cells f s).dotActive =
      E.any (targetsDot d.numCols f s) := by
  unfold displayChordFingering
  rw [foldApply_dotActive]
  rw [show ((clearChordState d).cells f s).dotActive = false from rfl, Bool.false_or]
  rfl

theorem displayChord_unplayed (mode : Str) (root : Option Str) (si : Bool)
    (noteAt : Nat → Nat → Option Str) (io : Str → Str → Nat → Str)
    (E : List FEntry) (d : Diagram) (f s : Nat) :
    (displayChordFingering mode root si noteAt io E d).unplayedActive f s =
      (decide (f = 0) && E.any (targetsUnplayed d.numCols s)) := by
  unfold displayChordFingering
  rw [foldApply_unplayed]
  rw [show (clearChordState d).unplayedActive f s = false from rfl, Bool.false_or]
  rfl

theorem displayChord_inv (mode : Str) (root : Option Str) (si : Bool)
    (noteAt : Nat → Nat → Option Str) (io : Str → Str → Nat → Str)
    (E : List FEntry) (d : Diagram)
    (hdist : ∀ e1 ∈ E, ∀ e2 ∈ E, (∃ n1, e1.fret = FretV.num n1) →
      (∃ n2, e2.fret = FretV.num n2) → e1.string = e2.string → e1 = e2) :
    atMostOnePerString (displayChordFingering mode root si noteAt io E d) := by
  intro st f1 f2 u1 u2 h1 h2
  have extract : ∀ f u, markerAt (displayChordFingering mode root si noteAt io E d) st f u →
      ∃ e ∈ E, e.string = (st : Int) ∧
        ((u = true ∧ e.fret = FretV.num (-1) ∧ f = 0) ∨
         (u = false ∧ e.fret = FretV.num (f : Int))) := by
    intro f u hm
    unfold markerAt at hm
    cases u with
    | true =>
        rw [if_pos rfl, displayChord_unplayed] at hm
        rcases Bool.and_eq_true_iff.mp hm with ⟨hf0, hany⟩
        rcases List.any_eq_true.mp hany with ⟨e, he, hte⟩
        obtain ⟨hA, hB, -, -⟩ := targetsUnplayed_num d.numCols st e hte
        exact ⟨e, he, hB, Or.inl ⟨rfl, hA, of_decide_eq_true hf0⟩⟩
    | false =>
        rw [if_neg (by decide), displayChord_dotActive] at hm
        rcases List.any_eq_true.mp hm with ⟨e, he, hte⟩
        rcases e with ⟨es, ef, efin⟩
        cases ef with
        | num n =>
            obtain ⟨hA, hB, hC, -, -⟩ := targetsDot_num d.numCols f st es n efin hte
            exact ⟨⟨es, FretV.num n, efin⟩, he, hC,
              Or.inr ⟨rfl, by rw [hA]⟩⟩
        | noneStr => exact absurd hte (by simp [targetsDot])
        | null => exact absurd hte (by simp [targetsDot])
        | undef => exact absurd hte (by simp [targetsDot])
  obtain ⟨e1, he1, hs1, hc1⟩ := extract f1 u1 h1
  obtain ⟨e2, he2, hs2, hc2⟩ := extract f2 u2 h2
  have hnum1 : ∃ n, e1.fret = FretV.num n := by
    rcases hc1 with ⟨-, hf, -⟩ | ⟨-, hf⟩
    · exact ⟨-1, hf⟩
    · exact ⟨_, hf⟩
  have hnum2 : ∃ n, e2.fret = FretV.num n := by
    rcases hc2 with ⟨-, hf, -⟩ | ⟨-, hf⟩
    · exact ⟨-1, hf⟩
    · exact ⟨_, hf⟩
  have heq : e1 = e2 := hdist e1 he1 e2 he2 hnum1 hnum2 (hs1.trans hs2.symm)
  subst heq
  rcases hc1 with ⟨hu1, hf1, hf01⟩ | ⟨hu1, hf1⟩ <;>
    rcases hc2 with ⟨hu2, hf2, hf02⟩ | ⟨hu2, hf2⟩
  · exact ⟨hf01.trans hf02.symm, hu1.trans hu2.symm⟩
  · exact absurd (FretV.num.inj (hf1.symm.trans hf2)) (by omega)
  · exact absurd (FretV.num.inj (hf2.symm.trans hf1)) (by omega)
  · have hf := FretV.num.inj (hf1.symm.trans hf2)
    exact ⟨by omega, hu1.trans hu2.symm⟩

/-- Claim C4, counterexample: applying a fingering with two valid entries on
the same string via `displayChord` leaves two active playable dots on that
string — the application loop activates markers without clearing the
string's earlier marker, so the per-string invariant fails on a state
reachable by fingering application. -/
theorem c4_counterexample :
    markerAt (displayChordFingering (("note").data) none true (fun _ _ => none)
      (fun _ _ _ => []) [⟨1, FretV.num 1, some 1⟩, ⟨1, FretV.num 2, some 1⟩]
      (emptyDiagram 6)) 1 1 false ∧
    markerAt (displayChordFingering (("note").data) none true (fun _ _ => none)
      (fun _ _ _ => []) [⟨1, FretV.num 1, some 1⟩, ⟨1, FretV.num 2, some 1⟩]
      (emptyDiagram 6)) 1 2 false ∧
    ¬ atMostOnePerString (displayChordFingering (("note").data) none true
      (fun _ _ => none) (fun _ _ _ => [])
      [⟨1, FretV.num 1, some 1⟩, ⟨1, FretV.num 2, some 1⟩] (emptyDiagram 6)) := by
  refine ⟨rfl, rfl, ?_⟩
  intro h
  have h1 : markerAt (displayChordFingering (("note").data) none true (fun _ _ => none)
      (fun _ _ _ => []) [⟨1, FretV.num 1, some 1⟩, ⟨1, FretV.num 2, some 1⟩]
      (emptyDiagram 6)) 1 1 false := rfl
  have h2 : markerAt (displayChordFingering (("note").data) none true (fun _ _ => none)
      (fun _ _ _ => []) [⟨1, FretV.num 1, some 1⟩, ⟨1, FretV.num 2, some 1⟩]
      (emptyDiagram 6)) 1 2 false := rfl
  exact absurd (h 1 1 2 false false h1 h2).1 (by decide)

/-- Claim C4 (amended): every click interaction preserves the per-string
at-most-one-active-marker invariant, and a click activating a new position
supersedes (clears) the string's earlier marker, leaving exactly the new
marker on that string; fingering application via `displayChord`, however,
does not clear per string — it preserves the invariant exactly when the
applied array has at most one numeric-fret entry per string (always starting
from a cleared diagram), and the invariant holds of the initial empty
diagram. -/
theorem c4_marker_invariant :
    (∀ n, atMostOnePerString (emptyDiagram n)) ∧
    (∀ (mode : Str) (root : Option Str) (noteAt : Nat → Nat → Option Str)
        (io : Str → Str → Nat → Str) (fret s : Nat) (cu : Bool) (d : Diagram),
      atMostOnePerString d →
      atMostOnePerString (clickCell mode root noteAt io fret s cu d)) ∧
    (∀ (mode : Str) (root : Option Str) (noteAt : Nat → Nat → Option Str)
        (io : Str → Str → Nat → Str) (fret s : Nat) (cu : Bool) (d : Diagram),
      fret ≠ 0 → (d.cells fret s).dotActive = false →
      (∀ f u, markerAt (clickCell mode root noteAt io fret s cu d) s f u ↔
        (f = fret ∧ u = false))) ∧
    (∀ (mode : Str) (root : Option Str) (si : Bool)
        (noteAt : Nat → Nat → Option Str) (io : Str → Str → Nat → Str)
        (E : List FEntry) (d : Diagram),
      (∀ e1 ∈ E, ∀ e2 ∈ E, (∃ n1, e1.fret = FretV.num n1) →
        (∃ n2, e2.fret = FretV.num n2) → e1.string = e2.string → e1 = e2) →
      atMostOnePerString (displayChordFingering mode root si noteAt io E d)) := by
  refine ⟨?_, ?_, ?_, ?_⟩
  · intro n s f1 f2 u1 u2 h1 h2
    unfold markerAt emptyDiagram at h1
    cases u1 <;> simp at h1
  · intro mode root noteAt io fret s cu d hinv
    exact clickCell_preserves mode root noteAt io fret s cu d hinv
  · intro mode root noteAt io fret s cu d hf hact f u
    unfold clickCell
    rw [if_neg hf, if_pos hact]
    rw [markerAt_updateDotContent, markerAt_activateDot, markerAt_clearStringDots]
    constructor
    · rintro (⟨hu, hff, -⟩ | ⟨hss, -⟩)
      · exact ⟨hff, hu⟩
      · exact absurd rfl hss
    · rintro ⟨hff, hu⟩
      exact Or.inl ⟨hu, hff, rfl⟩
  · intro mode root si noteAt io E d hdist
    exact displayChord_inv mode root si noteAt io E d hdist

/-- Witness for `c4_marker_invariant`: a click on fret 3, string 2 of the
empty six-string diagram yields a state with at most one marker per string,
and the supersede characterization holds there. -/
theorem c4_marker_invariant_witness :
    atMostOnePerString (clickCell (("note").data) none (fun _ _ => none)
      (fun _ _ _ => []) 3 2 false (emptyDiagram 6)) ∧
    (markerAt (clickCell (("note").data) none (fun _ _ => none)
      (fun _ _ _ => []) 3 2 false (emptyDiagram 6)) 2 3 false ↔ (3 = 3 ∧ false = false)) := by
  constructor
  · refine (c4_marker_invariant).2.1 (("note").data) none (fun _ _ => none)
      (fun _ _ _ => []) 3 2 false (emptyDiagram 6) ?_
    intro s f1 f2 u1 u2 h1 h2
    unfold markerAt emptyDiagram at h1
    cases u1 <;> simp at h1
  · exact (c4_marker_invariant).2.2.1 (("note").data) none (fun _ _ => none)
      (fun _ _ _ => []) 3 2 false (emptyDiagram 6) (by decide) rfl 3 false

/-! ## Claim C3: round trip through the diagram -/

/-- The claim's "valid subset" of a fingering array under the application
skip rule: entries whose `fret` is not `null`/`undefined`/`'none'`. -/
def skipFiltered (E : List FEntry) : List FEntry :=
  E.filter (fun e =>
    match e.fret with
    | FretV.num _ => true
    | _ => false)

/-- Restrictions under which one fingering entry is applied and re-derived
faithfully: its fret row and string column exist on the diagram, its finger
is present, and a muted (`-1`) entry carries finger 0. -/
def goodEntry (numCols : Nat) (e : FEntry) : Prop :=
  match e.fret with
  | FretV.num n =>
      -1 ≤ n ∧ n ≤ 24 ∧ 1 ≤ e.string ∧ e.string ≤ (numCols : Int) ∧
      e.finger ≠ none ∧ (n = -1 → e.finger = some 0)
  | _ => True

theorem intStr_ne_nil (k : Int) : intStr k ≠ [] := by
  unfold intStr
  split
  · simp
  · exact natDigits_ne_nil _

theorem displayChord_numCols (mode : Str) (root : Option Str) (si : Bool)
    (noteAt : Nat → Nat → Option Str) (io : Str → Str → Nat → Str)
    (E : List FEntry) (d : Diagram) :
    (displayChordFingering mode root si noteAt io E d).numCols = d.numCols := by
  unfold displayChordFingering
  rw [foldApply_numCols]
  rfl

theorem mem_getFingeringFromDotState (d : Diagram) (x : FEntry) :
    x ∈ getFingeringFromDotState d ↔
      ∃ f s : Nat, f < 25 ∧ 1 ≤ s ∧ s < 1 + d.numCols ∧
        (((d.cells f s).dotActive = true ∧
          x = ⟨(s : Int), FretV.num (f : Int),
            if (d.cells f s).fingerData = [] then some 0
            else jsParseInt (d.cells f s).fingerData⟩) ∨
         ((d.cells f s).dotActive = false ∧ d.unplayedActive f s = true ∧ f = 0 ∧
          x = ⟨(s : Int), FretV.num (-1), some 0⟩)) := by
  unfold getFingeringFromDotState
  rw [List.mem_flatMap]
  constructor
  · rintro ⟨f, hf, hmem⟩
    rw [List.mem_filterMap] at hmem
    obtain ⟨s, hs, hsome⟩ := hmem
    refine ⟨f, s, List.mem_range.mp hf, (List.mem_range'_1.mp hs).1,
      (List.mem_range'_1.mp hs).2, ?_⟩
    by_cases hact : (d.cells f s).dotActive = true
    · left
      rw [if_pos hact] at hsome
      exact ⟨hact, (Option.some.inj hsome).symm⟩
    · right
      rw [if_neg hact] at hsome
      by_cases hunp : d.unplayedActive f s = true ∧ f = 0
      · rw [if_pos hunp] at hsome
        exact ⟨Bool.eq_false_iff.mpr hact, hunp.1, hunp.2, (Option.some.inj hsome).symm⟩
      · rw [if_neg hunp] at hsome
        exact Option.noConfusion hsome
  · rintro ⟨f, s, hf, hs1, hs2, hcase⟩
    refine ⟨f, List.mem_range.mpr hf, ?_⟩
    rw [List.mem_filterMap]
    refine ⟨s, List.mem_range'_1.mpr ⟨hs1, hs2⟩, ?_⟩
    rcases hcase with ⟨hact, hx⟩ | ⟨hact, hunp, hf0, hx⟩
    · rw [if_pos hact, hx]
    · rw [if_neg (hact ▸ (by simp : ¬(false = true))), if_pos ⟨hunp, hf0⟩, hx]

theorem targetsDot_props (numCols f s : Nat) (e : FEntry)
    (h : targetsDot numCols f s e = true) :
    e.fret = FretV.num (f : Int) ∧ e.string = (s : Int) ∧ f ≤ 24 ∧ 1 ≤ s ∧ s ≤ numCols := by
  rcases e with ⟨es, ef, efin⟩
  cases ef with
  | num n =>
      obtain ⟨hA, hB, hC, hD, hE⟩ := targetsDot_num numCols f s es n efin h
      exact ⟨by rw [hA], hC, hB, hD, hE⟩
  | noneStr => exact absurd h (by simp [targetsDot])
  | null => exact absurd h (by simp [targetsDot])
  | undef => exact absurd h (by simp [targetsDot])

theorem targetsUnplayed_mk (numCols s : Nat) (e : FEntry)
    (h1 : e.fret = FretV.num (-1)) (h2 : e.string = (s : Int)) (h3 : 1 ≤ s)
    (h4 : s ≤ numCols) : targetsUnplayed numCols s e = true := by
  unfold targetsUnplayed
  simp only [Bool.and_eq_true, decide_eq_true_eq]
  exact ⟨⟨⟨h1, h2⟩, h3⟩, h4⟩

/-- For a cell targeted by a unique entry of the applied array whose finger
is present, the final `data-finger` attribute is that finger's decimal
text. -/
theorem displayChord_fingerData (mode : Str) (root : Option Str) (si : Bool)
    (noteAt : Nat → Nat → Option Str) (io : Str → Str → Nat → Str)
    (E : List FEntry) (d : Diagram) (f s : Nat) (e : FEntry) (k : Int)
    (hdist : ∀ e1 ∈ E, ∀ e2 ∈ E, (∃ n1, e1.fret = FretV.num n1) →
      (∃ n2, e2.fret = FretV.num n2) → e1.string = e2.string → e1 = e2)
    (he : e ∈ E) (ht : targetsDot d.numCols f s e = true) (hk : e.finger = some k) :
    ((displayChordFingering mode root si noteAt io E d).cells f s).fingerData =
      intStr k := by
  unfold displayChordFingering
  refine foldApply_fingerData_unique mode root si noteAt io E (clearChordState d)
    f s e k he ht ?_ hk
  intro e2 he2 ht2
  obtain ⟨hA2, hB2, -, -, -⟩ := targetsDot_props d.numCols f s e2 ht2
  obtain ⟨hA, hB, -, -, -⟩ := targetsDot_props d.numCols f s e ht
  exact hdist e2 he2 e he ⟨_, hA2⟩ ⟨_, hA⟩ (hB2.trans hB.symm)

/-- Claim C3 (amended): for fingering arrays whose non-skipped entries lie on
the diagram (fret in `-1..24`, string within the string count), carry a
present finger (0 for `-1` entries), and have pairwise distinct strings,
deriving after applying returns exactly the skip-filtered subset (as sets,
and here even as the same membership). The `{string, fret: -1}` entries are
reconstructed as active muted markers at the open position and re-derived as
`{string, fret: -1, finger: 0}`. -/
theorem c3_roundtrip (mode : Str) (root : Option Str) (si : Bool)
    (noteAt : Nat → Nat → Option Str) (io : Str → Str → Nat → Str)
    (E : List FEntry) (d : Diagram)
    (hgood : ∀ e ∈ E, goodEntry d.numCols e)
    (hdist : ∀ e1 ∈ E, ∀ e2 ∈ E, (∃ n1, e1.fret = FretV.num n1) →
      (∃ n2, e2.fret = FretV.num n2) → e1.string = e2.string → e1 = e2) :
    ∀ x, x ∈ getFingeringFromDotState (displayChordFingering mode root si noteAt io E d) ↔
      x ∈ skipFiltered E := by
  intro x
  have hnc : (displayChordFingering mode root si noteAt io E d).numCols = d.numCols :=
    displayChord_numCols mode root si noteAt io E d
  rw [mem_getFingeringFromDotState]
  constructor
  · rintro ⟨f, s, hf, hs1, hs2, hcase⟩
    rw [hnc] at hs2
    rcases hcase with ⟨hact, hx⟩ | ⟨hact, hunp, hf0, hx⟩
    · rw [displayChord_dotActive] at hact
      obtain ⟨e, he, hte⟩ := List.any_eq_true.mp hact
      obtain ⟨hA, hB, -, -, -⟩ := targetsDot_props d.numCols f s e hte
      have hgd := hgood e he
      unfold goodEntry at hgd
      rw [hA] at hgd
      obtain ⟨-, -, -, -, hfin, -⟩ := hgd
      obtain ⟨k, hk⟩ : ∃ k, e.finger = some k := by
        cases hfk : e.finger with
        | none => exact absurd hfk hfin
        | some k => exact ⟨k, rfl⟩
      have hfd := displayChord_fingerData mode root si noteAt io E d f s e k hdist he hte hk
      rw [hfd, if_neg (intStr_ne_nil k), jsParseInt_intStr] at hx
      have hxe : x = e := by
        rcases e with ⟨es, ef, efin⟩
        dsimp only at hA hB hk
        rw [hx, hA, hB, hk]
      rw [hxe]
      unfold skipFiltered
      rw [List.mem_filter]
      refine ⟨he, ?_⟩
      rw [hA]
    · rw [displayChord_unplayed] at hunp
      rcases Bool.and_eq_true_iff.mp hunp with ⟨-, hany⟩
      obtain ⟨e, he, hte⟩ := List.any_eq_true.mp hany
      obtain ⟨hA, hB, -, -⟩ := targetsUnplayed_num d.numCols s e hte
      have hgd := hgood e he
      unfold goodEntry at hgd
      rw [hA] at hgd
      obtain ⟨-, -, -, -, -, hz⟩ := hgd
      have hk := hz rfl
      have hxe : x = e := by
        rcases e with ⟨es, ef, efin⟩
        dsimp only at hA hB hk
        rw [hx, hA, hB, hk]
      rw [hxe]
      unfold skipFiltered
      rw [List.mem_filter]
      refine ⟨he, ?_⟩
      rw [hA]
  · intro hx
    unfold skipFiltered at hx
    rw [List.mem_filter] at hx
    obtain ⟨hxE, hmatch⟩ := hx
    obtain ⟨n, hn⟩ : ∃ n, x.fret = FretV.num n := by
      rcases hfr : x.fret with n | _ | _ | _
      · exact ⟨n, rfl⟩
      · rw [hfr] at hmatch; exact absurd hmatch (by decide)
      · rw [hfr] at hmatch; exact absurd hmatch (by decide)
      · rw [hfr] at hmatch; exact absurd hmatch (by decide)
    have hgd := hgood x hxE
    unfold goodEntry at hgd
    rw [hn] at hgd
    obtain ⟨hlo, hhi, hstr1, hstr2, hfin, hz⟩ := hgd
    by_cases hneg : n = -1
    · refine ⟨0, x.string.toNat, by norm_num, by omega, by rw [hnc]; omega,
        Or.inr ⟨?_, ?_, rfl, ?_⟩⟩
      · rw [displayChord_dotActive]
        apply Bool.eq_false_iff.mpr
        intro hX
        obtain ⟨e2, he2, hte2⟩ := List.any_eq_true.mp hX
        obtain ⟨hA2, hB2, -, -, -⟩ := targetsDot_props d.numCols 0 x.string.toNat e2 hte2
        have heq : e2 = x := hdist e2 he2 x hxE ⟨_, hA2⟩ ⟨_, hn⟩ (by rw [hB2]; omega)
        rw [heq, hn] at hA2
        have := FretV.num.inj hA2
        omega
      · rw [displayChord_unplayed]
        rw [Bool.and_eq_true_iff]
        refine ⟨by decide, List.any_eq_true.mpr ⟨x, hxE, ?_⟩⟩
        exact targetsUnplayed_mk d.numCols x.string.toNat x (by rw [hn, hneg])
          (by omega) (by omega) (by omega)
      · have hk0 := hz hneg
        rcases x with ⟨xs, xf, xfin⟩
        dsimp only at hn hstr1 hk0
        simp only [FEntry.mk.injEq]
        refine ⟨by omega, ?_, ?_⟩
        · rw [hn, hneg]
        · exact hk0
    · have hn0 : 0 ≤ n := by omega
      obtain ⟨k, hk⟩ : ∃ k, x.finger = some k := by
        cases hfk : x.finger with
        | none => exact absurd hfk hfin
        | some k => exact ⟨k, rfl⟩
      have hts : targetsDot d.numCols n.toNat x.string.toNat x = true := by
        rcases x with ⟨xs, xf, xfin⟩
        dsimp only at hn hstr1 hstr2
        rw [hn]
        exact targetsDot_mk d.numCols n.toNat xs.toNat xs n xfin (by omega) (by omega)
          (by omega) (by omega) (by omega)
      refine ⟨n.toNat, x.string.toNat, by omega, by omega, by rw [hnc]; omega,
        Or.inl ⟨?_, ?_⟩⟩
      · rw [displayChord_dotActive]
        exact List.any_eq_true.mpr ⟨x, hxE, hts⟩
      · have hfd := displayChord_fingerData mode root si noteAt io E d n.toNat
          x.string.toNat x k hdist hxE hts hk
        rw [hfd, if_neg (intStr_ne_nil k), jsParseInt_intStr]
        rcases x with ⟨xs, xf, xfin⟩
        dsimp only at hn hk hstr1
        simp only [FEntry.mk.injEq]
        refine ⟨by omega, ?_, hk⟩
        rw [hn]
        congr 1
        omega

/-- Claim C3, counterexample: applying `[{string:1, fret:0}, {string:1,
fret:-1}]` — both entries valid under the skip rule — and re-deriving
returns only the fret-0 entry: the derivation visits each cell with
`if (dot) ... else if (unplayedDot && fret === 0)`, so an active playable
dot on fret 0 suppresses the muted marker of the same cell, and the result
is not set-equivalent to the valid subset. -/
theorem c3_counterexample :
    getFingeringFromDotState (displayChordFingering (("note").data) none true
      (fun _ _ => none) (fun _ _ _ => [])
      [⟨1, FretV.num 0, some 0⟩, ⟨1, FretV.num (-1), some 0⟩] (emptyDiagram 6)) =
      [⟨1, FretV.num 0, some 0⟩] ∧
    (⟨1, FretV.num (-1), some 0⟩ : FEntry) ∈ skipFiltered
      [⟨1, FretV.num 0, some 0⟩, ⟨1, FretV.num (-1), some 0⟩] ∧
    (⟨1, FretV.num (-1), some 0⟩ : FEntry) ∉ getFingeringFromDotState
      (displayChordFingering (("note").data) none true
        (fun _ _ => none) (fun _ _ _ => [])
        [⟨1, FretV.num 0, some 0⟩, ⟨1, FretV.num (-1), some 0⟩] (emptyDiagram 6)) := by
  refine ⟨by decide, by decide, by decide⟩

/-- Witness for `c3_roundtrip`: the singleton array `[{string:1, fret:3,
finger:2}]` applied to a fresh six-string diagram derives back exactly that
entry. -/
theorem c3_roundtrip_witness :
    (⟨1, FretV.num 3, some 2⟩ : FEntry) ∈ getFingeringFromDotState
      (displayChordFingering (("note").data) none true (fun _ _ => none)
        (fun _ _ _ => []) [⟨1, FretV.num 3, some 2⟩] (emptyDiagram 6)) := by
  have h := c3_roundtrip (("note").data) none true (fun _ _ => none)
    (fun _ _ _ => []) [⟨1, FretV.num 3, some 2⟩] (emptyDiagram 6)
    (by
      intro e he
      rw [List.mem_singleton] at he
      subst he
      unfold goodEntry
      refine ⟨by decide, by decide, by decide, by decide, by simp, ?_⟩
      intro hcon
      exact absurd hcon (by decide))
    (by
      intro e1 he1 e2 he2 h1 h2 hs
      rw [List.mem_singleton] at he1 he2
      rw [he1, he2])
    ⟨1, FretV.num 3, some 2⟩
  exact h.mpr (by decide)

/-! ## Claim C6: the panel sync loop (`src/unnamed/part_000`)

`startPanelSync` (lines 121-137) and `syncPanelFromFretboard` (lines
481-845). The panel is modelled by a representative subset of its tracked
fields: the two Settings-Group-A selects (`dotTextMode`,
`showFretIndicators`, lines 507-516), the Settings-Group-B CSS-variable
inputs (lines 552-604, the only fields guarded by
`userEditing`/`editingKey`), and the Group-C `chordName` text field (lines
667-671). `focused` is the key of the focused panel field, `none` when no
input/select/textarea is focused anywhere. Writes to the DOM inputs are
returned as an explicit log of `(key, value)` events so that redundant-write
avoidance is observable; the special URL-unwrapping for the two background
image keys and the remaining field groups are not modelled. -/

/-- Displayed panel state plus the per-instance sync flags (lines 101-105). -/
structure PanelInstance where
  isSyncing : Bool
  userEditing : Bool
  editingKey : Option Str
  dotTextMode : Str
  showFretIndicators : Str
  cssVarsB : List (Str × Str)
  chordName : Str
deriving DecidableEq, Repr

/-- The settings values a tick reads (`getCurrentFretboardState`): `none`
models an `undefined` field, which is never pushed to the panel. -/
structure SyncSource where
  dotTextMode : Option Str
  showFretIndicators : Option Str
  cssVarsB : List (Str × Str)
  name : Option Str
deriving DecidableEq, Repr

/-- The sync period of `startPanelSync` (line 136), in milliseconds. -/
def syncPeriodMs : Nat := 200

/-- The Group-B CSS-variable pass (lines 554-604): per key of the saved
map, skipped when the key equals `editingKey`, when the saved value is
empty (`undefined`/`null`/`''`), when the input does not exist (`aGet` of
the displayed map is `none`), or when the displayed value already equals
the target; otherwise the input is written and the write logged. -/
def syncCssB : List (Str × Str) → Option Str → List (Str × Str) →
    List (Str × Str) × List (Str × Str)
  | [], _, disp => (disp, [])
  | kv :: rest, ek, disp =>
      if ek = some kv.1 then syncCssB rest ek disp
      else if kv.2 = [] then syncCssB rest ek disp
      else
        match aGet disp kv.1 with
        | none => syncCssB rest ek disp
        | some cur =>
            if cur = kv.2 then syncCssB rest ek disp
            else
              let r := syncCssB rest ek
                (disp.map (fun p => if p.1 = kv.1 then (p.1, kv.2) else p))
              (r.1, kv :: r.2)

/-- One tracked scalar field on a tick (the shared pattern of lines 507-516
and 667-671): written from the settings value when it is defined, the field
is not the focused element and the displayed value differs. -/
def syncScalar (focused : Option Str) (key : Str) (target : Option Str)
    (cur : Str) : Str × List (Str × Str) :=
  match target with
  | some v => if focused ≠ some key ∧ cur ≠ v then (v, [(key, v)]) else (cur, [])
  | none => (cur, [])

/-- `syncPanelFromFretboard` (lines 481-845) over the modelled fields,
returning the new panel state and the log of input writes performed. The
tracked fields are mutually independent; the write log keeps the source's
order. -/
def syncPanelFromFretboard (src : SyncSource) (focused : Option Str)
    (p : PanelInstance) : PanelInstance × List (Str × Str) :=
  if p.isSyncing then (p, [])
  else if focused.isSome then (p, [])
  else
    let r1 := syncScalar focused (("dotTextMode").data) src.dotTextMode p.dotTextMode
    let r2 := syncScalar focused (("showFretIndicators").data) src.showFretIndicators
      p.showFretIndicators
    let rb := if p.userEditing = false then syncCssB src.cssVarsB p.editingKey p.cssVarsB
      else (p.cssVarsB, [])
    let r4 := syncScalar focused (("chordName").data) src.name p.chordName
    ({ p with dotTextMode := r1.1, showFretIndicators := r2.1,
              cssVarsB := rb.1, chordName := r4.1 },
     r1.2 ++ r2.2 ++ rb.2 ++ r4.2)

/-- The `setInterval` callback of `startPanelSync` (lines 132-136): a tick
runs the sync only when `isSyncing` is clear. -/
def panelTick (src : SyncSource) (focused : Option Str)
    (p : PanelInstance) : PanelInstance × List (Str × Str) :=
  if p.isSyncing then (p, [])
  else syncPanelFromFretboard src focused p

/-- The displayed value of a tracked panel field, by key: the three scalar
fields, else the Group-B CSS-variable inputs. -/
def displayedAt (p : PanelInstance) (k : Str) : Option Str :=
  if k = (("dotTextMode").data) then some p.dotTextMode
  else if k = (("showFretIndicators").data) then some p.showFretIndicators
  else if k = (("chordName").data) then some p.chordName
  else aGet p.cssVarsB k

theorem aGet_cons {V : Type} (x : Str × V) (m : List (Str × V)) (k : Str) :
    aGet (x :: m) k = if x.1 = k then some x.2 else aGet m k := by
  unfold aGet
  rw [List.find?_cons]
  by_cases h : x.1 = k
  · rw [decide_eq_true h, if_pos h]
    rfl
  · rw [decide_eq_false h, if_neg h]

theorem aHas_cons {V : Type} (x : Str × V) (m : List (Str × V)) (k : Str) :
    aHas (x :: m) k = (decide (x.1 = k) || aHas m k) := rfl

theorem aHas_of_aGet {V : Type} (m : List (Str × V)) (k : Str) (c : V)
    (h : aGet m k = some c) : aHas m k = true := by
  induction m with
  | nil => exact Option.noConfusion h
  | cons x rest ih =>
      rw [aGet_cons] at h
      by_cases hx : x.1 = k
      · rw [aHas_cons, decide_eq_true hx, Bool.true_or]
      · rw [if_neg hx] at h
        rw [aHas_cons, ih h, Bool.or_true]

theorem aGet_of_aHas {V : Type} (m : List (Str × V)) (k : Str)
    (h : aHas m k = true) : ∃ c, aGet m k = some c := by
  induction m with
  | nil => exact Bool.noConfusion h
  | cons x rest ih =>
      by_cases hx : x.1 = k
      · exact ⟨x.2, by rw [aGet_cons, if_pos hx]⟩
      · have h' : aHas rest k = true := by
          rw [aHas_cons, decide_eq_false hx, Bool.false_or] at h
          exact h
        rcases ih h' with ⟨c, hc⟩
        exact ⟨c, by rw [aGet_cons, if_neg hx, hc]⟩

theorem aGet_map_upd_ne (m : List (Str × Str)) (j v k : Str) (h : j ≠ k) :
    aGet (m.map (fun p => if p.1 = j then (p.1, v) else p)) k = aGet m k := by
  induction m with
  | nil => rfl
  | cons x rest ih =>
      by_cases hx : x.1 = j
      · have hk : ¬ (x.1 = k) := by rw [hx]; exact h
        rw [List.map_cons, if_pos hx, aGet_cons, aGet_cons, if_neg hk, if_neg hk, ih]
      · rw [List.map_cons, if_neg hx, aGet_cons, aGet_cons, ih]

theorem aGet_map_upd_self (m : List (Str × Str)) (j v : Str)
    (h : aHas m j = true) :
    aGet (m.map (fun p => if p.1 = j then (p.1, v) else p)) j = some v := by
  induction m with
  | nil => exact Bool.noConfusion h
  | cons x rest ih =>
      by_cases hx : x.1 = j
      · rw [List.map_cons, if_pos hx, aGet_cons, if_pos hx]
      · have h' : aHas rest j = true := by
          rw [aHas_cons, decide_eq_false hx, Bool.false_or] at h
          exact h
        rw [List.map_cons, if_neg hx, aGet_cons, if_neg hx, ih h']

theorem aHas_map_upd (m : List (Str × Str)) (j v k : Str) :
    aHas (m.map (fun p => if p.1 = j then (p.1, v) else p)) k = aHas m k := by
  induction m with
  | nil => rfl
  | cons x rest ih =>
      rw [List.map_cons, aHas_cons, aHas_cons, ih]
      by_cases hx : x.1 = j
      · rw [if_pos hx]
      · rw [if_neg hx]

theorem syncCssB_log_mem (src : List (Str × Str)) (ek : Option Str) :
    ∀ (disp : List (Str × Str)) (w : Str × Str),
      w ∈ (syncCssB src ek disp).2 → w ∈ src := by
  induction src with
  | nil =>
      intro disp w hw
      simp [syncCssB] at hw
  | cons kv rest ih =>
      intro disp w hw
      rw [syncCssB] at hw
      split at hw
      · exact List.mem_cons_of_mem _ (ih disp w hw)
      · split at hw
        · exact List.mem_cons_of_mem _ (ih disp w hw)
        · split at hw
          · exact List.mem_cons_of_mem _ (ih disp w hw)
          · split at hw
            · exact List.mem_cons_of_mem _ (ih disp w hw)
            · rcases List.mem_cons.mp hw with h | h
              · exact h ▸ List.mem_cons_self _ _
              · exact List.mem_cons_of_mem _ (ih _ w h)

theorem syncCssB_fst_ek (src : List (Str × Str)) (ek : Option Str) (k : Str)
    (hek : ek = some k) :
    ∀ disp : List (Str × Str), aGet (syncCssB src ek disp).1 k = aGet disp k := by
  induction src with
  | nil => intro disp; rfl
  | cons kv rest ih =>
      intro disp
      rw [syncCssB]
      by_cases h1 : ek = some kv.1
      · rw [if_pos h1]; exact ih disp
      · rw [if_neg h1]
        have hne : kv.1 ≠ k := by
          intro hkk
          exact h1 (by rw [hkk]; exact hek)
        by_cases h2 : kv.2 = []
        · rw [if_pos h2]; exact ih disp
        · rw [if_neg h2]
          cases hcur : aGet disp kv.1 with
          | none => exact ih disp
          | some cur =>
              dsimp only
              by_cases h4 : cur = kv.2
              · rw [if_pos h4]; exact ih disp
              · rw [if_neg h4]
                dsimp only
                rw [ih _, aGet_map_upd_ne _ _ _ _ hne]

theorem syncCssB_fst_not_mem (src : List (Str × Str)) (ek : Option Str) (k : Str) :
    ∀ disp : List (Str × Str), k ∉ src.map Prod.fst →
      aGet (syncCssB src ek disp).1 k = aGet disp k := by
  induction src with
  | nil => intro disp _; rfl
  | cons kv rest ih =>
      intro disp hk
      have hne : kv.1 ≠ k := by
        intro hkk
        exact hk (by rw [List.map_cons, hkk]; exact List.mem_cons_self _ _)
      have hk' : k ∉ rest.map Prod.fst := by
        intro hm
        exact hk (by rw [List.map_cons]; exact List.mem_cons_of_mem _ hm)
      rw [syncCssB]
      by_cases h1 : ek = some kv.1
      · rw [if_pos h1]; exact ih disp hk'
      · rw [if_neg h1]
        by_cases h2 : kv.2 = []
        · rw [if_pos h2]; exact ih disp hk'
        · rw [if_neg h2]
          cases hcur : aGet disp kv.1 with
          | none => exact ih disp hk'
          | some cur =>
              dsimp only
              by_cases h4 : cur = kv.2
              · rw [if_pos h4]; exact ih disp hk'
              · rw [if_neg h4]
                dsimp only
                rw [ih _ hk', aGet_map_upd_ne _ _ _ _ hne]

theorem syncCssB_fst_updates (src : List (Str × Str)) (ek : Option Str)
    (k v : Str) :
    ∀ disp : List (Str × Str), (src.map Prod.fst).Nodup →
      aGet src k = some v → v ≠ [] → ek ≠ some k → aHas disp k = true →
      aGet (syncCssB src ek disp).1 k = some v := by
  induction src with
  | nil =>
      intro disp _ hv _ _ _
      exact Option.noConfusion hv
  | cons kv rest ih =>
      intro disp hnd hv hne hek hhas
      have hndr : (rest.map Prod.fst).Nodup := by
        rw [List.map_cons] at hnd
        exact hnd.of_cons
      by_cases hkk : kv.1 = k
      · -- this is the step for key k itself
        subst hkk
        have hv' : v = kv.2 := by
          rw [aGet_cons, if_pos rfl] at hv
          exact (Option.some.inj hv).symm
        subst hv'
        have hknr : kv.1 ∉ rest.map Prod.fst := by
          rw [List.map_cons] at hnd
          exact (List.nodup_cons.mp hnd).1
        obtain ⟨cur, hcur⟩ := aGet_of_aHas disp kv.1 hhas
        rw [syncCssB, if_neg hek, if_neg hne, hcur]
        dsimp only
        by_cases h4 : cur = kv.2
        · rw [if_pos h4, syncCssB_fst_not_mem _ _ _ _ hknr, hcur, h4]
        · rw [if_neg h4]
          dsimp only
          rw [syncCssB_fst_not_mem _ _ _ _ hknr, aGet_map_upd_self _ _ _ hhas]
      · -- key k is handled further down the list
        have hv' : aGet rest k = some v := by
          rw [aGet_cons, if_neg hkk] at hv
          exact hv
        rw [syncCssB]
        by_cases h1 : ek = some kv.1
        · rw [if_pos h1]; exact ih disp hndr hv' hne hek hhas
        · rw [if_neg h1]
          by_cases h2 : kv.2 = []
          · rw [if_pos h2]; exact ih disp hndr hv' hne hek hhas
          · rw [if_neg h2]
            cases hcur : aGet disp kv.1 with
            | none => exact ih disp hndr hv' hne hek hhas
            | some cur =>
                dsimp only
                by_cases h4 : cur = kv.2
                · rw [if_pos h4]; exact ih disp hndr hv' hne hek hhas
                · rw [if_neg h4]
                  dsimp only
                  exact ih _ hndr hv' hne hek (by rw [aHas_map_upd]; exact hhas)

theorem syncCssB_log_sound (src : List (Str × Str)) (ek : Option Str) :
    ∀ disp : List (Str × Str), (src.map Prod.fst).Nodup →
      ∀ w ∈ (syncCssB src ek disp).2,
        ek ≠ some w.1 ∧ w.2 ≠ [] ∧ aGet disp w.1 ≠ some w.2 ∧
          aHas disp w.1 = true := by
  induction src with
  | nil =>
      intro disp _ w hw
      exact absurd hw (List.not_mem_nil w)
  | cons kv rest ih =>
      intro disp hnd w hw
      have hndr : (rest.map Prod.fst).Nodup := by
        rw [List.map_cons] at hnd
        exact hnd.of_cons
      rw [syncCssB] at hw
      by_cases h1 : ek = some kv.1
      · rw [if_pos h1] at hw
        exact ih disp hndr w hw
      · rw [if_neg h1] at hw
        by_cases h2 : kv.2 = []
        · rw [if_pos h2] at hw
          exact ih disp hndr w hw
        · rw [if_neg h2] at hw
          cases hcur : aGet disp kv.1 with
          | none =>
              rw [hcur] at hw
              exact ih disp hndr w hw
          | some cur =>
              rw [hcur] at hw
              dsimp only at hw
              by_cases h4 : cur = kv.2
              · rw [if_pos h4] at hw
                exact ih disp hndr w hw
              · rw [if_neg h4] at hw
                dsimp only at hw
                rcases List.mem_cons.mp hw with h | h
                · subst h
                  refine ⟨h1, h2, ?_, aHas_of_aGet _ _ _ hcur⟩
                  rw [hcur]
                  intro hc
                  exact h4 (Option.some.inj hc)
                · have hmem := syncCssB_log_mem rest ek _ w h
                  have hne : kv.1 ≠ w.1 := by
                    rw [List.map_cons] at hnd
                    intro hkk
                    exact (List.nodup_cons.mp hnd).1
                      (hkk ▸ List.mem_map_of_mem Prod.fst hmem)
                  have hprops := ih _ hndr w h
                  refine ⟨hprops.1, hprops.2.1, ?_, ?_⟩
                  · rw [← aGet_map_upd_ne disp kv.1 kv.2 w.1 hne]
                    exact hprops.2.2.1
                  · rw [← aHas_map_upd disp kv.1 kv.2 w.1]
                    exact hprops.2.2.2

theorem syncScalar_none_fst (key : Str) (target : Option Str) (cur : Str) :
    (syncScalar none key target cur).1 = target.getD cur := by
  cases target with
  | none => rfl
  | some v =>
      unfold syncScalar
      dsimp only
      by_cases hc : cur = v
      · rw [if_neg (fun hcond => hcond.2 hc)]
        dsimp only
        rw [hc]
        rfl
      · rw [if_pos ⟨fun hc2 => Option.noConfusion hc2, hc⟩]
        rfl

theorem syncScalar_snd_sound (focused : Option Str) (key : Str)
    (target : Option Str) (cur : Str) :
    ∀ w ∈ (syncScalar focused key target cur).2,
      w.1 = key ∧ target = some w.2 ∧ cur ≠ w.2 := by
  intro w hw
  cases target with
  | none => exact absurd hw (List.not_mem_nil w)
  | some v =>
      unfold syncScalar at hw
      dsimp only at hw
      by_cases hcond : focused ≠ some key ∧ cur ≠ v
      · rw [if_pos hcond] at hw
        dsimp only at hw
        rcases List.mem_singleton.mp hw with h
        subst h
        exact ⟨rfl, rfl, hcond.2⟩
      · rw [if_neg hcond] at hw
        exact absurd hw (List.not_mem_nil w)

theorem syncPanel_eq (src : SyncSource) (p : PanelInstance)
    (h : p.isSyncing = false) :
    syncPanelFromFretboard src none p =
      ({ p with
          dotTextMode :=
            (syncScalar none (("dotTextMode").data) src.dotTextMode p.dotTextMode).1,
          showFretIndicators :=
            (syncScalar none (("showFretIndicators").data) src.showFretIndicators
              p.showFretIndicators).1,
          cssVarsB :=
            (if p.userEditing = false then
              syncCssB src.cssVarsB p.editingKey p.cssVarsB
             else (p.cssVarsB, [])).1,
          chordName := (syncScalar none (("chordName").data) src.name p.chordName).1 },
       (syncScalar none (("dotTextMode").data) src.dotTextMode p.dotTextMode).2 ++
       (syncScalar none (("showFretIndicators").data) src.showFretIndicators
         p.showFretIndicators).2 ++
       (if p.userEditing = false then syncCssB src.cssVarsB p.editingKey p.cssVarsB
        else (p.cssVarsB, [])).2 ++
       (syncScalar none (("chordName").data) src.name p.chordName).2) := by
  rw [syncPanelFromFretboard, if_neg (by rw [h]; exact Bool.false_ne_true),
    if_neg (by simp)]

/-- C6 (counterexample): the claim says that on each tick every tracked
field not protected by guard (a) focus, (b) `editingKey` while
`userEditing`, or (c) value already equal, is updated from the settings
group. In the code, however, `syncPanelFromFretboard` returns immediately
when ANY input, select or textarea is focused (part_000 line 493), so with
the `chordName` field focused the `dotTextMode` select — unfocused, not the
editing key, displaying a stale value — is not updated and no write at all
is performed by the tick. -/
theorem c6_counterexample :
    (panelTick ⟨some (("finger").data), none, [], none⟩
        (some (("chordName").data))
        ⟨false, false, none, (("note").data), (("all").data), [], []⟩ =
      (⟨false, false, none, (("note").data), (("all").data), [], []⟩, [])) ∧
    some (("chordName").data) ≠ some (("dotTextMode").data) ∧
    (PanelInstance.mk false false none (("note").data) (("all").data) [] []).userEditing
      = false ∧
    (PanelInstance.mk false false none (("note").data) (("all").data) [] []).editingKey
      = none ∧
    (SyncSource.mk (some (("finger").data)) none [] none).dotTextMode
      = some (("finger").data) ∧
    (PanelInstance.mk false false none (("note").data) (("all").data) [] []).dotTextMode
      ≠ (("finger").data) := by
  refine ⟨rfl, by decide, rfl, rfl, rfl, by decide⟩

/-- C6 (amended): `startPanelSync` runs `syncPanelFromFretboard` on a fixed
200ms interval and a tick performs no panel writes while `isSyncing` is
true (the interval callback checks the flag, and the sync itself returns
immediately on it). A tick is skipped entirely — no field is updated —
whenever any input, select or textarea is focused. On an unfocused,
non-syncing tick: each tracked scalar field (`dotTextMode`,
`showFretIndicators`, `chordName`) ends at the settings value when one is
present and keeps its displayed value otherwise; the Group-B CSS-variable
block — the only block guarded by `userEditing`/`editingKey` — is left
untouched while `userEditing` is true; the input for the key equal to
`editingKey` keeps its displayed value; every other CSS-variable input
whose saved value is nonempty and present in the panel is updated to the
saved value; and every write event changes the displayed value of its
field — a field already displaying the target value is never written. -/
theorem c6_panel_sync :
    syncPeriodMs = 200 ∧
    (∀ (src : SyncSource) (focused : Option Str) (p : PanelInstance),
      p.isSyncing = true →
      panelTick src focused p = (p, []) ∧
        syncPanelFromFretboard src focused p = (p, [])) ∧
    (∀ (src : SyncSource) (focused : Option Str) (p : PanelInstance),
      focused.isSome = true → syncPanelFromFretboard src focused p = (p, [])) ∧
    (∀ (src : SyncSource) (p : PanelInstance), p.isSyncing = false →
      (syncPanelFromFretboard src none p).1.dotTextMode =
          src.dotTextMode.getD p.dotTextMode ∧
        (syncPanelFromFretboard src none p).1.showFretIndicators =
          src.showFretIndicators.getD p.showFretIndicators ∧
        (syncPanelFromFretboard src none p).1.chordName =
          src.name.getD p.chordName) ∧
    (∀ (src : SyncSource) (p : PanelInstance), p.isSyncing = false →
      p.userEditing = true →
      (syncPanelFromFretboard src none p).1.cssVarsB = p.cssVarsB) ∧
    (∀ (src : SyncSource) (p : PanelInstance) (k : Str), p.isSyncing = false →
      p.editingKey = some k →
      aGet (syncPanelFromFretboard src none p).1.cssVarsB k = aGet p.cssVarsB k) ∧
    (∀ (src : SyncSource) (p : PanelInstance) (k v : Str), p.isSyncing = false →
      p.userEditing = false → (src.cssVarsB.map Prod.fst).Nodup →
      aGet src.cssVarsB k = some v → v ≠ [] → p.editingKey ≠ some k →
      aHas p.cssVarsB k = true →
      aGet (syncPanelFromFretboard src none p).1.cssVarsB k = some v) ∧
    (∀ (src : SyncSource) (p : PanelInstance), p.isSyncing = false →
      (src.cssVarsB.map Prod.fst).Nodup →
      (∀ q ∈ src.cssVarsB, q.1 ≠ (("dotTextMode").data) ∧
        q.1 ≠ (("showFretIndicators").data) ∧ q.1 ≠ (("chordName").data)) →
      ∀ w ∈ (syncPanelFromFretboard src none p).2,
        displayedAt p w.1 ≠ some w.2) := by
  refine ⟨rfl, ?_, ?_, ?_, ?_, ?_, ?_, ?_⟩
  · intro src focused p h
    constructor
    · rw [panelTick, if_pos h]
    · rw [syncPanelFromFretboard, if_pos h]
  · intro src focused p h
    rw [syncPanelFromFretboard]
    by_cases hs : p.isSyncing = true
    · rw [if_pos hs]
    · rw [if_neg hs, if_pos h]
  · intro src p h
    rw [syncPanel_eq src p h]
    exact ⟨syncScalar_none_fst _ _ _, syncScalar_none_fst _ _ _,
      syncScalar_none_fst _ _ _⟩
  · intro src p h hue
    rw [syncPanel_eq src p h]
    dsimp only
    rw [if_neg (by rw [hue]; exact fun hc => Bool.noConfusion hc)]
  · intro src p k h hek
    rw [syncPanel_eq src p h]
    dsimp only
    by_cases hue : p.userEditing = false
    · rw [if_pos hue]
      exact syncCssB_fst_ek src.cssVarsB p.editingKey k hek p.cssVarsB
    · rw [if_neg hue]
  · intro src p k v h hue hnd hv hvne hek hhas
    rw [syncPanel_eq src p h]
    dsimp only
    rw [if_pos hue]
    exact syncCssB_fst_updates src.cssVarsB p.editingKey k v p.cssVarsB
      hnd hv hvne hek hhas
  · intro src p h hnd hkeys w hw
    rw [syncPanel_eq src p h] at hw
    dsimp only at hw
    rcases List.mem_append.mp hw with hw3 | hw4
    · rcases List.mem_append.mp hw3 with hw2 | hwb
      · rcases List.mem_append.mp hw2 with hw1 | hw2
        · obtain ⟨hk, _, hne⟩ := syncScalar_snd_sound _ _ _ _ w hw1
          rw [displayedAt, if_pos hk]
          intro hc
          exact hne (Option.some.inj hc)
        · obtain ⟨hk, _, hne⟩ := syncScalar_snd_sound _ _ _ _ w hw2
          rw [displayedAt, if_neg (by rw [hk]; decide), if_pos hk]
          intro hc
          exact hne (Option.some.inj hc)
      · by_cases hue : p.userEditing = false
        · rw [if_pos hue] at hwb
          obtain ⟨_, _, hget, _⟩ :=
            syncCssB_log_sound src.cssVarsB p.editingKey p.cssVarsB hnd w hwb
          have hmem := syncCssB_log_mem src.cssVarsB p.editingKey p.cssVarsB w hwb
          obtain ⟨hne1, hne2, hne3⟩ := hkeys w hmem
          rw [displayedAt, if_neg hne1, if_neg hne2, if_neg hne3]
          exact hget
        · rw [if_neg hue] at hwb
          exact absurd hwb (List.not_mem_nil w)
    · obtain ⟨hk, _, hne⟩ := syncScalar_snd_sound _ _ _ _ w hw4
      rw [displayedAt, if_neg (by rw [hk]; decide), if_neg (by rw [hk]; decide),
        if_pos hk]
      intro hc
      exact hne (Option.some.inj hc)

/-- C6 witness: the amended sync theorem applied at a concrete panel. -/
theorem c6_panel_sync_witness :
    (syncPanelFromFretboard
        ⟨some (("finger").data), none, [((("--a").data), (("blue").data))],
          some (("Am").data)⟩ none
        ⟨false, false, none, (("note").data), (("all").data),
          [((("--a").data), (("red").data))], []⟩).1.dotTextMode =
      (("finger").data) ∧
    aGet (syncPanelFromFretboard
        ⟨some (("finger").data), none, [((("--a").data), (("blue").data))],
          some (("Am").data)⟩ none
        ⟨false, false, none, (("note").data), (("all").data),
          [((("--a").data), (("red").data))], []⟩).1.cssVarsB
      (("--a").data) = some (("blue").data) ∧
    syncPanelFromFretboard
        ⟨some (("finger").data), none, [], none⟩ (some (("chordName").data))
        ⟨false, false, none, (("note").data), (("all").data), [], []⟩ =
      (⟨false, false, none, (("note").data), (("all").data), [], []⟩, []) := by
  refine ⟨(c6_panel_sync.2.2.2.1 _ _ rfl).1, ?_, ?_⟩
  · exact c6_panel_sync.2.2.2.2.2.2.1 _ _ _ _ rfl rfl (by decide) rfl
      (by decide) (by decide) rfl
  · exact c6_panel_sync.2.2.1 _ _ _ rfl

/-! ## Claim C8: comment stripping in `parseExportCode`
(`src/unnamed/part_000` lines 3360-3391)

`parseExportCode` first splits the code on newlines and, per line, looks at
the FIRST occurrence of `//` (`line.indexOf('//')`): it scans the prefix
before that index with a quote-state machine and, when the index lies
outside a string, truncates there (`trimEnd`); when it lies inside a
string, the line is returned unchanged — any later `//` outside the string
is not examined. It then removes block comments with the quote-blind
regex `/\x2f\x2a[\s\S]*?\x2a\x2f/g`. -/

/-- The forward-slash character. -/
def sl : Char := Char.ofNat 47

/-- The asterisk character. -/
def ast : Char := Char.ofNat 42

/-- The newline character. -/
def nlc : Char := Char.ofNat 10

/-- `line.indexOf('//')` (line 3367): index of the first `//`. -/
def idxOfSlashes : Str → Option Nat
  | [] => none
  | c :: rest =>
      if c = sl ∧ rest.head? = some sl then some 0
      else (idxOfSlashes rest).map (fun n => n + 1)

/-- The quote-state scan of the prefix before the first `//` (lines
3369-3381): tracks whether the scan ends inside a string, entering on a
single or double quote and leaving on the matching unescaped quote. -/
def lineInString : Str → Bool → Option Char → Option Char → Bool
  | [], inS, _, _ => inS
  | c :: rest, inS, sc, prev =>
      if inS = false ∧ (c = dq ∨ c = sq) then lineInString rest true (some c) (some c)
      else if inS = true ∧ some c = sc ∧ prev ≠ some bsl then
        lineInString rest false none (some c)
      else lineInString rest inS sc (some c)

/-- Per-line `//`-comment removal (lines 3365-3387): only the first `//`
is considered; if it lies outside a string the line is truncated there and
right-trimmed, otherwise the line is kept verbatim. -/
def stripLineComment (line : Str) : Str :=
  match idxOfSlashes line with
  | none => line
  | some i =>
      if lineInString (line.take i) false none none = true then line
      else jsTrimEnd (line.take i)

/-- `code.split('\n')` accumulator. -/
def splitLinesAux : Str → Str → List Str
  | [], acc => [acc.reverse]
  | c :: rest, acc =>
      if c = nlc then acc.reverse :: splitLinesAux rest []
      else splitLinesAux rest (c :: acc)

/-- `code.split('\n')` (line 3363). -/
def splitLines (s : Str) : List Str := splitLinesAux s []

/-- Lines 3363-3388: split, strip each line, rejoin. -/
def stripLineComments (code : Str) : Str :=
  joinWith [nlc] ((splitLines code).map stripLineComment)

/-- Whether the two-character sequence `xy` occurs in a string. -/
def hasSub2 (x y : Char) : Str → Bool
  | [] => false
  | c :: rest =>
      if c = x ∧ rest.head? = some y then true else hasSub2 x y rest

/-- After an opener, the lazy search for the first closing sequence of a
block comment: drops through the first occurrence and returns the suffix
after it. -/
def dropToClose : Str → Option Str
  | [] => none
  | c :: rest =>
      if c = ast ∧ rest.head? = some sl then some rest.tail
      else dropToClose rest

/-- Fuel-driven global block-comment removal (line 3391): scanning left to
right, the leftmost opener followed by a closer is removed up to the first
closer, and scanning resumes after it; an opener with no closer keeps the
rest of the text verbatim, mirroring the regex finding no further match. -/
def stripBlockAux : Nat → Str → Str
  | 0, s => s
  | _ + 1, [] => []
  | fuel + 1, c :: rest =>
      if c = sl ∧ rest.head? = some ast then
        match dropToClose rest.tail with
        | some rest2 => stripBlockAux fuel rest2
        | none => c :: rest
      else c :: stripBlockAux fuel rest

/-- `code.replace` with the global lazy block-comment regex (line 3391). -/
def stripBlockComments (s : Str) : Str := stripBlockAux (s.length + 1) s

/-- The full comment-stripping step of `parseExportCode` (lines 3363-3391):
line comments first, then block comments. -/
def stripComments (code : Str) : Str := stripBlockComments (stripLineComments code)

/-- The stripper the claim describes (written from the spec's words, for
comparison): scan the WHOLE line with the quote-state machine and cut at
the first `//` that is not inside a quoted string. -/
def specStripAux : Str → Bool → Option Char → Option Char → Str
  | [], _, _, _ => []
  | c :: rest, inS, sc, prev =>
      if inS = false ∧ c = sl ∧ rest.head? = some sl then []
      else if inS = false ∧ (c = dq ∨ c = sq) then
        c :: specStripAux rest true (some c) (some c)
      else if inS = true ∧ some c = sc ∧ prev ≠ some bsl then
        c :: specStripAux rest false none (some c)
      else c :: specStripAux rest inS sc (some c)

/-- The spec-described per-line stripper, with the code's incidental
right-trim applied when a cut was made. -/
def specStripLine (line : Str) : Str :=
  let r := specStripAux line false none none
  if r.length = line.length then line else jsTrimEnd r

theorem dropToClose_length : ∀ (s r : Str), dropToClose s = some r →
    r.length ≤ s.length := by
  intro s
  induction s with
  | nil => intro r h; exact Option.noConfusion h
  | cons c rest ih =>
      intro r h
      rw [dropToClose] at h
      by_cases hc : c = ast ∧ rest.head? = some sl
      · rw [if_pos hc] at h
        have hr : rest.tail = r := Option.some.inj h
        subst hr
        rw [List.length_tail, List.length_cons]
        omega
      · rw [if_neg hc] at h
        exact Nat.le_succ_of_le (ih r h)

theorem stripBlockAux_nil : ∀ f : Nat, stripBlockAux f [] = [] := by
  intro f
  cases f with
  | zero => rfl
  | succ f => rfl

theorem stripBlockAux_congr : ∀ (f1 : Nat) (s : Str) (f2 : Nat),
    s.length ≤ f1 → s.length ≤ f2 → stripBlockAux f1 s = stripBlockAux f2 s := by
  intro f1
  induction f1 with
  | zero =>
      intro s f2 h1 _
      have hs : s = [] := List.length_eq_zero.mp (Nat.le_zero.mp h1)
      subst hs
      rw [stripBlockAux_nil, stripBlockAux_nil]
  | succ f ih =>
      intro s f2 h1 h2
      cases s with
      | nil => rw [stripBlockAux_nil, stripBlockAux_nil]
      | cons c rest =>
          cases f2 with
          | zero =>
              rw [List.length_cons] at h2
              omega
          | succ f2 =>
              rw [stripBlockAux, stripBlockAux]
              rw [List.length_cons] at h1 h2
              by_cases hc : c = sl ∧ rest.head? = some ast
              · rw [if_pos hc, if_pos hc]
                cases hdc : dropToClose rest.tail with
                | none => rfl
                | some rest2 =>
                    have hl : rest2.length ≤ rest.tail.length :=
                      dropToClose_length _ _ hdc
                    rw [List.length_tail] at hl
                    exact ih rest2 f2 (by omega) (by omega)
              · rw [if_neg hc, if_neg hc, ih rest f2 (by omega) (by omega)]

theorem stripBlock_cons_no (c : Char) (rest : Str)
    (h : ¬(c = sl ∧ rest.head? = some ast)) :
    stripBlockComments (c :: rest) = c :: stripBlockComments rest := by
  unfold stripBlockComments
  rw [List.length_cons, stripBlockAux, if_neg h]

theorem dropToClose_append (b c : Str) (hb : hasSub2 ast sl b = false) :
    dropToClose (b ++ ast :: sl :: c) = some c := by
  induction b with
  | nil =>
      rw [List.nil_append, dropToClose, if_pos ⟨rfl, rfl⟩]
      rfl
  | cons x xs ih =>
      rw [List.cons_append, dropToClose]
      have hx : ¬(x = ast ∧ (xs ++ ast :: sl :: c).head? = some sl) := by
        intro hcc
        obtain ⟨h1, h2⟩ := hcc
        cases xs with
        | nil =>
            rw [List.nil_append] at h2
            exact absurd (Option.some.inj h2) (by decide)
        | cons y ys =>
            rw [List.cons_append] at h2
            have hy : y = sl := Option.some.inj h2
            rw [hasSub2, if_pos ⟨h1, by rw [hy]; rfl⟩] at hb
            exact Bool.noConfusion hb
      rw [if_neg hx]
      have hb' : hasSub2 ast sl xs = false := by
        rw [hasSub2] at hb
        by_cases hcond : x = ast ∧ xs.head? = some sl
        · rw [if_pos hcond] at hb
          exact Bool.noConfusion hb
        · rw [if_neg hcond] at hb
          exact hb
      exact ih hb'

theorem stripBlock_opener (b c : Str) (hb : hasSub2 ast sl b = false) :
    stripBlockComments (sl :: ast :: (b ++ ast :: sl :: c)) =
      stripBlockComments c := by
  unfold stripBlockComments
  rw [stripBlockAux, if_pos ⟨rfl, rfl⟩]
  have htail : (ast :: (b ++ ast :: sl :: c)).tail = b ++ ast :: sl :: c := rfl
  rw [htail, dropToClose_append b c hb]
  dsimp only
  refine stripBlockAux_congr _ c _ ?_ ?_
  · rw [List.length_cons, List.length_cons, List.length_append,
      List.length_cons, List.length_cons]
    omega
  · omega

theorem stripBlock_id (s : Str) (h : hasSub2 sl ast s = false) :
    stripBlockComments s = s := by
  induction s with
  | nil => rfl
  | cons c rest ih =>
      have hc : ¬(c = sl ∧ rest.head? = some ast) := by
        intro hcc
        rw [hasSub2, if_pos hcc] at h
        exact Bool.noConfusion h
      have h' : hasSub2 sl ast rest = false := by
        rw [hasSub2, if_neg hc] at h
        exact h
      rw [stripBlock_cons_no c rest hc, ih h']

theorem stripBlock_removes (a b c : Str) (ha : hasSub2 sl ast a = false)
    (hb : hasSub2 ast sl b = false) :
    stripBlockComments (a ++ sl :: ast :: (b ++ ast :: sl :: c)) =
      a ++ stripBlockComments c := by
  induction a with
  | nil => rw [List.nil_append, stripBlock_opener b c hb, List.nil_append]
  | cons x xs ih =>
      have hx : ¬(x = sl ∧
          (xs ++ sl :: ast :: (b ++ ast :: sl :: c)).head? = some ast) := by
        intro hcc
        obtain ⟨h1, h2⟩ := hcc
        cases xs with
        | nil =>
            rw [List.nil_append] at h2
            exact absurd (Option.some.inj h2) (by decide)
        | cons y ys =>
            rw [List.cons_append] at h2
            have hy : y = ast := Option.some.inj h2
            rw [hasSub2, if_pos ⟨h1, by rw [hy]; rfl⟩] at ha
            exact Bool.noConfusion ha
      have ha' : hasSub2 sl ast xs = false := by
        rw [hasSub2] at ha
        by_cases hcond : x = sl ∧ xs.head? = some ast
        · rw [if_pos hcond] at ha
          exact Bool.noConfusion ha
        · rw [if_neg hcond] at ha
          exact ha
      rw [List.cons_append, stripBlock_cons_no x _ hx, ih ha', List.cons_append]

theorem lineInString_noquote (line : Str)
    (hq : ∀ ch ∈ line, ¬(ch = dq ∨ ch = sq)) :
    ∀ prev : Option Char, lineInString line false none prev = false := by
  induction line with
  | nil => intro prev; rfl
  | cons c rest ih =>
      intro prev
      rw [lineInString,
        if_neg (fun hcc => hq c (List.mem_cons_self _ _) hcc.2),
        if_neg (fun hcc => Bool.noConfusion hcc.1)]
      exact ih (fun ch hm => hq ch (List.mem_cons_of_mem _ hm)) (some c)

theorem specStripAux_noquote (line : Str)
    (hq : ∀ ch ∈ line, ¬(ch = dq ∨ ch = sq)) :
    ∀ prev : Option Char, specStripAux line false none prev =
      (match idxOfSlashes line with
       | none => line
       | some i => line.take i) := by
  induction line with
  | nil => intro prev; rfl
  | cons c rest ih =>
      intro prev
      rw [specStripAux, idxOfSlashes]
      by_cases hsl : c = sl ∧ rest.head? = some sl
      · rw [if_pos ⟨rfl, hsl.1, hsl.2⟩, if_pos hsl]
        rfl
      · rw [if_neg (fun hcc => hsl ⟨hcc.2.1, hcc.2.2⟩),
          if_neg (fun hcc => hq c (List.mem_cons_self _ _) hcc.2),
          if_neg (fun hcc => Bool.noConfusion hcc.1),
          if_neg hsl,
          ih (fun ch hm => hq ch (List.mem_cons_of_mem _ hm)) (some c)]
        cases idxOfSlashes rest with
        | none => rfl
        | some j => rfl

theorem idxOfSlashes_lt : ∀ (line : Str) (i : Nat),
    idxOfSlashes line = some i → i < line.length := by
  intro line
  induction line with
  | nil => intro i h; exact Option.noConfusion h
  | cons c rest ih =>
      intro i h
      rw [idxOfSlashes] at h
      by_cases hc : c = sl ∧ rest.head? = some sl
      · rw [if_pos hc] at h
        rw [← Option.some.inj h, List.length_cons]
        omega
      · rw [if_neg hc] at h
        cases hr : idxOfSlashes rest with
        | none => rw [hr] at h; exact Option.noConfusion h
        | some j =>
            rw [hr] at h
            have hj := ih j hr
            have hij : j + 1 = i := Option.some.inj h
            rw [← hij, List.length_cons]
            omega

/-- C8 (counterexample): the claim says every `//`-to-end-of-line segment
outside a quoted string is removed and quoted strings are left intact. The
code tests only the FIRST `//` of a line against the quote state, so in
the line `x: 'a//b' // c` — whose first `//` is inside the string — the
real trailing comment survives, while the spec-described stripper removes
it; and the quote-blind block regex deletes a `/\x2a ... \x2a/` span whose
delimiters both lie inside string literals, mangling the strings. -/
theorem c8_counterexample :
    stripLineComment
        ((("x: ").data) ++ sq :: (("a//b").data) ++ sq :: ((" // c").data)) =
      (("x: ").data) ++ sq :: (("a//b").data) ++ sq :: ((" // c").data) ∧
    specStripLine
        ((("x: ").data) ++ sq :: (("a//b").data) ++ sq :: ((" // c").data)) =
      (("x: ").data) ++ sq :: (("a//b").data) ++ [sq] ∧
    stripBlockComments
        (sq :: sl :: ast :: sq :: ((" q ").data) ++ sq :: ast :: sl :: [sq]) =
      [sq, sq] := by
  refine ⟨by decide, by decide, by decide⟩

/-- C8 (amended): characterization of the comment stripping actually
performed. Per line, only the first `//` is examined: with no `//` the
line is unchanged; when the quote-state scan of the prefix before the
first `//` ends outside a string the line is truncated there and
right-trimmed; when it ends inside a string the whole line is kept, later
`//` occurrences included. On lines containing no quote characters the
code agrees with the spec-described stripper. Block-comment removal is
quote-blind: the leftmost opener with a matching closer is removed up to
the first closer (with scanning resuming after it), and text with no
opener pair is unchanged. -/
theorem c8_comment_stripping :
    (∀ line : Str, idxOfSlashes line = none → stripLineComment line = line) ∧
    (∀ (line : Str) (i : Nat), idxOfSlashes line = some i →
      lineInString (line.take i) false none none = false →
      stripLineComment line = jsTrimEnd (line.take i)) ∧
    (∀ (line : Str) (i : Nat), idxOfSlashes line = some i →
      lineInString (line.take i) false none none = true →
      stripLineComment line = line) ∧
    (∀ line : Str, (∀ ch ∈ line, ¬(ch = dq ∨ ch = sq)) →
      stripLineComment line = specStripLine line) ∧
    (∀ a b c : Str, hasSub2 sl ast a = false → hasSub2 ast sl b = false →
      stripBlockComments (a ++ sl :: ast :: (b ++ ast :: sl :: c)) =
        a ++ stripBlockComments c) ∧
    (∀ s : Str, hasSub2 sl ast s = false → stripBlockComments s = s) := by
  refine ⟨?_, ?_, ?_, ?_, stripBlock_removes, stripBlock_id⟩
  · intro line h
    unfold stripLineComment
    rw [h]
  · intro line i h1 hs
    unfold stripLineComment
    rw [h1]
    dsimp only
    rw [hs, if_neg (by decide : ¬(false = true))]
  · intro line i h1 hs
    unfold stripLineComment
    rw [h1]
    dsimp only
    rw [hs, if_pos rfl]
  · intro line hq
    unfold stripLineComment specStripLine
    rw [specStripAux_noquote line hq none]
    cases hid : idxOfSlashes line with
    | none =>
        dsimp only
        rw [if_pos rfl]
    | some i =>
        have hlt : i < line.length := idxOfSlashes_lt line i hid
        have htk : (line.take i).length = i := by
          rw [List.length_take]
          omega
        dsimp only
        rw [lineInString_noquote (line.take i)
            (fun ch hm => hq ch (List.take_subset i line hm)) none,
          if_neg (by decide : ¬(false = true)),
          if_neg (by rw [htk]; omega)]

/-- C8 witness: the amended characterization applied to concrete lines and
a concrete block-comment removal. -/
theorem c8_comment_stripping_witness :
    stripLineComment (("a: 1, // x").data) =
      jsTrimEnd ((("a: 1, // x").data).take 6) ∧
    stripBlockComments
        ((("q").data) ++ sl :: ast :: (((" w ").data) ++ ast :: sl :: (("z").data))) =
      (("q").data) ++ stripBlockComments (("z").data) := by
  refine ⟨?_, ?_⟩
  · exact c8_comment_stripping.2.1 (("a: 1, // x").data) 6 (by decide) (by decide)
  · exact c8_comment_stripping.2.2.2.2.1 (("q").data) ((" w ").data) (("z").data)
      (by decide) (by decide)

/-! ## Claims C7 and C1: `parseExportCode`
(`src/unnamed/part_000` lines 3352-3501)

After trim and comment stripping, the code locates the object passed to
`Fretboard.init` (or the first brace), extracts the balanced-brace segment
with an escape-aware scanner, evaluates it with
`new Function('return ' + objStr)()`, rejects falsy or non-object results,
and pulls out the three settings groups; every internal error is re-thrown
with the prefix `Invalid code format: `. The `Function` evaluation is a
JavaScript engine primitive, so it is modelled here by a recursive-descent
evaluator of the object-literal grammar (objects, arrays, quoted strings
with backslash escapes, integer numbers, `true`/`false`/`null`, trailing
commas); its error messages stand in for the engine's. -/

/-- The opening-bracket character. -/
def obk : Char := Char.ofNat 91

/-- The closing-bracket character. -/
def cbk : Char := Char.ofNat 93

/-- `code.indexOf(ch)`. -/
def idxOfChar (ch : Char) : Str → Option Nat
  | [] => none
  | c :: rest => if c = ch then some 0 else (idxOfChar ch rest).map (fun n => n + 1)

/-- `code.indexOf(pat)` for a substring pattern. -/
def idxOfSub (pat : Str) : Str → Option Nat
  | [] => if pat.isPrefixOf ([] : Str) then some 0 else none
  | c :: rest =>
      if pat.isPrefixOf (c :: rest) then some 0
      else (idxOfSub pat rest).map (fun n => n + 1)

/-- Line 3399: `Could not find object in code. ...`. -/
def msgNoObject : Str :=
  ("Could not find object in code. Make sure the code includes Fretboard.init(").data
    ++ [obr] ++ ("...").data ++ [cbr] ++ (") or ").data ++ [obr] ++ ("...").data ++ [cbr]

/-- Line 3405: the missing-brace-after-init message. -/
def msgNoBraceAfterInit : Str :=
  ("Could not find opening brace after Fretboard.init(").data

/-- Line 3456: the unmatched-brace message, carrying the final count. -/
def msgBraceCount (n : Int) : Str :=
  ("Could not find matching closing brace. The code may be incomplete. Brace count: ").data
    ++ intStr n

/-- Line 3472: the evaluation-failure wrapper around the engine message. -/
def msgEvalWrap (m : Str) : Str :=
  ("Error parsing object: ").data ++ m ++ (". Please check the code syntax.").data

/-- Line 3477: the non-object message. -/
def msgNotObject : Str := ("Parsed result is not an object").data

/-- Line 3499: the outer wrapper prefix. -/
def invalidPrefix : Str := ("Invalid code format: ").data

/-- Lines 3395-3408: find the suffix starting at the object's opening
brace — after `Fretboard.init(` when present, else the first brace. -/
def findObjStart (code : Str) : Except Str Str :=
  match idxOfSub (("Fretboard.init(").data) code with
  | none =>
      match idxOfChar obr code with
      | none => .error msgNoObject
      | some i => .ok (code.drop i)
  | some i =>
      match idxOfChar obr (code.drop i) with
      | none => .error msgNoBraceAfterInit
      | some j => .ok ((code.drop i).drop j)

/-- Lines 3411-3451: the balanced-brace scanner with escape-aware string
handling. State: remaining text, `inString`, `stringChar`, brace count,
previous and before-previous character; the consumed segment is
accumulated reversed. An exhausted input reports the final brace count. -/
def braceScanAux : Str → Bool → Option Char → Int → Option Char → Option Char →
    Str → Except Int Str
  | [], _, _, count, _, _, _ => .error count
  | c :: rest, inS, sc, count, p1, p2, acc =>
      if inS = false ∧ (c = dq ∨ c = sq) then
        braceScanAux rest true (some c) count (some c) p1 (c :: acc)
      else if inS = true then
        if some c = sc ∧ p1 = some bsl ∧ p2 ≠ some bsl then
          braceScanAux rest true sc count (some c) p1 (c :: acc)
        else if some c = sc ∧ p1 ≠ some bsl then
          braceScanAux rest false none count (some c) p1 (c :: acc)
        else
          braceScanAux rest true sc count (some c) p1 (c :: acc)
      else
        if c = obr then braceScanAux rest false sc (count + 1) (some c) p1 (c :: acc)
        else if c = cbr then
          if count - 1 = 0 then .ok (c :: acc).reverse
          else braceScanAux rest false sc (count - 1) (some c) p1 (c :: acc)
        else braceScanAux rest false sc count (some c) p1 (c :: acc)

/-- String-literal body after the opening quote: decodes backslash
escapes (`\n`, `\t`, `\r` to control characters, anything else to the
escaped character itself) and stops at the matching quote, returning the
decoded content and the remainder. -/
def parseStrLit (quote : Char) : Str → Except Str (Str × Str)
  | [] => .error (("Unterminated string literal").data)
  | c :: rest =>
      if c = quote then .ok ([], rest)
      else if c = bsl then
        match rest with
        | [] => .error (("Unterminated string literal").data)
        | e :: rest2 =>
            let d := if e = Char.ofNat 110 then nlc
              else if e = Char.ofNat 116 then Char.ofNat 9
              else if e = Char.ofNat 114 then Char.ofNat 13
              else e
            match parseStrLit quote rest2 with
            | .ok (cs, r) => .ok (d :: cs, r)
            | .error m => .error m
      else
        match parseStrLit quote rest with
        | .ok (cs, r) => .ok (c :: cs, r)
        | .error m => .error m

/-- Identifier characters allowed in an unquoted object key. -/
def isIdentKeyChar (c : Char) : Bool :=
  (decide (65 ≤ c.toNat) && decide (c.toNat ≤ 90)) ||
  (decide (97 ≤ c.toNat) && decide (c.toNat ≤ 122)) ||
  (decide (48 ≤ c.toNat) && decide (c.toNat ≤ 57)) ||
  decide (c.toNat = 95) || decide (c.toNat = 36)

/-- Skip JavaScript whitespace. -/
def skipWs (s : Str) : Str := s.dropWhile isJsWs

/-- An object key: quoted string or identifier run. -/
def parseKey : Str → Except Str (Str × Str)
  | [] => .error (("Unexpected end of input").data)
  | c :: rest =>
      if c = sq ∨ c = dq then parseStrLit c rest
      else
        let k := (c :: rest).takeWhile isIdentKeyChar
        if k = [] then .error (("Unexpected token in object key").data)
        else .ok (k, (c :: rest).drop k.length)

/-- Parser mode: a value, or the members of an object or array already
opened, with the members parsed so far. -/
inductive PMode where
  | val
  | objBody (acc : JsObj)
  | arrBody (acc : List JsValue)

/-- The fuel-driven recursive-descent evaluator of the object-literal
grammar; every recursive call consumes at least one character, so fuel
`length + 1` never runs out. Trailing commas are accepted, as
`generateExportCode` emits them. -/
def parseRun : Nat → PMode → Str → Except Str (JsValue × Str)
  | 0, _, _ => .error (("Recursion depth exhausted").data)
  | fuel + 1, .val, s =>
      match skipWs s with
      | [] => .error (("Unexpected end of input").data)
      | c :: rest =>
          if c = obr then parseRun fuel (.objBody []) rest
          else if c = obk then parseRun fuel (.arrBody []) rest
          else if c = sq ∨ c = dq then
            match parseStrLit c rest with
            | .ok (w, r) => .ok (.str w, r)
            | .error m => .error m
          else if c = '-' then
            let d := rest.takeWhile isDigitCh
            if d = [] then .error (("Unexpected token").data)
            else .ok (.num (-(digitsVal d : Int)), rest.drop d.length)
          else if isDigitCh c then
            let d := (c :: rest).takeWhile isDigitCh
            .ok (.num (digitsVal d : Int), (c :: rest).drop d.length)
          else if (("true").data).isPrefixOf (c :: rest) then
            .ok (.bool true, (c :: rest).drop 4)
          else if (("false").data).isPrefixOf (c :: rest) then
            .ok (.bool false, (c :: rest).drop 5)
          else if (("null").data).isPrefixOf (c :: rest) then
            .ok (.null, (c :: rest).drop 4)
          else .error (("Unexpected token").data)
  | fuel + 1, .objBody acc, s =>
      let s1 := skipWs s
      if s1.head? = some cbr then .ok (.obj acc, s1.tail)
      else
        match parseKey s1 with
        | .error m => .error m
        | .ok (k, r1) =>
            match skipWs r1 with
            | ch :: r3 =>
                if ch = ':' then
                  match parseRun fuel .val r3 with
                  | .error m => .error m
                  | .ok (v, r4) =>
                      match skipWs r4 with
                      | ch2 :: r6 =>
                          if ch2 = ',' then
                            parseRun fuel (.objBody (acc ++ [(k, v)])) r6
                          else if ch2 = cbr then .ok (.obj (acc ++ [(k, v)]), r6)
                          else .error (("Expected comma or closing brace").data)
                      | [] => .error (("Unexpected end of input").data)
                else .error (("Expected colon after object key").data)
            | [] => .error (("Unexpected end of input").data)
  | fuel + 1, .arrBody acc, s =>
      let s1 := skipWs s
      if s1.head? = some cbk then .ok (.arr acc, s1.tail)
      else
        match parseRun fuel .val s1 with
        | .error m => .error m
        | .ok (v, r4) =>
            match skipWs r4 with
            | ch :: r6 =>
                if ch = ',' then parseRun fuel (.arrBody (acc ++ [v])) r6
                else if ch = cbk then .ok (.arr (acc ++ [v]), r6)
                else .error (("Expected comma or closing bracket").data)
            | [] => .error (("Unexpected end of input").data)

/-- The modelled `new Function('return ' + objStr)()` (lines 3467-3469):
parse one value and require only whitespace after it. -/
def evalObjectLiteral (objStr : Str) : Except Str JsValue :=
  match parseRun (objStr.length + 1) .val objStr with
  | .error m => .error m
  | .ok (v, r) =>
      if skipWs r = [] then .ok v
      else .error (("Unexpected token after value").data)

/-- JavaScript truthiness of a value. -/
def jsTruthy : JsValue → Bool
  | .str s => decide (s ≠ [])
  | .num n => decide (n ≠ 0)
  | .bool b => b
  | .null => false
  | .obj _ => true
  | .arr _ => true

/-- JavaScript `typeof v === 'object'` (true for `null` as well). -/
def typeofIsObject : JsValue → Bool
  | .null => true
  | .obj _ => true
  | .arr _ => true
  | _ => false

/-- The decoded settings triple (line 3484): each group is the property's
value when the config owns it, else `null`. -/
structure ParsedSettings where
  settingsGroupA : JsValue
  settingsGroupB : JsValue
  settingsGroupC : JsValue
deriving Repr

/-- `config.hasOwnProperty(key) ? config[key] : null`. -/
def extractGroup (config : JsValue) (key : Str) : JsValue :=
  match config with
  | .obj o =>
      match aGet o key with
      | some v => v
      | none => .null
  | _ => .null

/-- Lines 3476-3488: reject falsy or non-object results, then extract the
three settings groups. -/
def checkConfig (config : JsValue) : Except Str ParsedSettings :=
  if jsTruthy config = false ∨ typeofIsObject config = false then
    .error msgNotObject
  else
    .ok ⟨extractGroup config (("settingsGroupA").data),
         extractGroup config (("settingsGroupB").data),
         extractGroup config (("settingsGroupC").data)⟩

/-- The body of `parseExportCode`'s `try` block (lines 3353-3495). -/
def parseInner (code0 : Str) : Except Str ParsedSettings :=
  let code := stripComments (jsTrim code0)
  match findObjStart code with
  | .error m => .error m
  | .ok suffix =>
      match braceScanAux suffix false none 0 none none [] with
      | .error count => .error (msgBraceCount count)
      | .ok objStr =>
          match evalObjectLiteral objStr with
          | .error m => .error (msgEvalWrap m)
          | .ok config => checkConfig config

/-- `parseExportCode` (lines 3352-3501): every internal failure is
re-thrown with the `Invalid code format: ` prefix. -/
def parseExportCode (code0 : Str) : Except Str ParsedSettings :=
  match parseInner code0 with
  | .error m => .error (invalidPrefix ++ m)
  | .ok s => .ok s

/-- The import-modal messages (lines 3304 and 3325). -/
def msgPaste : Str := ("Please paste the exported code.").data

/-- Line 3325. -/
def msgNoSettings : Str :=
  ("Could not parse the code or no settings found. Please check the format.").data

/-- `settings.settingsGroupA || settings.settingsGroupB || settings.settingsGroupC`. -/
def groupsTruthy (s : ParsedSettings) : Bool :=
  jsTruthy s.settingsGroupA || jsTruthy s.settingsGroupB || jsTruthy s.settingsGroupC

/-- The import button handler (lines 3300-3336) over an abstract
application function: the settings are applied only when the parse
succeeds and some group is truthy; otherwise the state is untouched and an
error message is displayed (`Error: ` + message for a parse throw). -/
def importClick {σ : Type} (apply : ParsedSettings → σ → σ) (state : σ)
    (code0 : Str) : σ × Option Str :=
  let code := jsTrim code0
  if code = [] then (state, some msgPaste)
  else
    match parseExportCode code with
    | .error m =>
        (state, some ((("Error: ").data) ++ m ++ ((" (Check console for details)").data)))
    | .ok s =>
        if groupsTruthy s = true then (apply s state, none)
        else (state, some msgNoSettings)


/-- C7: the decoder raises a distinct, descriptive error for each failure
mode — unmatched braces (reporting the final brace count), evaluation
failure (wrapping the evaluator message), and a falsy or non-object result
— all re-thrown with the `Invalid code format: ` prefix; and a failed
parse applies no settings: the import handler leaves the state untouched
for every erroring input, whatever the application function would do. -/
theorem c7_decode_errors :
    (∀ (code suffix : Str) (n : Int),
      findObjStart (stripComments (jsTrim code)) = .ok suffix →
      braceScanAux suffix false none 0 none none [] = .error n →
      parseExportCode code = .error (invalidPrefix ++ msgBraceCount n)) ∧
    (∀ (code suffix objStr m : Str),
      findObjStart (stripComments (jsTrim code)) = .ok suffix →
      braceScanAux suffix false none 0 none none [] = .ok objStr →
      evalObjectLiteral objStr = .error m →
      parseExportCode code = .error (invalidPrefix ++ msgEvalWrap m)) ∧
    (∀ v : JsValue, jsTruthy v = false ∨ typeofIsObject v = false →
      checkConfig v = .error msgNotObject) ∧
    (∀ (n : Int) (m : Str), msgBraceCount n ≠ msgEvalWrap m ∧
      msgBraceCount n ≠ msgNotObject ∧ msgEvalWrap m ≠ msgNotObject) ∧
    (∀ (code m : Str), parseExportCode code = .error m →
      ∃ m0, m = invalidPrefix ++ m0) ∧
    (∀ (σ : Type) (apply : ParsedSettings → σ → σ) (state : σ) (code0 m : Str),
      parseExportCode (jsTrim code0) = .error m →
      (importClick apply state code0).1 = state) := by
  refine ⟨?_, ?_, ?_, ?_, ?_, ?_⟩
  · intro code suffix n h1 h2
    unfold parseExportCode parseInner
    dsimp only
    rw [h1]
    dsimp only
    rw [h2]
  · intro code suffix objStr m h1 h2 h3
    unfold parseExportCode parseInner
    dsimp only
    rw [h1]
    dsimp only
    rw [h2]
    dsimp only
    rw [h3]
  · intro v hv
    unfold checkConfig
    rw [if_pos hv]
  · intro n m
    refine ⟨?_, ?_, ?_⟩
    · intro h
      have h2 := congrArg List.head? h
      rw [show (msgBraceCount n).head? = some (Char.ofNat 67) from rfl,
        show (msgEvalWrap m).head? = some (Char.ofNat 69) from rfl] at h2
      exact absurd (Option.some.inj h2) (by decide)
    · intro h
      have h2 := congrArg List.head? h
      rw [show (msgBraceCount n).head? = some (Char.ofNat 67) from rfl,
        show msgNotObject.head? = some (Char.ofNat 80) from rfl] at h2
      exact absurd (Option.some.inj h2) (by decide)
    · intro h
      have h2 := congrArg List.head? h
      rw [show (msgEvalWrap m).head? = some (Char.ofNat 69) from rfl,
        show msgNotObject.head? = some (Char.ofNat 80) from rfl] at h2
      exact absurd (Option.some.inj h2) (by decide)
  · intro code m h
    unfold parseExportCode at h
    cases hpi : parseInner code with
    | error e =>
        rw [hpi] at h
        dsimp only at h
        exact ⟨e, (Except.error.inj h).symm⟩
    | ok s =>
        rw [hpi] at h
        exact Except.noConfusion h
  · intro σ apply state code0 m h
    unfold importClick
    dsimp only
    by_cases hc : jsTrim code0 = []
    · rw [if_pos hc]
    · rw [if_neg hc, h]

/-- C7 witness: the error theorem applied to concrete failing inputs. -/
theorem c7_decode_errors_witness :
    parseExportCode ((("Fretboard.init(").data) ++ [obr]) =
      .error (invalidPrefix ++ msgBraceCount 1) ∧
    parseExportCode ([obr] ++ ((":").data) ++ [cbr]) =
      .error (invalidPrefix ++ msgEvalWrap (("Unexpected token in object key").data)) ∧
    checkConfig (.num 0) = .error msgNotObject ∧
    (importClick (fun (_ : ParsedSettings) (st : Nat) => st + 1) 7
      (("garbage").data)).1 = 7 := by
  refine ⟨?_, ?_, ?_, ?_⟩
  · exact c7_decode_errors.1 ((("Fretboard.init(").data) ++ [obr]) [obr] 1
      rfl rfl
  · exact c7_decode_errors.2.1 ([obr] ++ ((":").data) ++ [cbr])
      ([obr] ++ ((":").data) ++ [cbr]) ([obr] ++ ((":").data) ++ [cbr])
      (("Unexpected token in object key").data) rfl rfl rfl
  · exact c7_decode_errors.2.2.1 (.num 0) (Or.inl (by decide))
  · exact c7_decode_errors.2.2.2.2.2 Nat (fun _ st => st + 1) 7 (("garbage").data)
      (invalidPrefix ++ msgNoObject) rfl

/-! ## Claim C1: the encode/decode round trip

The layers below characterize each pipeline stage of
`parseExportCode (generateExportCode ...)` on the text the exporter
actually emits: trimming, comment stripping, object location, the
balanced-brace scan, and object-literal evaluation. The amended claim
restricts string inputs to "plain" text — free of quotes, backslashes,
backticks, newlines and slashes — because the exporter quotes `name`,
`root` and CSS keys without escaping those characters. -/

/-- A character the exporter can embed in quoted text without any escaping
or comment/brace-scanner interference: not a quote, backslash, backtick,
newline or slash. -/
def plainChar (c : Char) : Bool :=
  decide (c ≠ sq) && decide (c ≠ dq) && decide (c ≠ bsl) &&
  decide (c ≠ btick) && decide (c ≠ nlc) && decide (c ≠ sl)

/-- All characters plain. -/
def plainStr (w : Str) : Bool := w.all plainChar

theorem plainStr_mem {w : Str} (h : plainStr w = true) {c : Char} (hc : c ∈ w) :
    c ≠ sq ∧ c ≠ dq ∧ c ≠ bsl ∧ c ≠ btick ∧ c ≠ nlc ∧ c ≠ sl := by
  have := List.all_eq_true.mp h c hc
  unfold plainChar at this
  simp only [Bool.and_eq_true, decide_eq_true_eq] at this
  exact ⟨this.1.1.1.1.1, this.1.1.1.1.2, this.1.1.1.2, this.1.1.2, this.1.2, this.2⟩

theorem plainStr_append {a b : Str} (ha : plainStr a = true) (hb : plainStr b = true) :
    plainStr (a ++ b) = true := by
  unfold plainStr at ha hb ⊢
  rw [List.all_append, ha, hb]
  rfl

theorem plainStr_sub {a b : Str} (h : plainStr b = true) (hs : ∀ c ∈ a, c ∈ b) :
    plainStr a = true := by
  unfold plainStr at h ⊢
  exact List.all_eq_true.mpr (fun c hc => List.all_eq_true.mp h c (hs c hc))

theorem escapeSq_plain {w : Str} (h : plainStr w = true) : escapeSq w = w := by
  induction w with
  | nil => rfl
  | cons c rest ih =>
      have hc := plainStr_mem h (List.mem_cons_self _ _)
      have hr : plainStr rest = true :=
        plainStr_sub h (fun x hx => List.mem_cons_of_mem _ hx)
      unfold escapeSq at ih ⊢
      rw [List.flatMap_cons, if_neg hc.1, ih hr]
      rfl

theorem flatMap_if_id (w : Str) (bad : Char) (rep : Str) (h : bad ∉ w) :
    w.flatMap (fun c => if c = bad then rep else [c]) = w := by
  induction w with
  | nil => rfl
  | cons c rest ih =>
      have hc : ¬(c = bad) := fun hcc => h (hcc ▸ List.mem_cons_self _ _)
      rw [List.flatMap_cons, if_neg hc,
        ih (fun hm => h (List.mem_cons_of_mem _ hm)), List.singleton_append]

theorem escapeCustomCSS_plain {w : Str} (h : plainStr w = true) :
    escapeCustomCSS w = w := by
  unfold escapeCustomCSS
  rw [flatMap_if_id w bsl _ (fun hm => (plainStr_mem h hm).2.2.1 rfl),
    flatMap_if_id w btick _ (fun hm => (plainStr_mem h hm).2.2.2.1 rfl),
    flatMap_if_id w (Char.ofNat 10) _ (fun hm => (plainStr_mem h hm).2.2.2.2.1 rfl),
    flatMap_if_id w sq _ (fun hm => (plainStr_mem h hm).1 rfl)]

/-- Whitespace-only text. -/
def wsStr (w : Str) : Bool := w.all isJsWs

theorem skipWs_ws_append {w : Str} (h : wsStr w = true) (t : Str) :
    skipWs (w ++ t) = skipWs t := by
  induction w with
  | nil => rfl
  | cons c rest ih =>
      have hc : isJsWs c = true := List.all_eq_true.mp h c (List.mem_cons_self _ _)
      have hr : wsStr rest = true :=
        List.all_eq_true.mpr (fun x hx => List.all_eq_true.mp h x (List.mem_cons_of_mem _ hx))
      unfold skipWs at ih ⊢
      rw [List.cons_append, List.dropWhile_cons_of_pos hc]
      exact ih hr

theorem skipWs_cons_not_ws {c : Char} (h : isJsWs c = false) (t : Str) :
    skipWs (c :: t) = c :: t := by
  unfold skipWs
  rw [List.dropWhile_cons_of_neg (by rw [h]; exact Bool.false_ne_true)]

/-! ### Line-splitting laws for the comment stripper -/

theorem splitLinesAux_append_nl (A B : Str) : ∀ acc : Str,
    splitLinesAux (A ++ nlc :: B) acc = splitLinesAux A acc ++ splitLines B := by
  induction A with
  | nil =>
      intro acc
      rw [List.nil_append]
      have h1 : splitLinesAux (nlc :: B) acc = acc.reverse :: splitLinesAux B [] := by
        rw [splitLinesAux, if_pos rfl]
      rw [h1]
      rfl
  | cons c rest ih =>
      intro acc
      rw [List.cons_append, splitLinesAux, splitLinesAux]
      by_cases hc : c = nlc
      · rw [if_pos hc, if_pos hc, ih, List.cons_append]
      · rw [if_neg hc, if_neg hc, ih]

theorem splitLines_append_nl (A B : Str) :
    splitLines (A ++ nlc :: B) = splitLines A ++ splitLines B := by
  unfold splitLines
  exact splitLinesAux_append_nl A B []

theorem splitLinesAux_ne_nil (s : Str) : ∀ acc, splitLinesAux s acc ≠ [] := by
  induction s with
  | nil =>
      intro acc h
      exact List.noConfusion h
  | cons c rest ih =>
      intro acc
      rw [splitLinesAux]
      by_cases hc : c = nlc
      · rw [if_pos hc]
        intro h
        exact List.noConfusion h
      · rw [if_neg hc]
        exact ih (c :: acc)

theorem splitLinesAux_no_nl (s : Str) (h : nlc ∉ s) :
    ∀ acc, splitLinesAux s acc = [acc.reverse ++ s] := by
  induction s with
  | nil =>
      intro acc
      rw [splitLinesAux, List.append_nil]
  | cons c rest ih =>
      intro acc
      have hc : ¬(c = nlc) := fun hcc => h (hcc ▸ List.mem_cons_self _ _)
      have hr : nlc ∉ rest := fun hm => h (List.mem_cons_of_mem _ hm)
      rw [splitLinesAux, if_neg hc, ih hr]
      rw [List.reverse_cons, List.append_assoc]
      rfl

theorem splitLines_no_nl (s : Str) (h : nlc ∉ s) : splitLines s = [s] := by
  unfold splitLines
  rw [splitLinesAux_no_nl s h []]
  rfl

theorem joinWith_append_strs (sep : Str) : ∀ (L1 L2 : List Str), L1 ≠ [] → L2 ≠ [] →
    joinWith sep (L1 ++ L2) = joinWith sep L1 ++ sep ++ joinWith sep L2 := by
  intro L1
  induction L1 with
  | nil => intro L2 h1 _; exact absurd rfl h1
  | cons a t ih =>
      intro L2 _ h2
      cases t with
      | nil =>
          cases L2 with
          | nil => exact absurd rfl h2
          | cons b t2 => rfl
      | cons a2 t2 =>
          rw [List.cons_append, List.cons_append]
          have h1 : joinWith sep (a :: a2 :: (t2 ++ L2)) =
              a ++ sep ++ joinWith sep (a2 :: (t2 ++ L2)) := rfl
          rw [h1, show (a2 :: (t2 ++ L2)) = (a2 :: t2) ++ L2 from rfl,
            ih L2 (fun hc => List.noConfusion hc) h2,
            show joinWith sep (a :: a2 :: t2) = a ++ sep ++ joinWith sep (a2 :: t2) from rfl]
          simp only [List.append_assoc]

theorem joinWith_splitLinesAux (s : Str) : ∀ acc,
    joinWith [nlc] (splitLinesAux s acc) = acc.reverse ++ s := by
  induction s with
  | nil =>
      intro acc
      rw [splitLinesAux, List.append_nil]
      rfl
  | cons c rest ih =>
      intro acc
      rw [splitLinesAux]
      by_cases hc : c = nlc
      · rw [if_pos hc]
        cases hsp : splitLinesAux rest [] with
        | nil => exact absurd hsp (splitLinesAux_ne_nil rest [])
        | cons l ls =>
            have hj : joinWith [nlc] (acc.reverse :: l :: ls) =
                acc.reverse ++ [nlc] ++ joinWith [nlc] (l :: ls) := rfl
            rw [hj, show l :: ls = splitLinesAux rest [] from hsp.symm, ih [],
              List.append_assoc]
            rw [hc]
            rfl
      · rw [if_neg hc, ih (c :: acc), List.reverse_cons, List.append_assoc]
        rfl

theorem joinWith_splitLines (t : Str) : joinWith [nlc] (splitLines t) = t := by
  unfold splitLines
  rw [joinWith_splitLinesAux t []]
  rfl

theorem splitLines_ne_nil (t : Str) : splitLines t ≠ [] := splitLinesAux_ne_nil t []

theorem stripLineComments_append_nl (A B : Str) :
    stripLineComments (A ++ nlc :: B) =
      stripLineComments A ++ nlc :: stripLineComments B := by
  unfold stripLineComments
  rw [splitLines_append_nl, List.map_append,
    joinWith_append_strs [nlc] _ _
      (fun hc => splitLines_ne_nil A (List.map_eq_nil_iff.mp hc))
      (fun hc => splitLines_ne_nil B (List.map_eq_nil_iff.mp hc)),
    List.append_assoc]
  rfl

theorem stripLineComments_single (t : Str) (h : nlc ∉ t) :
    stripLineComments t = stripLineComment t := by
  unfold stripLineComments
  rw [splitLines_no_nl t h, List.map_cons]
  rfl

theorem idxOfSlashes_none_of_no_sl (t : Str) (h : sl ∉ t) :
    idxOfSlashes t = none := by
  induction t with
  | nil => rfl
  | cons c rest ih =>
      have hc : ¬(c = sl ∧ rest.head? = some sl) :=
        fun hcc => h (hcc.1 ▸ List.mem_cons_self _ _)
      rw [idxOfSlashes, if_neg hc, ih (fun hm => h (List.mem_cons_of_mem _ hm))]
      rfl

theorem stripLineComment_no_sl (t : Str) (h : sl ∉ t) :
    stripLineComment t = t := by
  unfold stripLineComment
  rw [idxOfSlashes_none_of_no_sl t h]

theorem splitLinesAux_chars (t : Str) : ∀ (acc line : Str),
    line ∈ splitLinesAux t acc → ∀ c ∈ line, c ∈ t ∨ c ∈ acc := by
  induction t with
  | nil =>
      intro acc line hl c hc
      rw [splitLinesAux] at hl
      rcases List.mem_singleton.mp hl with h
      subst h
      exact Or.inr (List.mem_reverse.mp hc)
  | cons d rest ih =>
      intro acc line hl c hc
      rw [splitLinesAux] at hl
      by_cases hd : d = nlc
      · rw [if_pos hd] at hl
        rcases List.mem_cons.mp hl with h | h
        · subst h
          exact Or.inr (List.mem_reverse.mp hc)
        · rcases ih [] line h c hc with h2 | h2
          · exact Or.inl (List.mem_cons_of_mem _ h2)
          · exact absurd h2 (List.not_mem_nil c)
      · rw [if_neg hd] at hl
        rcases ih (d :: acc) line hl c hc with h2 | h2
        · exact Or.inl (List.mem_cons_of_mem _ h2)
        · rcases List.mem_cons.mp h2 with h3 | h3
          · exact Or.inl (h3 ▸ List.mem_cons_self _ _)
          · exact Or.inr h3

theorem splitLines_chars (t line : Str) (hl : line ∈ splitLines t) :
    ∀ c ∈ line, c ∈ t := by
  intro c hc
  rcases splitLinesAux_chars t [] line hl c hc with h | h
  · exact h
  · exact absurd h (List.not_mem_nil c)

theorem stripLineComments_no_sl (t : Str) (h : sl ∉ t) :
    stripLineComments t = t := by
  unfold stripLineComments
  rw [List.map_congr_left (fun line hl =>
    stripLineComment_no_sl line (fun hm => h (splitLines_chars t line hl sl hm)))]
  rw [List.map_id']
  exact joinWith_splitLines t

theorem hasSub2_false_of_no (x y : Char) (t : Str) (h : x ∉ t) :
    hasSub2 x y t = false := by
  induction t with
  | nil => rfl
  | cons c rest ih =>
      have hc : ¬(c = x ∧ rest.head? = some y) :=
        fun hcc => h (hcc.1 ▸ List.mem_cons_self _ _)
      rw [hasSub2, if_neg hc]
      exact ih (fun hm => h (List.mem_cons_of_mem _ hm))

theorem jsTrim_sandwich (a : Char) (mid : Str) (z : Char)
    (h1 : isJsWs a = false) (h2 : isJsWs z = false) :
    jsTrim (a :: (mid ++ [z])) = a :: (mid ++ [z]) := by
  unfold jsTrim
  rw [show ((a :: (mid ++ [z])).dropWhile isJsWs) = a :: (mid ++ [z]) from
    List.dropWhile_cons_of_neg (by rw [h1]; exact Bool.false_ne_true)]
  rw [show (a :: (mid ++ [z])).reverse = z :: (mid.reverse ++ [a]) from by
    rw [List.reverse_cons, List.reverse_append]
    rfl]
  rw [show ((z :: (mid.reverse ++ [a])).dropWhile isJsWs) = z :: (mid.reverse ++ [a]) from
    List.dropWhile_cons_of_neg (by rw [h2]; exact Bool.false_ne_true)]
  rw [List.reverse_cons, List.reverse_append, List.reverse_reverse]
  rfl

/-! ### The evaluator on emitted chunks -/

/-- `t` parses as the complete value `v`, consuming exactly `t`, whenever
what follows does not begin with a digit (the emitter always follows a
value with whitespace, a comma or a closing delimiter). -/
def ValChunk (t : Str) (v : JsValue) : Prop :=
  ∀ (rest : Str) (fuel : Nat), t.length < fuel →
    (∀ c, rest.head? = some c → isDigitCh c = false) →
    parseRun fuel .val (t ++ rest) = .ok (v, rest)

/-- `t` is an object-body tail (after the opening brace) contributing the
member list `ps` and consuming through the closing brace. -/
def PairsChunk (t : Str) (ps : JsObj) : Prop :=
  ∀ (acc : JsObj) (rest : Str) (fuel : Nat), t.length < fuel →
    parseRun fuel (.objBody acc) (t ++ rest) = .ok (.obj (acc ++ ps), rest)

/-- `t` is an array-body tail (after the opening bracket) contributing the
element list `vs` and consuming through the closing bracket. -/
def ElemsChunk (t : Str) (vs : List JsValue) : Prop :=
  ∀ (acc : List JsValue) (rest : Str) (fuel : Nat), t.length < fuel →
    parseRun fuel (.arrBody acc) (t ++ rest) = .ok (.arr (acc ++ vs), rest)

/-- `t` parses as the object key `k`, consuming exactly `t`, whenever what
follows does not begin with an identifier character. -/
def KeyChunk (t k : Str) : Prop :=
  ∀ rest : Str, (∀ c, rest.head? = some c → isIdentKeyChar c = false) →
    parseKey (t ++ rest) = .ok (k, rest)

theorem ws_not_digit {c : Char} (h : isJsWs c = true) : isDigitCh c = false := by
  unfold isJsWs at h
  have hlt : c.toNat < 48 := by
    by_contra hge
    push_neg at hge
    rw [decide_eq_false (by omega : ¬(c.toNat = 32)),
      decide_eq_false (by omega : ¬(c.toNat = 9)),
      decide_eq_false (by omega : ¬(c.toNat = 10)),
      decide_eq_false (by omega : ¬(c.toNat = 13)),
      decide_eq_false (by omega : ¬(c.toNat = 12)),
      decide_eq_false (by omega : ¬(c.toNat = 11))] at h
    exact Bool.noConfusion h
  unfold isDigitCh
  rw [decide_eq_false (by omega : ¬(48 ≤ c.toNat))]
  rfl

theorem digit_toNat {c : Char} (h : isDigitCh c = true) :
    48 ≤ c.toNat ∧ c.toNat ≤ 57 := by
  unfold isDigitCh at h
  simp only [Bool.and_eq_true, decide_eq_true_eq] at h
  exact h

theorem digit_not_ws {c : Char} (h : isDigitCh c = true) : isJsWs c = false := by
  have hb := digit_toNat h
  unfold isJsWs
  rw [decide_eq_false (by omega : ¬(c.toNat = 32)),
    decide_eq_false (by omega : ¬(c.toNat = 9)),
    decide_eq_false (by omega : ¬(c.toNat = 10)),
    decide_eq_false (by omega : ¬(c.toNat = 13)),
    decide_eq_false (by omega : ¬(c.toNat = 12)),
    decide_eq_false (by omega : ¬(c.toNat = 11))]
  rfl

theorem digit_ident {c : Char} (h : isDigitCh c = true) :
    isIdentKeyChar c = true := by
  unfold isIdentKeyChar
  unfold isDigitCh at h
  rw [h]
  simp only [Bool.or_true, Bool.true_or]

theorem takeWhile_all_append (p : Char → Bool) (u v : Str)
    (hu : ∀ c ∈ u, p c = true)
    (hv : ∀ c, v.head? = some c → p c = false) :
    (u ++ v).takeWhile p = u := by
  induction u with
  | nil =>
      rw [List.nil_append]
      cases v with
      | nil => rfl
      | cons c rest =>
          rw [List.takeWhile_cons_of_neg]
          rw [hv c rfl]
          exact Bool.false_ne_true
  | cons c u' ih =>
      rw [List.cons_append,
        List.takeWhile_cons_of_pos (hu c (List.mem_cons_self _ _)),
        ih (fun x hx => hu x (List.mem_cons_of_mem _ hx))]

theorem parseRun_val_ws (w : Str) (hw : wsStr w = true) (fuel : Nat) (s : Str) :
    parseRun fuel .val (w ++ s) = parseRun fuel .val s := by
  cases fuel with
  | zero => rfl
  | succ f =>
      rw [parseRun, parseRun, skipWs_ws_append hw]

theorem parseRun_obj_ws (w : Str) (hw : wsStr w = true) (fuel : Nat)
    (acc : JsObj) (s : Str) :
    parseRun fuel (.objBody acc) (w ++ s) = parseRun fuel (.objBody acc) s := by
  cases fuel with
  | zero => rfl
  | succ f =>
      rw [parseRun, parseRun]
      dsimp only
      rw [skipWs_ws_append hw]

theorem parseRun_arr_ws (w : Str) (hw : wsStr w = true) (fuel : Nat)
    (acc : List JsValue) (s : Str) :
    parseRun fuel (.arrBody acc) (w ++ s) = parseRun fuel (.arrBody acc) s := by
  cases fuel with
  | zero => rfl
  | succ f =>
      rw [parseRun, parseRun]
      dsimp only
      rw [skipWs_ws_append hw]

theorem valChunk_ws (w t : Str) (v : JsValue) (hw : wsStr w = true)
    (hv : ValChunk t v) : ValChunk (w ++ t) v := by
  intro rest fuel hf hrest
  rw [List.append_assoc, parseRun_val_ws w hw]
  rw [List.length_append] at hf
  exact hv rest fuel (by omega) hrest

theorem parseStrLit_plain (q : Char) (w : Str)
    (hw : ∀ c ∈ w, ¬(c = q) ∧ ¬(c = bsl)) :
    ∀ rest, parseStrLit q (w ++ q :: rest) = .ok (w, rest) := by
  induction w with
  | nil =>
      intro rest
      rw [List.nil_append, parseStrLit.eq_def]
      dsimp only
      rw [if_pos rfl]
  | cons c w' ih =>
      intro rest
      have hc := hw c (List.mem_cons_self _ _)
      rw [List.cons_append, parseStrLit.eq_def]
      dsimp only
      rw [if_neg hc.1, if_neg hc.2,
        ih (fun x hx => hw x (List.mem_cons_of_mem _ hx)) rest]

theorem keyChunk_ident (k : Str) (hne : k ≠ [])
    (hk : ∀ c ∈ k, isIdentKeyChar c = true) : KeyChunk k k := by
  cases k with
  | nil => exact absurd rfl hne
  | cons c k' =>
      intro rest hrest
      have hcid := hk c (List.mem_cons_self _ _)
      have hcsq : ¬(c = sq ∨ c = dq) := by
        intro hcc
        rcases hcc with hcc | hcc <;> rw [hcc] at hcid <;>
          exact absurd hcid (by decide)
      rw [List.cons_append, parseKey, if_neg hcsq]
      have htw : ((c :: (k' ++ rest)).takeWhile isIdentKeyChar) = c :: k' := by
        rw [show c :: (k' ++ rest) = (c :: k') ++ rest from rfl]
        exact takeWhile_all_append isIdentKeyChar (c :: k') rest hk hrest
      dsimp only
      rw [htw, if_neg (fun hc => List.noConfusion hc),
        show c :: (k' ++ rest) = (c :: k') ++ rest from rfl,
        show (c :: k').length = (c :: k').length from rfl, List.drop_left]

theorem keyChunk_quoted (q : Char) (hq : q = sq ∨ q = dq) (k : Str)
    (hk : plainStr k = true) : KeyChunk (q :: (k ++ [q])) k := by
  intro rest _
  rw [show (q :: (k ++ [q])) ++ rest = q :: (k ++ q :: rest) from by
    rw [List.cons_append, List.append_assoc]
    rfl]
  rw [parseKey, if_pos hq,
    parseStrLit_plain q k (fun c hc => by
      have hp := plainStr_mem hk hc
      rcases hq with rfl | rfl
      · exact ⟨hp.1, hp.2.2.1⟩
      · exact ⟨hp.2.1, hp.2.2.1⟩) rest]

theorem valChunk_str (q : Char) (hq : q = sq ∨ q = dq) (w : Str)
    (hw : plainStr w = true) : ValChunk (q :: (w ++ [q])) (.str w) := by
  intro rest fuel hf hrest
  cases fuel with
  | zero => omega
  | succ f =>
      have hassoc : (q :: (w ++ [q])) ++ rest = q :: (w ++ q :: rest) := by
        rw [List.cons_append, List.append_assoc]
        rfl
      have hpw : ∀ c ∈ w, ¬(c = q) ∧ ¬(c = bsl) := fun c hc => by
        have hp := plainStr_mem hw hc
        rcases hq with rfl | rfl
        · exact ⟨hp.1, hp.2.2.1⟩
        · exact ⟨hp.2.1, hp.2.2.1⟩
      rcases hq with rfl | rfl
      · rw [hassoc, parseRun, skipWs_cons_not_ws (by decide)]
        dsimp only
        rw [if_neg (by decide), if_neg (by decide), if_pos (Or.inl rfl),
          parseStrLit_plain sq w hpw rest]
      · rw [hassoc, parseRun, skipWs_cons_not_ws (by decide)]
        dsimp only
        rw [if_neg (by decide), if_neg (by decide), if_pos (Or.inr rfl),
          parseStrLit_plain dq w hpw rest]

theorem valChunk_num (n : Int) : ValChunk (intStr n) (.num n) := by
  intro rest fuel hf hrest
  cases fuel with
  | zero =>
      exact absurd hf (by omega)
  | succ f =>
      unfold intStr
      unfold intStr at hf
      by_cases hn : n < 0
      · rw [if_pos hn] at hf ⊢
        rw [List.cons_append, parseRun, skipWs_cons_not_ws (by decide)]
        dsimp only
        rw [if_neg (by decide), if_neg (by decide), if_neg (by decide), if_pos rfl]
        have htk : (natDigits n.natAbs ++ rest).takeWhile isDigitCh = natDigits n.natAbs :=
          takeWhile_all_append isDigitCh _ rest (natDigits_all_digits n.natAbs) hrest
        rw [htk, if_neg (natDigits_ne_nil n.natAbs), List.drop_left,
          digitsVal_natDigits]
        have hv : -((n.natAbs : Nat) : Int) = n := by omega
        rw [hv]
      · rw [if_neg hn] at hf ⊢
        cases hnd : natDigits n.toNat with
        | nil => exact absurd hnd (natDigits_ne_nil n.toNat)
        | cons c tl =>
            have hcd : isDigitCh c = true := by
              have := natDigits_all_digits n.toNat
              rw [hnd] at this
              exact this c (List.mem_cons_self _ _)
            have hb := digit_toNat hcd
            rw [List.cons_append, parseRun,
              skipWs_cons_not_ws (digit_not_ws hcd)]
            dsimp only
            rw [if_neg (fun hc => absurd (hc ▸ hcd) (by decide)),
              if_neg (fun hc => absurd (hc ▸ hcd) (by decide)),
              if_neg (fun hc => by
                rcases hc with hc | hc <;> exact absurd (hc ▸ hcd) (by decide)),
              if_neg (fun hc => absurd (hc ▸ hcd) (by decide)),
              if_pos hcd]
            have htk : ((c :: tl) ++ rest).takeWhile isDigitCh = c :: tl := by
              refine takeWhile_all_append isDigitCh _ rest ?_ hrest
              have := natDigits_all_digits n.toNat
              rw [hnd] at this
              exact this
            rw [show c :: (tl ++ rest) = (c :: tl) ++ rest from rfl, htk,
              List.drop_left, ← hnd, digitsVal_natDigits]
            have hv : ((n.toNat : Nat) : Int) = n := by omega
            rw [hv]

theorem valChunk_true : ValChunk (("true").data) (.bool true) := by
  intro rest fuel hf hrest
  cases fuel with
  | zero => exact absurd hf (by omega)
  | succ f =>
      have hd : ("true").data = ['t', 'r', 'u', 'e'] := by decide
      rw [hd, List.cons_append, parseRun, skipWs_cons_not_ws (by decide)]
      dsimp only
      rw [if_neg (by decide), if_neg (by decide), if_neg (by decide),
        if_neg (by decide), if_neg (by decide),
        if_pos (show (List.isPrefixOf ['t', 'r', 'u', 'e']
            ('t' :: (['r', 'u', 'e'] ++ rest))) = true from
          List.isPrefixOf_iff_prefix.mpr (List.prefix_append ['t', 'r', 'u', 'e'] rest))]
      rfl

theorem valChunk_false : ValChunk (("false").data) (.bool false) := by
  intro rest fuel hf hrest
  cases fuel with
  | zero => exact absurd hf (by omega)
  | succ f =>
      have hd : ("false").data = ['f', 'a', 'l', 's', 'e'] := by decide
      rw [hd, List.cons_append, parseRun, skipWs_cons_not_ws (by decide)]
      dsimp only
      rw [if_neg (by decide), if_neg (by decide), if_neg (by decide),
        if_neg (by decide), if_neg (by decide),
        if_neg (fun hc => Bool.noConfusion hc),
        if_pos (show (List.isPrefixOf ['f', 'a', 'l', 's', 'e']
            ('f' :: (['a', 'l', 's', 'e'] ++ rest))) = true from
          List.isPrefixOf_iff_prefix.mpr (List.prefix_append ['f', 'a', 'l', 's', 'e'] rest))]
      rfl

theorem valChunk_null : ValChunk (("null").data) .null := by
  intro rest fuel hf hrest
  cases fuel with
  | zero => exact absurd hf (by omega)
  | succ f =>
      have hd : ("null").data = ['n', 'u', 'l', 'l'] := by decide
      rw [hd, List.cons_append, parseRun, skipWs_cons_not_ws (by decide)]
      dsimp only
      rw [if_neg (by decide), if_neg (by decide), if_neg (by decide),
        if_neg (by decide), if_neg (by decide),
        if_neg (fun hc => Bool.noConfusion hc),
        if_neg (fun hc => Bool.noConfusion hc),
        if_pos (show (List.isPrefixOf ['n', 'u', 'l', 'l']
            ('n' :: (['u', 'l', 'l'] ++ rest))) = true from
          List.isPrefixOf_iff_prefix.mpr (List.prefix_append ['n', 'u', 'l', 'l'] rest))]
      rfl

theorem valChunk_obj (t : Str) (ps : JsObj) (h : PairsChunk t ps) :
    ValChunk (obr :: t) (.obj ps) := by
  intro rest fuel hf hrest
  cases fuel with
  | zero => exact absurd hf (by omega)
  | succ f =>
      rw [List.cons_append, parseRun, skipWs_cons_not_ws (by decide)]
      dsimp only
      rw [if_pos rfl, h [] rest f (by rw [List.length_cons] at hf; omega),
        List.nil_append]

theorem valChunk_arr (t : Str) (vs : List JsValue) (h : ElemsChunk t vs) :
    ValChunk (obk :: t) (.arr vs) := by
  intro rest fuel hf hrest
  cases fuel with
  | zero => exact absurd hf (by omega)
  | succ f =>
      rw [List.cons_append, parseRun, skipWs_cons_not_ws (by decide)]
      dsimp only
      rw [if_neg (by decide), if_pos rfl,
        h [] rest f (by rw [List.length_cons] at hf; omega), List.nil_append]

theorem pairsChunk_nil (w : Str) (hw : wsStr w = true) :
    PairsChunk (w ++ [cbr]) [] := by
  intro acc rest fuel hf
  cases fuel with
  | zero => exact absurd hf (by omega)
  | succ f =>
      rw [List.append_assoc, List.singleton_append, parseRun]
      dsimp only
      rw [skipWs_ws_append hw, skipWs_cons_not_ws (by decide)]
      rw [if_pos (show (cbr :: rest).head? = some cbr from rfl), List.append_nil]
      rfl

theorem elemsChunk_nil (w : Str) (hw : wsStr w = true) :
    ElemsChunk (w ++ [cbk]) [] := by
  intro acc rest fuel hf
  cases fuel with
  | zero => exact absurd hf (by omega)
  | succ f =>
      rw [List.append_assoc, List.singleton_append, parseRun]
      dsimp only
      rw [skipWs_ws_append hw, skipWs_cons_not_ws (by decide)]
      rw [if_pos (show (cbk :: rest).head? = some cbk from rfl), List.append_nil]
      rfl

theorem pairsChunk_ws (w t : Str) (ps : JsObj) (hw : wsStr w = true)
    (h : PairsChunk t ps) : PairsChunk (w ++ t) ps := by
  intro acc rest fuel hf
  rw [List.append_assoc, parseRun_obj_ws w hw]
  rw [List.length_append] at hf
  exact h acc rest fuel (by omega)

theorem elemsChunk_ws (w t : Str) (vs : List JsValue) (hw : wsStr w = true)
    (h : ElemsChunk t vs) : ElemsChunk (w ++ t) vs := by
  intro acc rest fuel hf
  rw [List.append_assoc, parseRun_arr_ws w hw]
  rw [List.length_append] at hf
  exact h acc rest fuel (by omega)

theorem head_ws_append_not_digit (w2 : Str) (hw2 : wsStr w2 = true) (z : Char)
    (hz : isDigitCh z = false) (t rest : Str) :
    ∀ c, ((w2 ++ z :: t) ++ rest).head? = some c → isDigitCh c = false := by
  intro c hc
  cases w2 with
  | nil =>
      rw [List.nil_append, List.cons_append] at hc
      rw [← Option.some.inj hc]
      exact hz
  | cons a w' =>
      rw [List.cons_append, List.cons_append] at hc
      rw [← Option.some.inj hc]
      exact ws_not_digit (List.all_eq_true.mp hw2 a (List.mem_cons_self _ _))

theorem pairsChunk_cons (kt k vt : Str) (v : JsValue) (w2 t' : Str) (ps : JsObj)
    (hkey : KeyChunk kt k)
    (hkh : ∀ c, kt.head? = some c → isJsWs c = false ∧ ¬(c = cbr))
    (hkne : kt ≠ [])
    (hv : ValChunk vt v) (hw2 : wsStr w2 = true)
    (ht' : PairsChunk t' ps) :
    PairsChunk (kt ++ ':' :: (vt ++ (w2 ++ ',' :: t'))) ((k, v) :: ps) := by
  intro acc rest fuel hf
  have hlen : kt.length + (1 + (vt.length + (w2.length + (1 + t'.length)))) < fuel := by
    rw [List.length_append, List.length_cons, List.length_append,
      List.length_append, List.length_cons] at hf
    omega
  cases fuel with
  | zero => omega
  | succ f =>
      cases kt with
      | nil => exact absurd rfl hkne
      | cons kc kt' =>
          obtain ⟨hkw, hkc⟩ := hkh kc rfl
          rw [parseRun]
          dsimp only
          rw [List.cons_append, List.cons_append, skipWs_cons_not_ws hkw,
            List.head?_cons, if_neg (fun hc => hkc (Option.some.inj hc)),
            List.append_assoc,
            show kc :: (kt' ++ ((':' :: (vt ++ (w2 ++ ',' :: t'))) ++ rest)) =
              (kc :: kt') ++ ((':' :: (vt ++ (w2 ++ ',' :: t'))) ++ rest) from rfl,
            hkey ((':' :: (vt ++ (w2 ++ ',' :: t'))) ++ rest)
              (fun c hc => by
                rw [List.cons_append] at hc
                rw [← Option.some.inj hc]
                decide)]
          dsimp only
          rw [List.cons_append, skipWs_cons_not_ws (by decide)]
          dsimp only
          rw [if_pos rfl, List.append_assoc,
            hv ((w2 ++ ',' :: t') ++ rest) f (by omega)
              (head_ws_append_not_digit w2 hw2 ',' (by decide) t' rest)]
          dsimp only
          rw [List.append_assoc, List.cons_append, skipWs_ws_append hw2,
            skipWs_cons_not_ws (by decide)]
          dsimp only
          rw [if_pos rfl, ht' (acc ++ [(k, v)]) rest f (by omega),
            List.append_assoc]
          rfl

theorem pairsChunk_last (kt k vt : Str) (v : JsValue) (w2 : Str)
    (hkey : KeyChunk kt k)
    (hkh : ∀ c, kt.head? = some c → isJsWs c = false ∧ ¬(c = cbr))
    (hkne : kt ≠ [])
    (hv : ValChunk vt v) (hw2 : wsStr w2 = true) :
    PairsChunk (kt ++ ':' :: (vt ++ (w2 ++ [cbr]))) [(k, v)] := by
  intro acc rest fuel hf
  have hlen : kt.length + (1 + (vt.length + (w2.length + 1))) < fuel := by
    rw [List.length_append, List.length_cons, List.length_append,
      List.length_append] at hf
    simp only [List.length_cons, List.length_nil] at hf
    omega
  cases fuel with
  | zero => omega
  | succ f =>
      cases kt with
      | nil => exact absurd rfl hkne
      | cons kc kt' =>
          obtain ⟨hkw, hkc⟩ := hkh kc rfl
          rw [parseRun]
          dsimp only
          rw [List.cons_append, List.cons_append, skipWs_cons_not_ws hkw,
            List.head?_cons, if_neg (fun hc => hkc (Option.some.inj hc)),
            List.append_assoc,
            show kc :: (kt' ++ ((':' :: (vt ++ (w2 ++ [cbr]))) ++ rest)) =
              (kc :: kt') ++ ((':' :: (vt ++ (w2 ++ [cbr]))) ++ rest) from rfl,
            hkey ((':' :: (vt ++ (w2 ++ [cbr]))) ++ rest)
              (fun c hc => by
                rw [List.cons_append] at hc
                rw [← Option.some.inj hc]
                decide)]
          dsimp only
          rw [List.cons_append, skipWs_cons_not_ws (by decide)]
          dsimp only
          rw [if_pos rfl, List.append_assoc,
            hv ((w2 ++ [cbr]) ++ rest) f (by omega)
              (head_ws_append_not_digit w2 hw2 cbr (by decide) [] rest)]
          dsimp only
          rw [List.append_assoc, List.singleton_append, skipWs_ws_append hw2,
            skipWs_cons_not_ws (by decide)]
          dsimp only
          rw [if_neg (by decide), if_pos rfl]

theorem elemsChunk_cons (w0 vt : Str) (v : JsValue) (w2 t' : Str)
    (vs : List JsValue)
    (hw0 : wsStr w0 = true)
    (hvh : ∀ c, vt.head? = some c → isJsWs c = false ∧ ¬(c = cbk))
    (hvne : vt ≠ [])
    (hv : ValChunk vt v) (hw2 : wsStr w2 = true)
    (ht' : ElemsChunk t' vs) :
    ElemsChunk (w0 ++ (vt ++ (w2 ++ ',' :: t'))) (v :: vs) := by
  intro acc rest fuel hf
  have hlen : w0.length + (vt.length + (w2.length + (1 + t'.length))) < fuel := by
    rw [List.length_append, List.length_append, List.length_append,
      List.length_cons] at hf
    omega
  cases fuel with
  | zero => omega
  | succ f =>
      cases vt with
      | nil => exact absurd rfl hvne
      | cons vc vt' =>
          obtain ⟨hvw, hvc⟩ := hvh vc rfl
          rw [parseRun]
          dsimp only
          rw [List.append_assoc, skipWs_ws_append hw0, List.cons_append,
            List.cons_append, skipWs_cons_not_ws hvw,
            List.head?_cons, if_neg (fun hc => hvc (Option.some.inj hc)),
            List.append_assoc,
            show vc :: (vt' ++ ((w2 ++ ',' :: t') ++ rest)) =
              (vc :: vt') ++ ((w2 ++ ',' :: t') ++ rest) from rfl,
            hv ((w2 ++ ',' :: t') ++ rest) f (by omega)
              (head_ws_append_not_digit w2 hw2 ',' (by decide) t' rest)]
          dsimp only
          rw [List.append_assoc, List.cons_append, skipWs_ws_append hw2,
            skipWs_cons_not_ws (by decide)]
          dsimp only
          rw [if_pos rfl, ht' (acc ++ [v]) rest f (by omega), List.append_assoc]
          rfl

theorem elemsChunk_last (w0 vt : Str) (v : JsValue) (w2 : Str)
    (hw0 : wsStr w0 = true)
    (hvh : ∀ c, vt.head? = some c → isJsWs c = false ∧ ¬(c = cbk))
    (hvne : vt ≠ [])
    (hv : ValChunk vt v) (hw2 : wsStr w2 = true) :
    ElemsChunk (w0 ++ (vt ++ (w2 ++ [cbk]))) [v] := by
  intro acc rest fuel hf
  have hlen : w0.length + (vt.length + (w2.length + 1)) < fuel := by
    rw [List.length_append, List.length_append, List.length_append] at hf
    simp only [List.length_cons, List.length_nil] at hf
    omega
  cases fuel with
  | zero => omega
  | succ f =>
      cases vt with
      | nil => exact absurd rfl hvne
      | cons vc vt' =>
          obtain ⟨hvw, hvc⟩ := hvh vc rfl
          rw [parseRun]
          dsimp only
          rw [List.append_assoc, skipWs_ws_append hw0, List.cons_append,
            List.cons_append, skipWs_cons_not_ws hvw,
            List.head?_cons, if_neg (fun hc => hvc (Option.some.inj hc)),
            List.append_assoc,
            show vc :: (vt' ++ ((w2 ++ [cbk]) ++ rest)) =
              (vc :: vt') ++ ((w2 ++ [cbk]) ++ rest) from rfl,
            hv ((w2 ++ [cbk]) ++ rest) f (by omega)
              (head_ws_append_not_digit w2 hw2 cbk (by decide) [] rest)]
          dsimp only
          rw [List.append_assoc, List.singleton_append, skipWs_ws_append hw2,
            skipWs_cons_not_ws (by decide)]
          dsimp only
          rw [if_neg (by decide), if_pos rfl]

/-! ### The brace scanner on emitted chunks -/

/-- The previous-two-characters state after scanning a chunk. -/
def prevsAfter : Str → Option Char × Option Char → Option Char × Option Char
  | [], ps => ps
  | c :: u, ps => prevsAfter u (some c, ps.1)

theorem prevsAfter_append (a b : Str) : ∀ ps,
    prevsAfter (a ++ b) ps = prevsAfter b (prevsAfter a ps) := by
  induction a with
  | nil => intro ps; rfl
  | cons c a' ih => intro ps; rw [List.cons_append, prevsAfter, prevsAfter, ih]

/-- A chunk the scanner passes through outside strings without the brace
count ever reaching zero: the count is preserved, the scanner stays outside
a string, and the chunk lands on the accumulator. -/
def ScanBal (t : Str) : Prop :=
  ∀ (rest : Str) (count : Int) (p1 p2 : Option Char) (acc : Str), 0 < count →
    braceScanAux (t ++ rest) false none count p1 p2 acc =
      braceScanAux rest false none count (prevsAfter t (p1, p2)).1
        (prevsAfter t (p1, p2)).2 (t.reverse ++ acc)

theorem scanBal_nil : ScanBal [] := by
  intro rest count p1 p2 acc hc
  rfl

theorem scanBal_append (a b : Str) (ha : ScanBal a) (hb : ScanBal b) :
    ScanBal (a ++ b) := by
  intro rest count p1 p2 acc hc
  rw [List.append_assoc, ha (b ++ rest) count p1 p2 acc hc,
    hb rest count _ _ _ hc, prevsAfter_append, List.reverse_append,
    List.append_assoc]

theorem scanBal_neutral_char (c : Char) (h1 : ¬(c = dq ∨ c = sq))
    (h2 : ¬(c = obr)) (h3 : ¬(c = cbr)) : ScanBal [c] := by
  intro rest count p1 p2 acc hc
  rw [List.singleton_append, braceScanAux,
    if_neg (fun hcc => h1 hcc.2),
    if_neg (fun hcc => Bool.noConfusion hcc),
    if_neg h2, if_neg h3]
  rfl

theorem scanBal_neutral (u : Str)
    (hu : ∀ c ∈ u, ¬(c = dq ∨ c = sq) ∧ ¬(c = obr) ∧ ¬(c = cbr)) : ScanBal u := by
  induction u with
  | nil => exact scanBal_nil
  | cons c u' ih =>
      have hc := hu c (List.mem_cons_self _ _)
      rw [show c :: u' = [c] ++ u' from rfl]
      exact scanBal_append [c] u'
        (scanBal_neutral_char c hc.1 hc.2.1 hc.2.2)
        (ih (fun x hx => hu x (List.mem_cons_of_mem _ hx)))

theorem scanString_inner (q : Char) (w : Str)
    (hw : ∀ c ∈ w, ¬(c = q) ∧ ¬(c = bsl)) :
    ∀ (rest : Str) (count : Int) (p1 p2 : Option Char) (acc : Str),
      p1 ≠ some bsl →
      braceScanAux ((w ++ [q]) ++ rest) true (some q) count p1 p2 acc =
        braceScanAux rest false none count (some q)
          (prevsAfter w (p1, p2)).1 ((q :: w.reverse) ++ acc) := by
  induction w with
  | nil =>
      intro rest count p1 p2 acc hp1
      rw [List.nil_append, List.singleton_append, braceScanAux,
        if_neg (fun hcc => Bool.noConfusion hcc.1), if_pos rfl,
        if_neg (fun hcc => hp1 hcc.2.1), if_pos ⟨rfl, hp1⟩]
      rfl
  | cons c w' ih =>
      intro rest count p1 p2 acc hp1
      have hc := hw c (List.mem_cons_self _ _)
      rw [List.cons_append, List.cons_append, braceScanAux,
        if_neg (fun hcc => Bool.noConfusion hcc.1), if_pos rfl,
        if_neg (fun hcc => hc.1 (Option.some.inj hcc.1)),
        if_neg (fun hcc => hc.1 (Option.some.inj hcc.1)),
        ih (fun x hx => hw x (List.mem_cons_of_mem _ hx)) rest count (some c) p1
          (c :: acc) (fun hcc => hc.2 (Option.some.inj hcc))]
      rw [prevsAfter, List.reverse_cons]
      rw [show (q :: (w'.reverse ++ [c])) ++ acc = q :: (w'.reverse ++ ([c] ++ acc)) from by
        rw [List.cons_append, List.append_assoc]]
      rfl

theorem scanBal_string (q : Char) (hq : q = sq ∨ q = dq) (w : Str)
    (hw : plainStr w = true) : ScanBal (q :: (w ++ [q])) := by
  intro rest count p1 p2 acc hc
  have hqd : q = dq ∨ q = sq := hq.symm
  have hnw : isJsWs q = false := by rcases hq with rfl | rfl <;> decide
  have hwq : ∀ c ∈ w, ¬(c = q) ∧ ¬(c = bsl) := fun c hcm => by
    have hp := plainStr_mem hw hcm
    rcases hq with rfl | rfl
    · exact ⟨hp.1, hp.2.2.1⟩
    · exact ⟨hp.2.1, hp.2.2.1⟩
  have hqb : ¬(q = bsl) := by rcases hq with rfl | rfl <;> decide
  rw [List.cons_append, braceScanAux, if_pos ⟨rfl, hqd⟩,
    scanString_inner q w hwq rest count (some q) p1 (q :: acc)
      (fun hcc => hqb (Option.some.inj hcc))]
  rw [show prevsAfter (q :: (w ++ [q])) (p1, p2) =
      (some q, (prevsAfter w (some q, p1)).1) from by
    rw [prevsAfter, prevsAfter_append]
    rfl]
  rw [show (q :: (w ++ [q])).reverse ++ acc = (q :: w.reverse) ++ (q :: acc) from by
    rw [List.reverse_cons, List.reverse_append]
    simp only [List.reverse_cons, List.reverse_nil, List.nil_append,
      List.cons_append, List.append_assoc]]

theorem scanBal_block (inner : Str) (h : ScanBal inner) :
    ScanBal (obr :: (inner ++ [cbr])) := by
  intro rest count p1 p2 acc hc
  rw [List.cons_append, braceScanAux,
    if_neg (fun hcc => by rcases hcc.2 with hcc2 | hcc2 <;> exact absurd hcc2 (by decide)),
    if_neg (fun hcc => Bool.noConfusion hcc),
    if_pos rfl, List.append_assoc, List.singleton_append,
    h (cbr :: rest) (count + 1) (some obr) p1 (obr :: acc) (by omega),
    braceScanAux,
    if_neg (fun hcc => by rcases hcc.2 with hcc2 | hcc2 <;> exact absurd hcc2 (by decide)),
    if_neg (fun hcc => Bool.noConfusion hcc),
    if_neg (by decide), if_pos rfl,
    if_neg (by omega : ¬(count + 1 - 1 = 0))]
  rw [show count + 1 - 1 = count from by omega]
  rw [show prevsAfter (obr :: (inner ++ [cbr])) (p1, p2) =
      (some cbr, (prevsAfter inner (some obr, p1)).1) from by
    rw [prevsAfter, prevsAfter_append]
    rfl]
  rw [show (obr :: (inner ++ [cbr])).reverse ++ acc =
      cbr :: (inner.reverse ++ (obr :: acc)) from by
    rw [List.reverse_cons, List.reverse_append]
    simp only [List.reverse_cons, List.reverse_nil, List.nil_append,
      List.cons_append, List.append_assoc]]

theorem braceScan_top (inner tail : Str) (h : ScanBal inner) :
    braceScanAux ((obr :: (inner ++ [cbr])) ++ tail) false none 0 none none [] =
      .ok (obr :: (inner ++ [cbr])) := by
  rw [List.cons_append, braceScanAux,
    if_neg (fun hcc => by rcases hcc.2 with hcc2 | hcc2 <;> exact absurd hcc2 (by decide)),
    if_neg (fun hcc => Bool.noConfusion hcc),
    if_pos rfl, List.append_assoc, List.singleton_append,
    h (cbr :: tail) (0 + 1) (some obr) none [obr] (by omega),
    braceScanAux,
    if_neg (fun hcc => by rcases hcc.2 with hcc2 | hcc2 <;> exact absurd hcc2 (by decide)),
    if_neg (fun hcc => Bool.noConfusion hcc),
    if_neg (by decide), if_pos rfl,
    if_pos (by omega : (0 : Int) + 1 - 1 = 0)]
  rw [show (cbr :: (inner.reverse ++ [obr])).reverse = obr :: (inner ++ [cbr]) from by
    rw [List.reverse_cons, List.reverse_append, List.reverse_reverse]
    rfl]

/-! ### Assembling emitted property sequences -/

/-- A property chunk that can stand in an object body either followed by a
comma and further members, or as the last member before the closing
brace. -/
def PairPart (t : Str) (k : Str) (v : JsValue) : Prop :=
  (∀ t' ps, PairsChunk t' ps → PairsChunk (t ++ (',' :: t')) ((k, v) :: ps)) ∧
  (∀ w2, wsStr w2 = true → PairsChunk (t ++ (w2 ++ [cbr])) [(k, v)])

theorem pairPart_of (w0 kt vt : Str) (k : Str) (v : JsValue)
    (hw0 : wsStr w0 = true)
    (hkey : KeyChunk kt k)
    (hkh : ∀ c, kt.head? = some c → isJsWs c = false ∧ ¬(c = cbr))
    (hkne : kt ≠ [])
    (hv : ValChunk vt v) :
    PairPart (w0 ++ (kt ++ ':' :: vt)) k v := by
  constructor
  · intro t' ps h
    have hsh : (w0 ++ (kt ++ ':' :: vt)) ++ (',' :: t') =
        w0 ++ (kt ++ ':' :: (vt ++ ([] ++ ',' :: t'))) := by
      simp only [List.append_assoc, List.cons_append, List.nil_append]
    rw [hsh]
    exact pairsChunk_ws w0 _ _ hw0
      (pairsChunk_cons kt k vt v [] t' ps hkey hkh hkne hv rfl h)
  · intro w2 hw2
    have hsh : (w0 ++ (kt ++ ':' :: vt)) ++ (w2 ++ [cbr]) =
        w0 ++ (kt ++ ':' :: (vt ++ (w2 ++ [cbr]))) := by
      simp only [List.append_assoc, List.cons_append]
    rw [hsh]
    exact pairsChunk_ws w0 _ _ hw0
      (pairsChunk_last kt k vt v w2 hkey hkh hkne hv hw2)

theorem propsChunk : ∀ (L : List (Str × Str × JsValue)), L ≠ [] →
    (∀ x ∈ L, PairPart x.1 x.2.1 x.2.2) →
    ∀ (w2 : Str), wsStr w2 = true →
    PairsChunk ((joinWith [',', nlc] (L.map (fun x => x.1))) ++ (w2 ++ [cbr]))
      (L.map (fun x => (x.2.1, x.2.2))) := by
  intro L
  induction L with
  | nil => intro h; exact absurd rfl h
  | cons x L' ih =>
      intro _ hL w2 hw2
      cases L' with
      | nil =>
          rw [List.map_cons, List.map_nil, List.map_cons, List.map_nil]
          exact (hL x (List.mem_cons_self _ _)).2 w2 hw2
      | cons y L'' =>
          rw [List.map_cons, List.map_cons]
          have hj : joinWith [',', nlc] (x.1 :: y.1 :: L''.map (fun x => x.1)) =
              x.1 ++ [',', nlc] ++ joinWith [',', nlc] (y.1 :: L''.map (fun x => x.1)) := rfl
          rw [hj]
          have hsh : (x.1 ++ [',', nlc] ++
              joinWith [',', nlc] (y.1 :: L''.map (fun x => x.1))) ++ (w2 ++ [cbr]) =
              x.1 ++ (',' :: ([nlc] ++
                ((joinWith [',', nlc] ((y :: L'').map (fun x => x.1))) ++ (w2 ++ [cbr])))) := by
            rw [List.map_cons]
            simp only [List.append_assoc, List.cons_append, List.nil_append]
          rw [hsh, List.map_cons]
          exact (hL x (List.mem_cons_self _ _)).1 _ _
            (pairsChunk_ws [nlc] _ _ (by decide)
              (ih (fun hc => List.noConfusion hc)
                (fun z hz => hL z (List.mem_cons_of_mem _ hz)) w2 hw2))

/-! ### Scanner facts for emitted chunks -/

theorem intStr_chars (n : Int) : ∀ c ∈ intStr n, c = '-' ∨ isDigitCh c = true := by
  intro c hc
  unfold intStr at hc
  by_cases hn : n < 0
  · rw [if_pos hn] at hc
    rcases List.mem_cons.mp hc with h | h
    · exact Or.inl h
    · exact Or.inr (natDigits_all_digits _ c h)
  · rw [if_neg hn] at hc
    exact Or.inr (natDigits_all_digits _ c hc)

theorem scanBal_intStr (n : Int) : ScanBal (intStr n) := by
  refine scanBal_neutral _ (fun c hc => ?_)
  rcases intStr_chars n c hc with h | h
  · subst h
    exact ⟨by decide, by decide, by decide⟩
  · have hb := digit_toNat h
    exact ⟨fun hcc => by
        rcases hcc with hcc | hcc <;> rw [hcc] at hb <;>
          revert hb <;> decide,
      fun hcc => by rw [hcc] at hb; revert hb; decide,
      fun hcc => by rw [hcc] at hb; revert hb; decide⟩

theorem scanBal_plain (w : Str) (hw : plainStr w = true)
    (hb : ∀ c ∈ w, ¬(c = obr) ∧ ¬(c = cbr)) : ScanBal w := by
  refine scanBal_neutral _ (fun c hc => ?_)
  have hp := plainStr_mem hw hc
  exact ⟨fun hcc => by rcases hcc with hcc | hcc; exact hp.2.1 hcc; exact hp.1 hcc,
    (hb c hc).1, (hb c hc).2⟩

theorem scanBal_emitLines (L : List Str) (h : ∀ l ∈ L, ScanBal l) :
    ScanBal (emitLines L) := by
  induction L with
  | nil => exact scanBal_nil
  | cons a t ih =>
      cases t with
      | nil =>
          rw [show emitLines [a] = a ++ [Char.ofNat 10] from rfl]
          exact scanBal_append _ _ (h a (List.mem_cons_self _ _))
            (scanBal_neutral _ (by decide))
      | cons b t' =>
          rw [show emitLines (a :: b :: t') =
            a ++ [','] ++ [Char.ofNat 10] ++ emitLines (b :: t') from rfl]
          exact scanBal_append _ _
            (scanBal_append _ _
              (scanBal_append _ _ (h a (List.mem_cons_self _ _))
                (scanBal_neutral _ (by decide)))
              (scanBal_neutral _ (by decide)))
            (ih (fun l hl => h l (List.mem_cons_of_mem _ hl)))

theorem scanBal_joinWith (L : List Str) (h : ∀ l ∈ L, ScanBal l) :
    ScanBal (joinWith [',', nlc] L) := by
  induction L with
  | nil => exact scanBal_nil
  | cons a t ih =>
      cases t with
      | nil => exact h a (List.mem_cons_self _ _)
      | cons b t' =>
          rw [show joinWith [',', nlc] (a :: b :: t') =
            a ++ [',', nlc] ++ joinWith [',', nlc] (b :: t') from rfl]
          exact scanBal_append _ _
            (scanBal_append _ _ (h a (List.mem_cons_self _ _))
              (scanBal_neutral _ (by decide)))
            (ih (fun l hl => h l (List.mem_cons_of_mem _ hl)))

/-! ### Slash-freeness of emitted chunks -/

theorem no_sl_of_plain {w : Str} (hw : plainStr w = true) : sl ∉ w :=
  fun hm => (plainStr_mem hw hm).2.2.2.2.2 rfl

theorem no_sl_append {a b : Str} (ha : sl ∉ a) (hb : sl ∉ b) : sl ∉ a ++ b := by
  intro hm
  rcases List.mem_append.mp hm with h | h
  · exact ha h
  · exact hb h

theorem no_sl_intStr (n : Int) : sl ∉ intStr n := by
  intro hm
  rcases intStr_chars n sl hm with h | h
  · exact absurd h (by decide)
  · exact absurd h (by decide)

theorem no_sl_emitLines (L : List Str) (h : ∀ l ∈ L, sl ∉ l) :
    sl ∉ emitLines L := by
  induction L with
  | nil => exact List.not_mem_nil sl
  | cons a t ih =>
      cases t with
      | nil =>
          rw [show emitLines [a] = a ++ [Char.ofNat 10] from rfl]
          exact no_sl_append (h a (List.mem_cons_self _ _)) (by decide)
      | cons b t' =>
          rw [show emitLines (a :: b :: t') =
            a ++ [','] ++ [Char.ofNat 10] ++ emitLines (b :: t') from rfl]
          exact no_sl_append (no_sl_append (no_sl_append
            (h a (List.mem_cons_self _ _)) (by decide)) (by decide))
            (ih (fun l hl => h l (List.mem_cons_of_mem _ hl)))

theorem no_sl_joinWith (L : List Str) (h : ∀ l ∈ L, sl ∉ l) :
    sl ∉ joinWith [',', nlc] L := by
  induction L with
  | nil => exact List.not_mem_nil sl
  | cons a t ih =>
      cases t with
      | nil => exact h a (List.mem_cons_self _ _)
      | cons b t' =>
          rw [show joinWith [',', nlc] (a :: b :: t') =
            a ++ [',', nlc] ++ joinWith [',', nlc] (b :: t') from rfl]
          exact no_sl_append (no_sl_append (h a (List.mem_cons_self _ _)) (by decide))
            (ih (fun l hl => h l (List.mem_cons_of_mem _ hl)))

theorem ident_facts {c : Char} (h : isIdentKeyChar c = true) :
    isJsWs c = false ∧ ¬(c = cbr) := by
  have hb : (65 ≤ c.toNat ∧ c.toNat ≤ 90) ∨ (97 ≤ c.toNat ∧ c.toNat ≤ 122) ∨
      (48 ≤ c.toNat ∧ c.toNat ≤ 57) ∨ c.toNat = 95 ∨ c.toNat = 36 := by
    unfold isIdentKeyChar at h
    simp only [Bool.or_eq_true, Bool.and_eq_true, decide_eq_true_eq] at h
    tauto
  constructor
  · unfold isJsWs
    have hne : c.toNat ≠ 32 ∧ c.toNat ≠ 9 ∧ c.toNat ≠ 10 ∧ c.toNat ≠ 13 ∧
        c.toNat ≠ 12 ∧ c.toNat ≠ 11 := by
      rcases hb with ⟨h1, h2⟩ | ⟨h1, h2⟩ | ⟨h1, h2⟩ | h1 | h1 <;>
        exact ⟨by omega, by omega, by omega, by omega, by omega, by omega⟩
    rw [decide_eq_false hne.1, decide_eq_false hne.2.1, decide_eq_false hne.2.2.1,
      decide_eq_false hne.2.2.2.1, decide_eq_false hne.2.2.2.2.1,
      decide_eq_false hne.2.2.2.2.2]
    rfl
  · exact fun hc => absurd (hc ▸ h) (by decide)

theorem identKey_head_facts (kt : Str) (hk : ∀ c ∈ kt, isIdentKeyChar c = true) :
    ∀ c, kt.head? = some c → isJsWs c = false ∧ ¬(c = cbr) := by
  intro c hc
  cases kt with
  | nil => exact Option.noConfusion hc
  | cons a t =>
      rw [List.head?_cons] at hc
      rw [← Option.some.inj hc]
      exact ident_facts (hk a (List.mem_cons_self _ _))

/-- The common shape of an emitted property: a literal `KEY: ` prefix
(leading whitespace, identifier key, colon, one space) followed by the
value text. -/
theorem pairPart_lit (pre w0 kt vt : Str) (v : JsValue)
    (hsplit : pre = w0 ++ (kt ++ [':', ' ']))
    (hw0 : wsStr w0 = true)
    (hkne : kt ≠ []) (hkid : ∀ c ∈ kt, isIdentKeyChar c = true)
    (hv : ValChunk vt v) :
    PairPart (pre ++ vt) kt v := by
  have hsh : pre ++ vt = w0 ++ (kt ++ ':' :: (' ' :: vt)) := by
    rw [hsplit]
    simp only [List.append_assoc, List.cons_append, List.nil_append]
  rw [hsh]
  exact pairPart_of w0 kt (' ' :: vt) kt v hw0
    (keyChunk_ident kt hkne hkid) (identKey_head_facts kt hkid) hkne
    (valChunk_ws [' '] vt v (by decide) hv)

/-! ### The decoded configuration -/

/-- The decoded form of one emitted fingering entry (`fingeringEntryLine`):
string 0 is normalised to 1, sentinel frets to 0, an absent finger to 0. -/
def decodedFingEntry (f : FEntry) : JsValue :=
  .obj [(("string").data, .num (if f.string = 0 then 1 else f.string)),
        (("fret").data, .num (match f.fret with | .num n => n | _ => 0)),
        (("finger").data, .num ((f.finger).getD 0))]

/-- The decoded `cssVariables` object: keys sorted, values as emitted. -/
def decodedCssVars (m : List (Str × Str)) : JsObj :=
  (sortByJS strLe (m.map Prod.fst)).map (fun k => (k, .str ((aGet m k).getD [])))

/-- The decoded `settingsGroupA` object for a restricted snapshot. -/
def decodedGroupA (g : GroupACfg) (includeAllVariables : Bool)
    (env : Str → Str) : JsObj :=
  [(("dotTextMode").data, .str ((g.dotTextMode).getD (("note").data))),
   (("showFretIndicators").data,
     .str ((g.showFretIndicators).getD (("first-fret-cond").data))),
   (("numStrings").data, .num ((g.numStrings).getD 6)),
   (("stringType").data, .str ((g.stringType).getD (("1").data))),
   (("tuning").data,
     match g.tuning with
     | some t =>
         if t = [] then JsValue.null
         else .obj ((sortByJS intKeyLe t).map (fun p => (intStr p.1, .str p.2)))
     | none => JsValue.null)] ++
  (let css := cssVarsToInclude includeAllVariables env groupAVars
      ((g.cssVariables).getD [])
   if css = [] then [] else [(("cssVariables").data, .obj (decodedCssVars css))])

/-- The decoded `settingsGroupB` object for a restricted snapshot. -/
def decodedGroupB (g : GroupBCfg) (includeAllVariables : Bool)
    (env : Str → Str) : JsObj :=
  [(("fretMarkers").data,
     .obj ((sortByJS intKeyLe ((g.fretMarkers).getD defaultFretMarkers)).map
       (fun p => (intStr p.1, .str p.2)))),
   (("fretboardBindingDisplay").data, .bool ((g.fretboardBindingDisplay).getD true))] ++
  (let css := cssVarsToInclude includeAllVariables env groupBVars
      ((g.cssVariables).getD [])
   if css = [] then [] else [(("cssVariables").data, .obj (decodedCssVars css))]) ++
  (match g.customCSS with
   | some v => if jsTrim v = [] ∨ v = [] then [] else [(("customCSS").data, .str v)]
   | none => [])

/-- The decoded `settingsGroupC` object for a restricted snapshot. -/
def decodedGroupC (g : GroupCCfg) : JsObj :=
  [(("name").data, match g.name with | some n => JsValue.str n | none => JsValue.null),
   (("root").data, match g.root with | some r => JsValue.str r | none => JsValue.null),
   (("startFret").data, .num ((g.startFret).getD 1)),
   (("numFrets").data, .num ((g.numFrets).getD 4)),
   (("fingering").data,
     .arr ((validFingering ((g.fingering).getD [])).map decodedFingEntry))]

theorem fingPairs (sv fv gv : Int) :
    PairsChunk ((" string: ").data ++ (intStr sv ++ ((", fret: ").data ++
        (intStr fv ++ ((", finger: ").data ++ (intStr gv ++ ([' '] ++ [cbr])))))))
      [(("string").data, .num sv), (("fret").data, .num fv),
       (("finger").data, .num gv)] := by
  have h3 : PairsChunk ((("finger").data) ++ ':' :: ((' ' :: intStr gv) ++ ([' '] ++ [cbr])))
      [(("finger").data, JsValue.num gv)] :=
    pairsChunk_last (("finger").data) (("finger").data) (' ' :: intStr gv)
      (.num gv) [' ']
      (keyChunk_ident _ (by decide) (by decide))
      (identKey_head_facts _ (by decide)) (by decide)
      (valChunk_ws [' '] _ _ (by decide) (valChunk_num gv)) (by decide)
  have h2 : PairsChunk ((("fret").data) ++ ':' :: ((' ' :: intStr fv) ++ ([] ++ ',' ::
      ([' '] ++ ((("finger").data) ++ ':' :: ((' ' :: intStr gv) ++ ([' '] ++ [cbr])))))))
      [(("fret").data, JsValue.num fv), (("finger").data, JsValue.num gv)] :=
    pairsChunk_cons (("fret").data) (("fret").data) (' ' :: intStr fv) (.num fv) []
      ([' '] ++ ((("finger").data) ++ ':' :: ((' ' :: intStr gv) ++ ([' '] ++ [cbr]))))
      [(("finger").data, JsValue.num gv)]
      (keyChunk_ident _ (by decide) (by decide))
      (identKey_head_facts _ (by decide)) (by decide)
      (valChunk_ws [' '] _ _ (by decide) (valChunk_num fv)) rfl
      (pairsChunk_ws [' '] _ _ (by decide) h3)
  have h1 : PairsChunk ((("string").data) ++ ':' :: ((' ' :: intStr sv) ++ ([] ++ ',' ::
      ([' '] ++ ((("fret").data) ++ ':' :: ((' ' :: intStr fv) ++ ([] ++ ',' ::
      ([' '] ++ ((("finger").data) ++ ':' :: ((' ' :: intStr gv) ++ ([' '] ++ [cbr])))))))))))
      [(("string").data, JsValue.num sv), (("fret").data, JsValue.num fv),
       (("finger").data, JsValue.num gv)] :=
    pairsChunk_cons (("string").data) (("string").data) (' ' :: intStr sv) (.num sv) []
      ([' '] ++ ((("fret").data) ++ ':' :: ((' ' :: intStr fv) ++ ([] ++ ',' ::
        ([' '] ++ ((("finger").data) ++ ':' :: ((' ' :: intStr gv) ++ ([' '] ++ [cbr]))))))))
      [(("fret").data, JsValue.num fv), (("finger").data, JsValue.num gv)]
      (keyChunk_ident _ (by decide) (by decide))
      (identKey_head_facts _ (by decide)) (by decide)
      (valChunk_ws [' '] _ _ (by decide) (valChunk_num sv)) rfl
      (pairsChunk_ws [' '] _ _ (by decide) h2)
  have hsh : (" string: ").data ++ (intStr sv ++ ((", fret: ").data ++
      (intStr fv ++ ((", finger: ").data ++ (intStr gv ++ ([' '] ++ [cbr])))))) =
      [' '] ++ ((("string").data) ++ ':' :: ((' ' :: intStr sv) ++ ([] ++ ',' ::
      ([' '] ++ ((("fret").data) ++ ':' :: ((' ' :: intStr fv) ++ ([] ++ ',' ::
      ([' '] ++ ((("finger").data) ++ ':' :: ((' ' :: intStr gv) ++ ([' '] ++ [cbr]))))))))))) := by
    rw [show (" string: ").data = [' '] ++ ((("string").data) ++ [':', ' ']) from by decide,
      show (", fret: ").data = ',' :: ([' '] ++ ((("fret").data) ++ [':', ' '])) from by decide,
      show (", finger: ").data = ',' :: ([' '] ++ ((("finger").data) ++ [':', ' '])) from by decide]
    simp only [List.append_assoc, List.cons_append, List.nil_append]
  rw [hsh]
  exact pairsChunk_ws [' '] _ _ (by decide) h1

theorem fingElemVal (sv fv gv : Int) :
    ValChunk (obr :: ((" string: ").data ++ (intStr sv ++ ((", fret: ").data ++
        (intStr fv ++ ((", finger: ").data ++ (intStr gv ++ ([' '] ++ [cbr]))))))))
      (.obj [(("string").data, .num sv), (("fret").data, .num fv),
        (("finger").data, .num gv)]) :=
  valChunk_obj _ _ (fingPairs sv fv gv)

theorem fingLine_shape (f : FEntry) :
    fingeringEntryLine f = ("            ").data ++
      (obr :: ((" string: ").data ++ (intStr (if f.string = 0 then 1 else f.string) ++
        ((", fret: ").data ++ ((intStr (match f.fret with | .num n => n | _ => 0)) ++
        ((", finger: ").data ++ (intStr ((f.finger).getD 0) ++ ([' '] ++ [cbr])))))))) := by
  unfold fingeringEntryLine
  simp only [List.append_assoc, List.cons_append, List.singleton_append,
    List.nil_append]

theorem fingElems (L : List FEntry) :
    ElemsChunk (([nlc] ++ emitLines (L.map fingeringEntryLine)) ++
        (("        ").data ++ [cbk]))
      (L.map decodedFingEntry) := by
  induction L with
  | nil =>
      rw [List.map_nil, List.map_nil]
      have hsh : (([nlc] ++ emitLines ([] : List Str)) ++ (("        ").data ++ [cbk])) =
          ([nlc] ++ ("        ").data) ++ [cbk] := by
        rw [show emitLines ([] : List Str) = [] from rfl]
        simp only [List.append_nil, List.append_assoc]
      rw [hsh]
      exact elemsChunk_nil _ (by decide)
  | cons f L' ih =>
      rw [List.map_cons, List.map_cons]
      cases L' with
      | nil =>
          rw [List.map_nil, List.map_nil]
          have hsh : ([nlc] ++ emitLines [fingeringEntryLine f]) ++
              (("        ").data ++ [cbk]) =
              ([nlc] ++ ("            ").data) ++
                ((obr :: ((" string: ").data ++
                  (intStr (if f.string = 0 then 1 else f.string) ++
                  ((", fret: ").data ++
                  ((intStr (match f.fret with | .num n => n | _ => 0)) ++
                  ((", finger: ").data ++
                  (intStr ((f.finger).getD 0) ++ ([' '] ++ [cbr])))))))) ++
                 (([nlc] ++ ("        ").data) ++ [cbk])) := by
            rw [show emitLines [fingeringEntryLine f] =
                fingeringEntryLine f ++ [Char.ofNat 10] from rfl,
              fingLine_shape f,
              show [Char.ofNat 10] = [nlc] from rfl]
            simp only [List.append_assoc, List.cons_append, List.singleton_append,
              List.nil_append]
          rw [hsh]
          exact elemsChunk_last _ _ (decodedFingEntry f) _ (by decide)
            (fun c hc => by
              rw [List.head?_cons] at hc
              rw [← Option.some.inj hc]
              exact ⟨by decide, by decide⟩)
            (fun hc => List.noConfusion hc)
            (fingElemVal _ _ _) (by decide)
      | cons f2 L'' =>
          have hsh : ([nlc] ++ emitLines (fingeringEntryLine f ::
              (f2 :: L'').map fingeringEntryLine)) ++ (("        ").data ++ [cbk]) =
              ([nlc] ++ ("            ").data) ++
                ((obr :: ((" string: ").data ++
                  (intStr (if f.string = 0 then 1 else f.string) ++
                  ((", fret: ").data ++
                  ((intStr (match f.fret with | .num n => n | _ => 0)) ++
                  ((", finger: ").data ++
                  (intStr ((f.finger).getD 0) ++ ([' '] ++ [cbr])))))))) ++
                 ([] ++ ',' :: (([nlc] ++ emitLines ((f2 :: L'').map fingeringEntryLine)) ++
                   (("        ").data ++ [cbk])))) := by
            rw [show emitLines (fingeringEntryLine f ::
                (f2 :: L'').map fingeringEntryLine) =
                fingeringEntryLine f ++ [','] ++ [Char.ofNat 10] ++
                  emitLines ((f2 :: L'').map fingeringEntryLine) from by
                rw [List.map_cons]
                rfl,
              fingLine_shape f,
              show [Char.ofNat 10] = [nlc] from rfl]
            simp only [List.append_assoc, List.cons_append, List.singleton_append,
              List.nil_append]
          rw [hsh]
          exact elemsChunk_cons _ _ (decodedFingEntry f) _ _ _ (by decide)
            (fun c hc => by
              rw [List.head?_cons] at hc
              rw [← Option.some.inj hc]
              exact ⟨by decide, by decide⟩)
            (fun hc => List.noConfusion hc)
            (fingElemVal _ _ _) rfl ih

theorem cssLinePair (k v : Str) (hk : plainStr k = true) (hv : plainStr v = true) :
    PairPart (("            ").data ++
        ((sq :: (k ++ [sq])) ++ ':' :: (' ' :: (sq :: (v ++ [sq]))))) k (.str v) :=
  pairPart_of _ _ _ _ _ (by decide) (keyChunk_quoted sq (Or.inl rfl) k hk)
    (fun c hc => by
      rw [List.head?_cons] at hc
      rw [← Option.some.inj hc]
      exact ⟨by decide, by decide⟩)
    (fun hc => List.noConfusion hc)
    (valChunk_ws [' '] _ _ (by decide) (valChunk_str sq (Or.inl rfl) v hv))

theorem intKey_ident (n : Int) (hn : 0 ≤ n) :
    ∀ c ∈ intStr n, isIdentKeyChar c = true := by
  intro c hc
  rcases intStr_chars n c hc with h | h
  · subst h
    unfold intStr at hc
    rw [if_neg (by omega : ¬(n < 0))] at hc
    exact absurd (natDigits_all_digits _ _ hc) (by decide)
  · exact digit_ident h

theorem intLinePair (n : Int) (v : Str) (hn : 0 ≤ n) (hv : plainStr v = true) :
    PairPart (("            ").data ++
        ((intStr n) ++ ':' :: (' ' :: (sq :: (v ++ [sq]))))) (intStr n) (.str v) :=
  pairPart_of _ _ _ _ _ (by decide)
    (keyChunk_ident _ (intStr_ne_nil n) (intKey_ident n hn))
    (identKey_head_facts _ (intKey_ident n hn))
    (intStr_ne_nil n)
    (valChunk_ws [' '] _ _ (by decide) (valChunk_str sq (Or.inl rfl) v hv))

theorem blockPairs {α : Type} (lineOf : α → Str) (keyOf : α → Str)
    (valOf : α → JsValue) :
    ∀ L : List α,
    (∀ p ∈ L, PairPart (lineOf p) (keyOf p) (valOf p)) →
    PairsChunk (([nlc] ++ emitLines (L.map lineOf)) ++ (("        ").data ++ [cbr]))
      (L.map (fun p => (keyOf p, valOf p))) := by
  intro L
  induction L with
  | nil =>
      intro _
      rw [List.map_nil, List.map_nil]
      have hsh : (([nlc] ++ emitLines ([] : List Str)) ++ (("        ").data ++ [cbr])) =
          ([nlc] ++ ("        ").data) ++ [cbr] := by
        rw [show emitLines ([] : List Str) = [] from rfl]
        simp only [List.append_nil, List.append_assoc]
      rw [hsh]
      exact pairsChunk_nil _ (by decide)
  | cons p L' ih =>
      intro hpart
      rw [List.map_cons, List.map_cons]
      cases L' with
      | nil =>
          rw [List.map_nil, List.map_nil]
          have hsh : ([nlc] ++ emitLines [lineOf p]) ++ (("        ").data ++ [cbr]) =
              [nlc] ++ (lineOf p ++ (([nlc] ++ ("        ").data) ++ [cbr])) := by
            rw [show emitLines [lineOf p] = lineOf p ++ [Char.ofNat 10] from rfl,
              show [Char.ofNat 10] = [nlc] from rfl]
            simp only [List.append_assoc, List.cons_append, List.singleton_append,
              List.nil_append]
          rw [hsh]
          exact pairsChunk_ws [nlc] _ _ (by decide)
            ((hpart p (List.mem_cons_self _ _)).2 _ (by decide))
      | cons q L'' =>
          have hsh : ([nlc] ++ emitLines (lineOf p :: (q :: L'').map lineOf)) ++
              (("        ").data ++ [cbr]) =
              [nlc] ++ (lineOf p ++ (',' ::
                (([nlc] ++ emitLines ((q :: L'').map lineOf)) ++
                  (("        ").data ++ [cbr])))) := by
            rw [show emitLines (lineOf p :: (q :: L'').map lineOf) =
                lineOf p ++ [','] ++ [Char.ofNat 10] ++
                  emitLines ((q :: L'').map lineOf) from by
                rw [List.map_cons]
                rfl,
              show [Char.ofNat 10] = [nlc] from rfl]
            simp only [List.append_assoc, List.cons_append, List.singleton_append,
              List.nil_append]
          rw [hsh]
          exact pairsChunk_ws [nlc] _ _ (by decide)
            ((hpart p (List.mem_cons_self _ _)).1 _ _
              (ih (fun q hq => hpart q (List.mem_cons_of_mem _ hq))))

theorem cssValue_plain (m : List (Str × Str))
    (hm : ∀ p ∈ m, plainStr p.1 = true ∧ plainStr p.2 = true) (k : Str) :
    plainStr ((aGet m k).getD []) = true := by
  cases hget : aGet m k with
  | none => rfl
  | some v =>
      unfold aGet at hget
      rcases Option.map_eq_some'.mp hget with ⟨q, hq, hq2⟩
      rw [show (Option.getD (some v) []) = v from rfl, ← hq2]
      exact (hm q (List.mem_of_find?_eq_some hq)).2

theorem cssLine_shape (k v2 : Str) :
    (("            ").data ++ [sq] ++ k ++ [sq] ++ (": ").data ++ [sq] ++ v2 ++ [sq]) =
      ("            ").data ++
        ((sq :: (k ++ [sq])) ++ ':' :: (' ' :: (sq :: (v2 ++ [sq])))) := by
  rw [show (": ").data = [':', ' '] from by decide]
  simp only [List.append_assoc, List.cons_append, List.singleton_append,
    List.nil_append]

theorem cssBlockPairs (m : List (Str × Str))
    (hm : ∀ p ∈ m, plainStr p.1 = true ∧ plainStr p.2 = true) :
    PairsChunk (([nlc] ++ emitLines ((sortByJS strLe (m.map Prod.fst)).map
        (fun k => ("            ").data ++ [sq] ++ k ++ [sq] ++ (": ").data ++
          [sq] ++ escapeSq ((aGet m k).getD []) ++ [sq]))) ++
        (("        ").data ++ [cbr]))
      (decodedCssVars m) := by
  unfold decodedCssVars
  refine blockPairs _ (fun k => k) (fun k => JsValue.str ((aGet m k).getD []))
    (sortByJS strLe (m.map Prod.fst)) (fun k hk => ?_)
  have hkm : k ∈ m.map Prod.fst :=
    (sortByJS_perm strLe (m.map Prod.fst)).mem_iff.mp hk
  have hkp : plainStr k = true := by
    rcases List.mem_map.mp hkm with ⟨p, hp, hpk⟩
    rw [← hpk]
    exact (hm p hp).1
  have hvp := cssValue_plain m hm k
  rw [escapeSq_plain hvp, cssLine_shape]
  exact cssLinePair k _ hkp hvp

theorem intLine_shape (n : Int) (v2 : Str) :
    (("            ").data ++ intStr n ++ (": ").data ++ [sq] ++ v2 ++ [sq]) =
      ("            ").data ++
        ((intStr n) ++ ':' :: (' ' :: (sq :: (v2 ++ [sq])))) := by
  rw [show (": ").data = [':', ' '] from by decide]
  simp only [List.append_assoc, List.cons_append, List.singleton_append,
    List.nil_append]

theorem intBlockPairs (L : List (Int × Str))
    (hL : ∀ p ∈ L, 0 ≤ p.1 ∧ plainStr p.2 = true) :
    PairsChunk (([nlc] ++ emitLines (L.map
        (fun p => ("            ").data ++ intStr p.1 ++ (": ").data ++
          [sq] ++ p.2 ++ [sq]))) ++ (("        ").data ++ [cbr]))
      (L.map (fun p => (intStr p.1, JsValue.str p.2))) := by
  refine blockPairs _ (fun p => intStr p.1) (fun p => JsValue.str p.2) L
    (fun p hp => ?_)
  rw [intLine_shape]
  exact intLinePair p.1 p.2 (hL p hp).1 (hL p hp).2

theorem cssBlockPart (m : List (Str × Str))
    (hm : ∀ p ∈ m, plainStr p.1 = true ∧ plainStr p.2 = true) :
    PairPart (cssVarsBlock m) (("cssVariables").data) (.obj (decodedCssVars m)) := by
  have hsh : cssVarsBlock m = ("        cssVariables: ").data ++
      (obr :: (([nlc] ++ emitLines ((sortByJS strLe (m.map Prod.fst)).map
        (fun k => ("            ").data ++ [sq] ++ k ++ [sq] ++ (": ").data ++
          [sq] ++ escapeSq ((aGet m k).getD []) ++ [sq]))) ++
        (("        ").data ++ [cbr]))) := by
    unfold cssVarsBlock
    rw [show (Char.ofNat 10) = nlc from rfl]
    simp only [List.append_assoc, List.cons_append, List.singleton_append,
      List.nil_append]
  rw [hsh]
  exact pairPart_lit _ (("        ").data) (("cssVariables").data) _ _
    (by decide) (by decide) (by decide) (by decide)
    (valChunk_obj _ _ (cssBlockPairs m hm))

theorem tuningBlockPart (t : List (Int × Str))
    (ht : ∀ p ∈ t, 0 ≤ p.1 ∧ plainStr p.2 = true) :
    PairPart (("        tuning: ").data ++ [obr, Char.ofNat 10] ++
        emitLines ((sortByJS intKeyLe t).map (fun p =>
          ("            ").data ++ intStr p.1 ++ (": ").data ++ [sq] ++ p.2 ++ [sq])) ++
        ("        ").data ++ [cbr])
      (("tuning").data)
      (.obj ((sortByJS intKeyLe t).map (fun p => (intStr p.1, JsValue.str p.2)))) := by
  have hsh : ("        tuning: ").data ++ [obr, Char.ofNat 10] ++
      emitLines ((sortByJS intKeyLe t).map (fun p =>
        ("            ").data ++ intStr p.1 ++ (": ").data ++ [sq] ++ p.2 ++ [sq])) ++
      ("        ").data ++ [cbr] =
      ("        tuning: ").data ++
      (obr :: (([nlc] ++ emitLines ((sortByJS intKeyLe t).map (fun p =>
        ("            ").data ++ intStr p.1 ++ (": ").data ++ [sq] ++ p.2 ++ [sq]))) ++
        (("        ").data ++ [cbr]))) := by
    rw [show (Char.ofNat 10) = nlc from rfl]
    simp only [List.append_assoc, List.cons_append, List.singleton_append,
      List.nil_append]
  rw [hsh]
  exact pairPart_lit _ (("        ").data) (("tuning").data) _ _
    (by decide) (by decide) (by decide) (by decide)
    (valChunk_obj _ _ (intBlockPairs (sortByJS intKeyLe t)
      (fun p hp => ht p ((sortByJS_perm intKeyLe t).mem_iff.mp hp))))

theorem markersBlockPart (t : List (Int × Str))
    (ht : ∀ p ∈ t, 0 ≤ p.1 ∧ plainStr p.2 = true) :
    PairPart (("        fretMarkers: ").data ++ [obr, Char.ofNat 10] ++
        emitLines ((sortByJS intKeyLe t).map (fun p =>
          ("            ").data ++ intStr p.1 ++ (": ").data ++ [sq] ++ p.2 ++ [sq])) ++
        ("        ").data ++ [cbr])
      (("fretMarkers").data)
      (.obj ((sortByJS intKeyLe t).map (fun p => (intStr p.1, JsValue.str p.2)))) := by
  have hsh : ("        fretMarkers: ").data ++ [obr, Char.ofNat 10] ++
      emitLines ((sortByJS intKeyLe t).map (fun p =>
        ("            ").data ++ intStr p.1 ++ (": ").data ++ [sq] ++ p.2 ++ [sq])) ++
      ("        ").data ++ [cbr] =
      ("        fretMarkers: ").data ++
      (obr :: (([nlc] ++ emitLines ((sortByJS intKeyLe t).map (fun p =>
        ("            ").data ++ intStr p.1 ++ (": ").data ++ [sq] ++ p.2 ++ [sq]))) ++
        (("        ").data ++ [cbr]))) := by
    rw [show (Char.ofNat 10) = nlc from rfl]
    simp only [List.append_assoc, List.cons_append, List.singleton_append,
      List.nil_append]
  rw [hsh]
  exact pairPart_lit _ (("        ").data) (("fretMarkers").data) _ _
    (by decide) (by decide) (by decide) (by decide)
    (valChunk_obj _ _ (intBlockPairs (sortByJS intKeyLe t)
      (fun p hp => ht p ((sortByJS_perm intKeyLe t).mem_iff.mp hp))))

theorem fingeringBlockPart (L : List FEntry) :
    PairPart (("        fingering: [").data ++ [Char.ofNat 10] ++
        emitLines (L.map fingeringEntryLine) ++ ("        ]").data)
      (("fingering").data)
      (.arr (L.map decodedFingEntry)) := by
  have hsh : ("        fingering: [").data ++ [Char.ofNat 10] ++
      emitLines (L.map fingeringEntryLine) ++ ("        ]").data =
      ("        fingering: ").data ++
      (obk :: (([nlc] ++ emitLines (L.map fingeringEntryLine)) ++
        (("        ").data ++ [cbk]))) := by
    rw [show ("        fingering: [").data =
        ("        fingering: ").data ++ [obk] from by decide,
      show ("        ]").data = ("        ").data ++ [cbk] from by decide,
      show (Char.ofNat 10) = nlc from rfl]
    simp only [List.append_assoc, List.cons_append, List.singleton_append,
      List.nil_append]
  rw [hsh]
  exact pairPart_lit _ (("        ").data) (("fingering").data) _ _
    (by decide) (by decide) (by decide) (by decide)
    (valChunk_arr _ _ (fingElems L))

theorem sqStrPart (pre w0 kt : Str) (w : Str)
    (hsplit : pre = w0 ++ (kt ++ [':', ' '])) (hw0 : wsStr w0 = true)
    (hkne : kt ≠ []) (hkid : ∀ c ∈ kt, isIdentKeyChar c = true)
    (hw : plainStr w = true) :
    PairPart (pre ++ ([sq] ++ w ++ [sq])) kt (.str w) := by
  have hsh : pre ++ ([sq] ++ w ++ [sq]) = pre ++ (sq :: (w ++ [sq])) := by
    simp only [List.append_assoc, List.cons_append, List.singleton_append,
      List.nil_append]
  rw [hsh]
  exact pairPart_lit pre w0 kt _ _ hsplit hw0 hkne hkid
    (valChunk_str sq (Or.inl rfl) w hw)

theorem dqStrPart (pre w0 kt : Str) (w : Str)
    (hsplit : pre = w0 ++ (kt ++ [':', ' '])) (hw0 : wsStr w0 = true)
    (hkne : kt ≠ []) (hkid : ∀ c ∈ kt, isIdentKeyChar c = true)
    (hw : plainStr w = true) :
    PairPart (pre ++ ([dq] ++ w ++ [dq])) kt (.str w) := by
  have hsh : pre ++ ([dq] ++ w ++ [dq]) = pre ++ (dq :: (w ++ [dq])) := by
    simp only [List.append_assoc, List.cons_append, List.singleton_append,
      List.nil_append]
  rw [hsh]
  exact pairPart_lit pre w0 kt _ _ hsplit hw0 hkne hkid
    (valChunk_str dq (Or.inr rfl) w hw)

theorem numPart (pre w0 kt : Str) (n : Int)
    (hsplit : pre = w0 ++ (kt ++ [':', ' '])) (hw0 : wsStr w0 = true)
    (hkne : kt ≠ []) (hkid : ∀ c ∈ kt, isIdentKeyChar c = true) :
    PairPart (pre ++ intStr n) kt (.num n) :=
  pairPart_lit pre w0 kt _ _ hsplit hw0 hkne hkid (valChunk_num n)

theorem groupC_pairs (g : GroupCCfg)
    (hname : ∀ n, g.name = some n → plainStr n = true)
    (hroot : ∀ r, g.root = some r → plainStr r = true)
    (w2 : Str) (hw2 : wsStr w2 = true) :
    PairsChunk ((joinWith [',', nlc] (groupCProps g)) ++ (w2 ++ [cbr]))
      (decodedGroupC g) := by
  refine propsChunk
    [(("        name: ").data ++
        (match g.name with
         | some n => [dq] ++ n ++ [dq]
         | none => ("null").data),
      ("name").data,
      (match g.name with | some n => JsValue.str n | none => JsValue.null)),
     (("        root: ").data ++
        (match g.root with
         | some r => [dq] ++ r ++ [dq]
         | none => ("null").data),
      ("root").data,
      (match g.root with | some r => JsValue.str r | none => JsValue.null)),
     (("        startFret: ").data ++ intStr ((g.startFret).getD 1),
      ("startFret").data, JsValue.num ((g.startFret).getD 1)),
     (("        numFrets: ").data ++ intStr ((g.numFrets).getD 4),
      ("numFrets").data, JsValue.num ((g.numFrets).getD 4)),
     (("        fingering: [").data ++ [Char.ofNat 10] ++
        emitLines ((validFingering ((g.fingering).getD [])).map fingeringEntryLine) ++
        ("        ]").data,
      ("fingering").data,
      JsValue.arr ((validFingering ((g.fingering).getD [])).map decodedFingEntry))]
    (fun hc => List.noConfusion hc) ?_ w2 hw2
  intro x hx
  simp only [List.mem_cons, List.not_mem_nil, or_false] at hx
  rcases hx with rfl | rfl | rfl | rfl | rfl
  · dsimp only
    cases hn : g.name with
    | some n =>
        exact dqStrPart (("        name: ").data) (("        ").data)
          (("name").data) n (by decide) (by decide) (by decide) (by decide)
          (hname n hn)
    | none =>
        exact pairPart_lit (("        name: ").data) (("        ").data)
          (("name").data) (("null").data) JsValue.null (by decide)
          (by decide) (by decide) (by decide) valChunk_null
  · dsimp only
    cases hr : g.root with
    | some r =>
        exact dqStrPart (("        root: ").data) (("        ").data)
          (("root").data) r (by decide) (by decide) (by decide) (by decide)
          (hroot r hr)
    | none =>
        exact pairPart_lit (("        root: ").data) (("        ").data)
          (("root").data) (("null").data) JsValue.null (by decide)
          (by decide) (by decide) (by decide) valChunk_null
  · exact numPart (("        startFret: ").data) (("        ").data)
      (("startFret").data) ((g.startFret).getD 1) (by decide) (by decide)
      (by decide) (by decide)
  · exact numPart (("        numFrets: ").data) (("        ").data)
      (("numFrets").data) ((g.numFrets).getD 4) (by decide) (by decide)
      (by decide) (by decide)
  · exact fingeringBlockPart (validFingering ((g.fingering).getD []))

theorem plainStr_jsTrim {s : Str} (h : plainStr s = true) :
    plainStr (jsTrim s) = true := by
  refine plainStr_sub h (fun c hc => ?_)
  unfold jsTrim at hc
  rw [List.mem_reverse] at hc
  have hc1 : c ∈ (s.dropWhile isJsWs).reverse :=
    (List.dropWhile_sublist _).subset hc
  rw [List.mem_reverse] at hc1
  exact (List.dropWhile_sublist _).subset hc1

theorem addDefaultVar_plain (env : Str → Str)
    (henv : ∀ k, plainStr (env k) = true) (acc : List (Str × Str)) (name : Str)
    (hacc : ∀ p ∈ acc, plainStr p.1 = true ∧ plainStr p.2 = true)
    (hn : plainStr name = true) :
    ∀ p ∈ addDefaultVar env acc name, plainStr p.1 = true ∧ plainStr p.2 = true := by
  intro p hp
  unfold addDefaultVar at hp
  by_cases h1 : aHas acc name
  · rw [if_pos h1] at hp
    exact hacc p hp
  · rw [if_neg h1] at hp
    dsimp only at hp
    by_cases h2 : jsTrim (env name) = []
    · rw [if_pos h2] at hp
      exact hacc p hp
    · rw [if_neg h2] at hp
      rcases List.mem_append.mp hp with h | h
      · exact hacc p h
      · have hpe : p = (name, jsTrim (env name)) := by simpa using h
        subst hpe
        exact ⟨hn, plainStr_jsTrim (henv name)⟩

theorem foldl_addDefaultVar_plain (env : Str → Str)
    (henv : ∀ k, plainStr (env k) = true) :
    ∀ (vars : List Str) (acc : List (Str × Str)),
    (∀ v ∈ vars, plainStr v = true) →
    (∀ p ∈ acc, plainStr p.1 = true ∧ plainStr p.2 = true) →
    ∀ p ∈ vars.foldl (addDefaultVar env) acc,
      plainStr p.1 = true ∧ plainStr p.2 = true := by
  intro vars
  induction vars with
  | nil => intro acc _ hacc p hp; exact hacc p hp
  | cons v vs ih =>
      intro acc hvars hacc p hp
      rw [List.foldl_cons] at hp
      exact ih _ (fun x hx => hvars x (List.mem_cons_of_mem _ hx))
        (addDefaultVar_plain env henv acc v hacc
          (hvars v (List.mem_cons_self _ _))) p hp

theorem cssVarsToInclude_plain (incl : Bool) (env : Str → Str)
    (vars : List Str) (own : List (Str × Str))
    (henv : ∀ k, plainStr (env k) = true)
    (hvars : ∀ v ∈ vars, plainStr v = true)
    (hown : ∀ p ∈ own, plainStr p.1 = true ∧ plainStr p.2 = true) :
    ∀ p ∈ cssVarsToInclude incl env vars own,
      plainStr p.1 = true ∧ plainStr p.2 = true := by
  unfold cssVarsToInclude
  cases incl with
  | true => exact foldl_addDefaultVar_plain env henv vars own hvars hown
  | false => exact hown

theorem jsOr_some_ne (s d : Str) (h : s ≠ []) : jsOr (some s) d = s := by
  unfold jsOr
  dsimp only
  rw [if_neg h]

theorem bindingPart (b : Bool) :
    PairPart (("        fretboardBindingDisplay: ").data ++
        (if b then ("true").data else ("false").data))
      (("fretboardBindingDisplay").data) (.bool b) := by
  cases b with
  | false =>
      rw [if_neg (by decide)]
      exact pairPart_lit (("        fretboardBindingDisplay: ").data)
        (("        ").data) (("fretboardBindingDisplay").data)
        (("false").data) (JsValue.bool false)
        (by decide) (by decide) (by decide) (by decide) valChunk_false
  | true =>
      rw [if_pos rfl]
      exact pairPart_lit (("        fretboardBindingDisplay: ").data)
        (("        ").data) (("fretboardBindingDisplay").data)
        (("true").data) (JsValue.bool true)
        (by decide) (by decide) (by decide) (by decide) valChunk_true

theorem customPart (v : Str) (hv : plainStr v = true) :
    PairPart (("        customCSS: ").data ++ [sq] ++ escapeCustomCSS v ++ [sq])
      (("customCSS").data) (.str v) := by
  rw [escapeCustomCSS_plain hv]
  have hsh : ("        customCSS: ").data ++ [sq] ++ v ++ [sq] =
      ("        customCSS: ").data ++ ([sq] ++ v ++ [sq]) := by
    simp only [List.append_assoc]
  rw [hsh]
  exact sqStrPart (("        customCSS: ").data) (("        ").data)
    (("customCSS").data) v (by decide) (by decide) (by decide) (by decide) hv

/-- The `settingsGroupB` property list together with each property key and
decoded value, mirroring the structure of `groupBProps`/`decodedGroupB`. -/
def groupBTriples (g : GroupBCfg) (i : Bool) (env : Str → Str) :
    List (Str × Str × JsValue) :=
  let markers := (g.fretMarkers).getD defaultFretMarkers
  let css := cssVarsToInclude i env groupBVars ((g.cssVariables).getD [])
  [(("        fretMarkers: ").data ++ [obr, Char.ofNat 10] ++
      emitLines ((sortByJS intKeyLe markers).map (fun p =>
        ("            ").data ++ intStr p.1 ++ (": ").data ++ [sq] ++ p.2 ++ [sq])) ++
      ("        ").data ++ [cbr],
    ("fretMarkers").data,
    JsValue.obj ((sortByJS intKeyLe markers).map
      (fun p => (intStr p.1, JsValue.str p.2)))),
   (("        fretboardBindingDisplay: ").data ++
      (if (g.fretboardBindingDisplay).getD true then ("true").data
       else ("false").data),
    ("fretboardBindingDisplay").data,
    JsValue.bool ((g.fretboardBindingDisplay).getD true))] ++
  (if css = [] then [] else
    [(cssVarsBlock css, ("cssVariables").data,
      JsValue.obj (decodedCssVars css))]) ++
  (match g.customCSS with
   | some v =>
       if jsTrim v = [] ∨ v = [] then []
       else [(("        customCSS: ").data ++ [sq] ++ escapeCustomCSS v ++ [sq],
              ("customCSS").data, JsValue.str v)]
   | none => [])

theorem groupBTriples_fst (g : GroupBCfg) (i : Bool) (env : Str → Str) :
    (groupBTriples g i env).map (fun x => x.1) = groupBProps g i env := by
  unfold groupBTriples groupBProps
  dsimp only
  simp only [List.map_append, List.map_cons, List.map_nil]
  congr 1
  · congr 1
    by_cases hc : cssVarsToInclude i env groupBVars ((g.cssVariables).getD []) = []
    · rw [if_pos hc, if_pos hc]
      rfl
    · rw [if_neg hc, if_neg hc]
      rfl
  · cases g.customCSS with
    | some v =>
        dsimp only
        by_cases hv : jsTrim v = [] ∨ v = []
        · rw [if_pos hv, if_pos hv]
          rfl
        · rw [if_neg hv, if_neg hv]
          rfl
    | none => rfl

theorem groupBTriples_pairs (g : GroupBCfg) (i : Bool) (env : Str → Str) :
    (groupBTriples g i env).map (fun x => (x.2.1, x.2.2)) = decodedGroupB g i env := by
  unfold groupBTriples decodedGroupB
  dsimp only
  simp only [List.map_append, List.map_cons, List.map_nil]
  congr 1
  · congr 1
    by_cases hc : cssVarsToInclude i env groupBVars ((g.cssVariables).getD []) = []
    · rw [if_pos hc, if_pos hc]
      rfl
    · rw [if_neg hc, if_neg hc]
      rfl
  · cases g.customCSS with
    | some v =>
        dsimp only
        by_cases hv : jsTrim v = [] ∨ v = []
        · rw [if_pos hv, if_pos hv]
          rfl
        · rw [if_neg hv, if_neg hv]
          rfl
    | none => rfl

theorem groupBTriples_part (g : GroupBCfg) (i : Bool) (env : Str → Str)
    (hmk : ∀ p ∈ (g.fretMarkers).getD defaultFretMarkers,
      0 ≤ p.1 ∧ plainStr p.2 = true)
    (hcssm : ∀ p ∈ cssVarsToInclude i env groupBVars ((g.cssVariables).getD []),
      plainStr p.1 = true ∧ plainStr p.2 = true)
    (hcustom : ∀ v, g.customCSS = some v → plainStr v = true) :
    ∀ x ∈ groupBTriples g i env, PairPart x.1 x.2.1 x.2.2 := by
  intro x hx
  unfold groupBTriples at hx
  dsimp only at hx
  rcases List.mem_append.mp hx with hx | hx
  · rcases List.mem_append.mp hx with hx | hx
    · simp only [List.mem_cons, List.not_mem_nil, or_false] at hx
      rcases hx with rfl | rfl
      · exact markersBlockPart _ hmk
      · exact bindingPart _
    · by_cases hc : cssVarsToInclude i env groupBVars ((g.cssVariables).getD []) = []
      · rw [if_pos hc] at hx
        exact absurd hx (List.not_mem_nil x)
      · rw [if_neg hc] at hx
        have hxe : x = (cssVarsBlock
            (cssVarsToInclude i env groupBVars ((g.cssVariables).getD [])),
            ("cssVariables").data,
            JsValue.obj (decodedCssVars
              (cssVarsToInclude i env groupBVars ((g.cssVariables).getD [])))) := by
          simpa using hx
        subst hxe
        exact cssBlockPart _ hcssm
  · revert hx
    cases hcu : g.customCSS with
    | none => intro hx; exact absurd hx (List.not_mem_nil x)
    | some v =>
        intro hx
        dsimp only at hx
        by_cases hv2 : jsTrim v = [] ∨ v = []
        · rw [if_pos hv2] at hx
          exact absurd hx (List.not_mem_nil x)
        · rw [if_neg hv2] at hx
          have hxe : x = (("        customCSS: ").data ++ [sq] ++
              escapeCustomCSS v ++ [sq],
              ("customCSS").data, JsValue.str v) := by
            simpa using hx
          subst hxe
          exact customPart v (hcustom v hcu)

theorem groupB_pairs (g : GroupBCfg) (i : Bool) (env : Str → Str)
    (hmk : ∀ p ∈ (g.fretMarkers).getD defaultFretMarkers,
      0 ≤ p.1 ∧ plainStr p.2 = true)
    (hcssm : ∀ p ∈ cssVarsToInclude i env groupBVars ((g.cssVariables).getD []),
      plainStr p.1 = true ∧ plainStr p.2 = true)
    (hcustom : ∀ v, g.customCSS = some v → plainStr v = true)
    (w2 : Str) (hw2 : wsStr w2 = true) :
    PairsChunk ((joinWith [',', nlc] (groupBProps g i env)) ++ (w2 ++ [cbr]))
      (decodedGroupB g i env) := by
  rw [← groupBTriples_fst g i env, ← groupBTriples_pairs g i env]
  exact propsChunk (groupBTriples g i env) (fun hc => List.noConfusion hc)
    (groupBTriples_part g i env hmk hcssm hcustom) w2 hw2

theorem sqPropPart (pre w0 kt : Str) (w : Str)
    (hsplit : pre = w0 ++ (kt ++ [':', ' '])) (hw0 : wsStr w0 = true)
    (hkne : kt ≠ []) (hkid : ∀ c ∈ kt, isIdentKeyChar c = true)
    (hw : plainStr w = true) :
    PairPart (pre ++ [sq] ++ w ++ [sq]) kt (.str w) := by
  have hsh : pre ++ [sq] ++ w ++ [sq] = pre ++ ([sq] ++ w ++ [sq]) := by
    simp only [List.append_assoc]
  rw [hsh]
  exact sqStrPart pre w0 kt w hsplit hw0 hkne hkid hw

theorem getD_ne_nil {o : Option Str} {d : Str} (hd : d ≠ [])
    (ho : ∀ s, o = some s → s ≠ []) : o.getD d ≠ [] := by
  cases o with
  | none => exact hd
  | some s => exact ho s rfl

theorem getD_plain {o : Option Str} {d : Str} (hd : plainStr d = true)
    (ho : ∀ s, o = some s → plainStr s = true) : plainStr (o.getD d) = true := by
  cases o with
  | none => exact hd
  | some s => exact ho s rfl

/-- The `settingsGroupA` property list together with each property key and
decoded value, mirroring the structure of `groupAProps`/`decodedGroupA`. -/
def groupATriples (g : GroupACfg) (i : Bool) (env : Str → Str) :
    List (Str × Str × JsValue) :=
  let mergedDotTextMode := (g.dotTextMode).getD (("note").data)
  let mergedShowFretIndicators := (g.showFretIndicators).getD (("first-fret-cond").data)
  let mergedNumStrings := (g.numStrings).getD 6
  let mergedStringType := (g.stringType).getD (("1").data)
  let css := cssVarsToInclude i env groupAVars ((g.cssVariables).getD [])
  [(("        dotTextMode: ").data ++ [sq] ++
      jsOr (some mergedDotTextMode) (("note").data) ++ [sq],
    ("dotTextMode").data, JsValue.str mergedDotTextMode),
   (("        showFretIndicators: ").data ++ [sq] ++
      jsOr (some mergedShowFretIndicators) (("first-fret-cond").data) ++ [sq],
    ("showFretIndicators").data, JsValue.str mergedShowFretIndicators),
   (("        numStrings: ").data ++ intStr mergedNumStrings,
    ("numStrings").data, JsValue.num mergedNumStrings),
   (("        stringType: ").data ++ [sq] ++
      jsOr (some mergedStringType) (("1").data) ++ [sq],
    ("stringType").data, JsValue.str mergedStringType)] ++
  (match g.tuning with
   | some t =>
       if t = [] then [(("        tuning: null").data, ("tuning").data, JsValue.null)]
       else
         [(("        tuning: ").data ++ [obr, Char.ofNat 10] ++
             emitLines ((sortByJS intKeyLe t).map (fun p =>
               ("            ").data ++ intStr p.1 ++ (": ").data ++
                 [sq] ++ p.2 ++ [sq])) ++
             ("        ").data ++ [cbr],
           ("tuning").data,
           JsValue.obj ((sortByJS intKeyLe t).map
             (fun p => (intStr p.1, JsValue.str p.2))))]
   | none => [(("        tuning: null").data, ("tuning").data, JsValue.null)]) ++
  (if css = [] then [] else
    [(cssVarsBlock css, ("cssVariables").data,
      JsValue.obj (decodedCssVars css))])

theorem groupATriples_fst (g : GroupACfg) (i : Bool) (env : Str → Str) :
    (groupATriples g i env).map (fun x => x.1) = groupAProps g i env := by
  unfold groupATriples groupAProps
  dsimp only
  simp only [List.map_append, List.map_cons, List.map_nil]
  congr 1
  · congr 1
    cases g.tuning with
    | some t =>
        dsimp only
        by_cases ht : t = []
        · rw [if_pos ht, if_pos ht]
          rfl
        · rw [if_neg ht, if_neg ht]
          rfl
    | none => rfl
  · by_cases hc : cssVarsToInclude i env groupAVars ((g.cssVariables).getD []) = []
    · rw [if_pos hc, if_pos hc]
      rfl
    · rw [if_neg hc, if_neg hc]
      rfl

theorem groupATriples_pairs (g : GroupACfg) (i : Bool) (env : Str → Str) :
    (groupATriples g i env).map (fun x => (x.2.1, x.2.2)) = decodedGroupA g i env := by
  unfold groupATriples decodedGroupA
  dsimp only
  simp only [List.map_append, List.map_cons, List.map_nil]
  congr 1
  · cases g.tuning with
    | some t =>
        dsimp only
        by_cases ht : t = []
        · rw [if_pos ht, if_pos ht]
          rfl
        · rw [if_neg ht, if_neg ht]
          rfl
    | none => rfl
  · by_cases hc : cssVarsToInclude i env groupAVars ((g.cssVariables).getD []) = []
    · rw [if_pos hc, if_pos hc]
      rfl
    · rw [if_neg hc, if_neg hc]
      rfl

theorem groupATriples_part (g : GroupACfg) (i : Bool) (env : Str → Str)
    (hdtm : ∀ s, g.dotTextMode = some s → s ≠ [] ∧ plainStr s = true)
    (hsfi : ∀ s, g.showFretIndicators = some s → s ≠ [] ∧ plainStr s = true)
    (hst : ∀ s, g.stringType = some s → s ≠ [] ∧ plainStr s = true)
    (htun : ∀ t, g.tuning = some t → ∀ p ∈ t, 0 ≤ p.1 ∧ plainStr p.2 = true)
    (hcssm : ∀ p ∈ cssVarsToInclude i env groupAVars ((g.cssVariables).getD []),
      plainStr p.1 = true ∧ plainStr p.2 = true) :
    ∀ x ∈ groupATriples g i env, PairPart x.1 x.2.1 x.2.2 := by
  intro x hx
  unfold groupATriples at hx
  dsimp only at hx
  rcases List.mem_append.mp hx with hx | hx
  · rcases List.mem_append.mp hx with hx | hx
    · simp only [List.mem_cons, List.not_mem_nil, or_false] at hx
      rcases hx with rfl | rfl | rfl | rfl
      · rw [jsOr_some_ne _ _
          (getD_ne_nil (by decide) (fun s hs => (hdtm s hs).1))]
        exact sqPropPart (("        dotTextMode: ").data) (("        ").data)
          (("dotTextMode").data) _ (by decide) (by decide) (by decide) (by decide)
          (getD_plain (by decide) (fun s hs => (hdtm s hs).2))
      · rw [jsOr_some_ne _ _
          (getD_ne_nil (by decide) (fun s hs => (hsfi s hs).1))]
        exact sqPropPart (("        showFretIndicators: ").data) (("        ").data)
          (("showFretIndicators").data) _ (by decide) (by decide) (by decide)
          (by decide) (getD_plain (by decide) (fun s hs => (hsfi s hs).2))
      · exact numPart (("        numStrings: ").data) (("        ").data)
          (("numStrings").data) ((g.numStrings).getD 6) (by decide) (by decide)
          (by decide) (by decide)
      · rw [jsOr_some_ne _ _
          (getD_ne_nil (by decide) (fun s hs => (hst s hs).1))]
        exact sqPropPart (("        stringType: ").data) (("        ").data)
          (("stringType").data) _ (by decide) (by decide) (by decide) (by decide)
          (getD_plain (by decide) (fun s hs => (hst s hs).2))
    · revert hx
      cases htu : g.tuning with
      | some t =>
          intro hx
          dsimp only at hx
          by_cases ht : t = []
          · rw [if_pos ht] at hx
            have hxe : x = (("        tuning: null").data, ("tuning").data,
                JsValue.null) := by
              simpa using hx
            subst hxe
            rw [show ("        tuning: null").data =
              ("        tuning: ").data ++ ("null").data from by decide]
            exact pairPart_lit (("        tuning: ").data) (("        ").data)
              (("tuning").data) (("null").data) JsValue.null (by decide)
              (by decide) (by decide) (by decide) valChunk_null
          · rw [if_neg ht] at hx
            have hxe : x = (("        tuning: ").data ++ [obr, Char.ofNat 10] ++
                emitLines ((sortByJS intKeyLe t).map (fun p =>
                  ("            ").data ++ intStr p.1 ++ (": ").data ++
                    [sq] ++ p.2 ++ [sq])) ++
                ("        ").data ++ [cbr],
                ("tuning").data,
                JsValue.obj ((sortByJS intKeyLe t).map
                  (fun p => (intStr p.1, JsValue.str p.2)))) := by
              simpa using hx
            subst hxe
            exact tuningBlockPart t (htun t htu)
      | none =>
          intro hx
          have hxe : x = (("        tuning: null").data, ("tuning").data,
              JsValue.null) := by
            simpa using hx
          subst hxe
          rw [show ("        tuning: null").data =
            ("        tuning: ").data ++ ("null").data from by decide]
          exact pairPart_lit (("        tuning: ").data) (("        ").data)
            (("tuning").data) (("null").data) JsValue.null (by decide)
            (by decide) (by decide) (by decide) valChunk_null
  · by_cases hc : cssVarsToInclude i env groupAVars ((g.cssVariables).getD []) = []
    · rw [if_pos hc] at hx
      exact absurd hx (List.not_mem_nil x)
    · rw [if_neg hc] at hx
      have hxe : x = (cssVarsBlock
          (cssVarsToInclude i env groupAVars ((g.cssVariables).getD [])),
          ("cssVariables").data,
          JsValue.obj (decodedCssVars
            (cssVarsToInclude i env groupAVars ((g.cssVariables).getD [])))) := by
        simpa using hx
      subst hxe
      exact cssBlockPart _ hcssm

theorem groupA_pairs (g : GroupACfg) (i : Bool) (env : Str → Str)
    (hdtm : ∀ s, g.dotTextMode = some s → s ≠ [] ∧ plainStr s = true)
    (hsfi : ∀ s, g.showFretIndicators = some s → s ≠ [] ∧ plainStr s = true)
    (hst : ∀ s, g.stringType = some s → s ≠ [] ∧ plainStr s = true)
    (htun : ∀ t, g.tuning = some t → ∀ p ∈ t, 0 ≤ p.1 ∧ plainStr p.2 = true)
    (hcssm : ∀ p ∈ cssVarsToInclude i env groupAVars ((g.cssVariables).getD []),
      plainStr p.1 = true ∧ plainStr p.2 = true)
    (w2 : Str) (hw2 : wsStr w2 = true) :
    PairsChunk ((joinWith [',', nlc] (groupAProps g i env)) ++ (w2 ++ [cbr]))
      (decodedGroupA g i env) := by
  rw [← groupATriples_fst g i env, ← groupATriples_pairs g i env]
  exact propsChunk (groupATriples g i env) (fun hc => List.noConfusion hc)
    (groupATriples_part g i env hdtm hsfi hst htun hcssm) w2 hw2

theorem mem_sortByJS {α : Type} (le : α → α → Bool) (l : List α) (a : α) :
    a ∈ sortByJS le l ↔ a ∈ l := (sortByJS_perm le l).mem_iff

theorem aGet_plain {m : List (Str × Str)}
    (hm : ∀ p ∈ m, plainStr p.1 = true ∧ plainStr p.2 = true) (k : Str) :
    plainStr ((aGet m k).getD []) = true := by
  unfold aGet
  cases hf : m.find? (fun p => p.1 = k) with
  | none => rfl
  | some p => exact (hm p (List.mem_of_find?_eq_some hf)).2

theorem scanBal_sqWrap (w : Str) (hw : plainStr w = true) :
    ScanBal ([sq] ++ w ++ [sq]) := by
  have hsh : [sq] ++ w ++ [sq] = sq :: (w ++ [sq]) := by
    simp only [List.append_assoc, List.cons_append, List.nil_append]
  rw [hsh]
  exact scanBal_string sq (Or.inl rfl) w hw

theorem scanBal_dqWrap (w : Str) (hw : plainStr w = true) :
    ScanBal ([dq] ++ w ++ [dq]) := by
  have hsh : [dq] ++ w ++ [dq] = dq :: (w ++ [dq]) := by
    simp only [List.append_assoc, List.cons_append, List.nil_append]
  rw [hsh]
  exact scanBal_string dq (Or.inr rfl) w hw

theorem no_sl_sqWrap (w : Str) (hw : plainStr w = true) :
    sl ∉ [sq] ++ w ++ [sq] :=
  no_sl_append (no_sl_append (by decide) (no_sl_of_plain hw)) (by decide)

theorem no_sl_dqWrap (w : Str) (hw : plainStr w = true) :
    sl ∉ [dq] ++ w ++ [dq] :=
  no_sl_append (no_sl_append (by decide) (no_sl_of_plain hw)) (by decide)

theorem scanBal_cssLine (k v : Str) (hk : plainStr k = true) (hv : plainStr v = true) :
    ScanBal (("            ").data ++ [sq] ++ k ++ [sq] ++ (": ").data ++
      [sq] ++ escapeSq v ++ [sq]) := by
  rw [escapeSq_plain hv]
  have hsh : ("            ").data ++ [sq] ++ k ++ [sq] ++ (": ").data ++
      [sq] ++ v ++ [sq] =
      ("            ").data ++ (([sq] ++ k ++ [sq]) ++
        ((": ").data ++ ([sq] ++ v ++ [sq]))) := by
    simp only [List.append_assoc]
  rw [hsh]
  exact scanBal_append _ _ (scanBal_neutral _ (by decide))
    (scanBal_append _ _ (scanBal_sqWrap k hk)
      (scanBal_append _ _ (scanBal_neutral _ (by decide)) (scanBal_sqWrap v hv)))

theorem no_sl_cssLine (k v : Str) (hk : plainStr k = true) (hv : plainStr v = true) :
    sl ∉ ("            ").data ++ [sq] ++ k ++ [sq] ++ (": ").data ++
      [sq] ++ escapeSq v ++ [sq] := by
  rw [escapeSq_plain hv]
  exact no_sl_append (no_sl_append (no_sl_append (no_sl_append (no_sl_append
    (no_sl_append (no_sl_append (by decide) (by decide)) (no_sl_of_plain hk))
    (by decide)) (by decide)) (by decide)) (no_sl_of_plain hv)) (by decide)

theorem scanBal_intLine (n : Int) (v : Str) (hv : plainStr v = true) :
    ScanBal (("            ").data ++ intStr n ++ (": ").data ++
      [sq] ++ v ++ [sq]) := by
  have hsh : ("            ").data ++ intStr n ++ (": ").data ++ [sq] ++ v ++ [sq] =
      ("            ").data ++ (intStr n ++ ((": ").data ++
        ([sq] ++ v ++ [sq]))) := by
    simp only [List.append_assoc]
  rw [hsh]
  exact scanBal_append _ _ (scanBal_neutral _ (by decide))
    (scanBal_append _ _ (scanBal_intStr n)
      (scanBal_append _ _ (scanBal_neutral _ (by decide)) (scanBal_sqWrap v hv)))

theorem no_sl_intLine (n : Int) (v : Str) (hv : plainStr v = true) :
    sl ∉ ("            ").data ++ intStr n ++ (": ").data ++ [sq] ++ v ++ [sq] :=
  no_sl_append (no_sl_append (no_sl_append (no_sl_append (no_sl_append
    (by decide) (no_sl_intStr n)) (by decide)) (by decide))
    (no_sl_of_plain hv)) (by decide)

theorem scanBal_cssVarsBlock (m : List (Str × Str))
    (hm : ∀ p ∈ m, plainStr p.1 = true ∧ plainStr p.2 = true) :
    ScanBal (cssVarsBlock m) := by
  unfold cssVarsBlock
  rw [show (Char.ofNat 10) = nlc from rfl]
  have hsh : ("        cssVariables: ").data ++ [obr, nlc] ++
      emitLines ((sortByJS strLe (m.map Prod.fst)).map (fun k =>
        ("            ").data ++ [sq] ++ k ++ [sq] ++ (": ").data ++ [sq] ++
          escapeSq ((aGet m k).getD []) ++ [sq])) ++
      ("        ").data ++ [cbr] =
      ("        cssVariables: ").data ++
      (obr :: (([nlc] ++ (emitLines ((sortByJS strLe (m.map Prod.fst)).map (fun k =>
        ("            ").data ++ [sq] ++ k ++ [sq] ++ (": ").data ++ [sq] ++
          escapeSq ((aGet m k).getD []) ++ [sq])) ++
        ("        ").data)) ++ [cbr])) := by
    simp only [List.append_assoc, List.cons_append, List.singleton_append,
      List.nil_append]
  rw [hsh]
  refine scanBal_append _ _ (scanBal_neutral _ (by decide)) (scanBal_block _ ?_)
  refine scanBal_append _ _ (scanBal_neutral _ (by decide))
    (scanBal_append _ _ (scanBal_emitLines _ ?_) (scanBal_neutral _ (by decide)))
  intro l hl
  rcases List.mem_map.mp hl with ⟨k, hk, rfl⟩
  have hkm := (mem_sortByJS strLe (m.map Prod.fst) k).mp hk
  rcases List.mem_map.mp hkm with ⟨p, hp, rfl⟩
  exact scanBal_cssLine p.1 _ (hm p hp).1 (aGet_plain hm p.1)

theorem no_sl_cssVarsBlock (m : List (Str × Str))
    (hm : ∀ p ∈ m, plainStr p.1 = true ∧ plainStr p.2 = true) :
    sl ∉ cssVarsBlock m := by
  unfold cssVarsBlock
  refine no_sl_append (no_sl_append (no_sl_append (no_sl_append
    (by decide) (by decide)) (no_sl_emitLines _ ?_)) (by decide)) (by decide)
  intro l hl
  rcases List.mem_map.mp hl with ⟨k, hk, rfl⟩
  have hkm := (mem_sortByJS strLe (m.map Prod.fst) k).mp hk
  rcases List.mem_map.mp hkm with ⟨p, hp, rfl⟩
  exact no_sl_cssLine p.1 _ (hm p hp).1 (aGet_plain hm p.1)

theorem scanBal_intBlock (pre : Str) (hpre : ∀ c ∈ pre,
      ¬(c = dq ∨ c = sq) ∧ ¬(c = obr) ∧ ¬(c = cbr))
    (t : List (Int × Str)) (ht : ∀ p ∈ t, 0 ≤ p.1 ∧ plainStr p.2 = true) :
    ScanBal (pre ++ [obr, Char.ofNat 10] ++
      emitLines ((sortByJS intKeyLe t).map (fun p =>
        ("            ").data ++ intStr p.1 ++ (": ").data ++ [sq] ++ p.2 ++ [sq])) ++
      ("        ").data ++ [cbr]) := by
  rw [show (Char.ofNat 10) = nlc from rfl]
  have hsh : pre ++ [obr, nlc] ++
      emitLines ((sortByJS intKeyLe t).map (fun p =>
        ("            ").data ++ intStr p.1 ++ (": ").data ++ [sq] ++ p.2 ++ [sq])) ++
      ("        ").data ++ [cbr] =
      pre ++
      (obr :: (([nlc] ++ (emitLines ((sortByJS intKeyLe t).map (fun p =>
        ("            ").data ++ intStr p.1 ++ (": ").data ++ [sq] ++ p.2 ++ [sq])) ++
        ("        ").data)) ++ [cbr])) := by
    simp only [List.append_assoc, List.cons_append, List.singleton_append,
      List.nil_append]
  rw [hsh]
  refine scanBal_append _ _ (scanBal_neutral _ hpre) (scanBal_block _ ?_)
  refine scanBal_append _ _ (scanBal_neutral _ (by decide))
    (scanBal_append _ _ (scanBal_emitLines _ ?_) (scanBal_neutral _ (by decide)))
  intro l hl
  rcases List.mem_map.mp hl with ⟨p, hp, rfl⟩
  exact scanBal_intLine p.1 p.2 (ht p ((mem_sortByJS intKeyLe t p).mp hp)).2

theorem no_sl_intBlock (pre : Str) (hpre : sl ∉ pre)
    (t : List (Int × Str)) (ht : ∀ p ∈ t, 0 ≤ p.1 ∧ plainStr p.2 = true) :
    sl ∉ pre ++ [obr, Char.ofNat 10] ++
      emitLines ((sortByJS intKeyLe t).map (fun p =>
        ("            ").data ++ intStr p.1 ++ (": ").data ++ [sq] ++ p.2 ++ [sq])) ++
      ("        ").data ++ [cbr] := by
  refine no_sl_append (no_sl_append (no_sl_append (no_sl_append
    hpre (by decide)) (no_sl_emitLines _ ?_)) (by decide)) (by decide)
  intro l hl
  rcases List.mem_map.mp hl with ⟨p, hp, rfl⟩
  exact no_sl_intLine p.1 p.2 (ht p ((mem_sortByJS intKeyLe t p).mp hp)).2

theorem scanBal_fingLine (f : FEntry) : ScanBal (fingeringEntryLine f) := by
  unfold fingeringEntryLine
  dsimp only
  have hsh : ("            ").data ++ [obr] ++ (" string: ").data ++
      intStr (if f.string = 0 then 1 else f.string) ++
      (", fret: ").data ++ intStr (match f.fret with | .num n => n | _ => 0) ++
      (", finger: ").data ++ intStr ((f.finger).getD 0) ++ [' ', cbr] =
      ("            ").data ++
      (obr :: (((" string: ").data ++
        (intStr (if f.string = 0 then 1 else f.string) ++
        ((", fret: ").data ++ (intStr (match f.fret with | .num n => n | _ => 0) ++
        ((", finger: ").data ++ (intStr ((f.finger).getD 0) ++ [' '])))))) ++ [cbr])) := by
    simp only [List.append_assoc, List.cons_append, List.singleton_append,
      List.nil_append]
  rw [hsh]
  refine scanBal_append _ _ (scanBal_neutral _ (by decide)) (scanBal_block _ ?_)
  exact scanBal_append _ _ (scanBal_neutral _ (by decide))
    (scanBal_append _ _ (scanBal_intStr _)
      (scanBal_append _ _ (scanBal_neutral _ (by decide))
        (scanBal_append _ _ (scanBal_intStr _)
          (scanBal_append _ _ (scanBal_neutral _ (by decide))
            (scanBal_append _ _ (scanBal_intStr _)
              (scanBal_neutral _ (by decide)))))))

theorem no_sl_fingLine (f : FEntry) : sl ∉ fingeringEntryLine f := by
  unfold fingeringEntryLine
  dsimp only
  exact no_sl_append (no_sl_append (no_sl_append (no_sl_append (no_sl_append
    (no_sl_append (no_sl_append (no_sl_append (by decide) (by decide)) (by decide))
    (no_sl_intStr _)) (by decide)) (no_sl_intStr _)) (by decide))
    (no_sl_intStr _)) (by decide)

theorem jsOr_plain {s d : Str} (hs : plainStr s = true) (hd : plainStr d = true) :
    plainStr (jsOr (some s) d) = true := by
  unfold jsOr
  dsimp only
  by_cases h : s = []
  · rw [if_pos h]
    exact hd
  · rw [if_neg h]
    exact hs

theorem scanBal_sqProp (pre : Str)
    (hpre : ∀ c ∈ pre, ¬(c = dq ∨ c = sq) ∧ ¬(c = obr) ∧ ¬(c = cbr))
    (w : Str) (hw : plainStr w = true) : ScanBal (pre ++ [sq] ++ w ++ [sq]) := by
  have hsh : pre ++ [sq] ++ w ++ [sq] = pre ++ ([sq] ++ w ++ [sq]) := by
    simp only [List.append_assoc]
  rw [hsh]
  exact scanBal_append _ _ (scanBal_neutral _ hpre) (scanBal_sqWrap w hw)

theorem scanBal_dqProp (pre : Str)
    (hpre : ∀ c ∈ pre, ¬(c = dq ∨ c = sq) ∧ ¬(c = obr) ∧ ¬(c = cbr))
    (w : Str) (hw : plainStr w = true) : ScanBal (pre ++ ([dq] ++ w ++ [dq])) :=
  scanBal_append _ _ (scanBal_neutral _ hpre) (scanBal_dqWrap w hw)

theorem no_sl_sqProp (pre : Str) (hpre : sl ∉ pre) (w : Str)
    (hw : plainStr w = true) : sl ∉ pre ++ [sq] ++ w ++ [sq] := by
  have hsh : pre ++ [sq] ++ w ++ [sq] = pre ++ ([sq] ++ w ++ [sq]) := by
    simp only [List.append_assoc]
  rw [hsh]
  exact no_sl_append hpre (no_sl_sqWrap w hw)

theorem groupAProps_each (g : GroupACfg) (i : Bool) (env : Str → Str)
    (hdtm : ∀ s, g.dotTextMode = some s → plainStr s = true)
    (hsfi : ∀ s, g.showFretIndicators = some s → plainStr s = true)
    (hst : ∀ s, g.stringType = some s → plainStr s = true)
    (htun : ∀ t, g.tuning = some t → ∀ p ∈ t, 0 ≤ p.1 ∧ plainStr p.2 = true)
    (hcssm : ∀ p ∈ cssVarsToInclude i env groupAVars ((g.cssVariables).getD []),
      plainStr p.1 = true ∧ plainStr p.2 = true) :
    ∀ l ∈ groupAProps g i env, ScanBal l ∧ sl ∉ l := by
  intro l hl
  unfold groupAProps at hl
  dsimp only at hl
  rcases List.mem_append.mp hl with hl | hl
  · rcases List.mem_append.mp hl with hl | hl
    · simp only [List.mem_cons, List.not_mem_nil, or_false] at hl
      rcases hl with rfl | rfl | rfl | rfl
      · exact ⟨scanBal_sqProp _ (by decide) _
            (jsOr_plain (getD_plain (by decide) hdtm) (by decide)),
          no_sl_sqProp _ (by decide) _
            (jsOr_plain (getD_plain (by decide) hdtm) (by decide))⟩
      · exact ⟨scanBal_sqProp _ (by decide) _
            (jsOr_plain (getD_plain (by decide) hsfi) (by decide)),
          no_sl_sqProp _ (by decide) _
            (jsOr_plain (getD_plain (by decide) hsfi) (by decide))⟩
      · exact ⟨scanBal_append _ _ (scanBal_neutral _ (by decide))
            (scanBal_intStr _),
          no_sl_append (by decide) (no_sl_intStr _)⟩
      · exact ⟨scanBal_sqProp _ (by decide) _
            (jsOr_plain (getD_plain (by decide) hst) (by decide)),
          no_sl_sqProp _ (by decide) _
            (jsOr_plain (getD_plain (by decide) hst) (by decide))⟩
    · revert hl
      cases htu : g.tuning with
      | none =>
          intro hl
          have hle : l = ("        tuning: null").data := by simpa using hl
          subst hle
          exact ⟨scanBal_neutral _ (by decide), by decide⟩
      | some t =>
          intro hl
          dsimp only at hl
          by_cases ht : t = []
          · rw [if_pos ht] at hl
            have hle : l = ("        tuning: null").data := by simpa using hl
            subst hle
            exact ⟨scanBal_neutral _ (by decide), by decide⟩
          · rw [if_neg ht] at hl
            have hle : l = ("        tuning: ").data ++ [obr, Char.ofNat 10] ++
                emitLines ((sortByJS intKeyLe t).map (fun p =>
                  ("            ").data ++ intStr p.1 ++ (": ").data ++
                    [sq] ++ p.2 ++ [sq])) ++
                ("        ").data ++ [cbr] := by
              simpa using hl
            subst hle
            exact ⟨scanBal_intBlock _ (by decide) t (htun t htu),
              no_sl_intBlock _ (by decide) t (htun t htu)⟩
  · by_cases hc : cssVarsToInclude i env groupAVars ((g.cssVariables).getD []) = []
    · rw [if_pos hc] at hl
      exact absurd hl (List.not_mem_nil l)
    · rw [if_neg hc] at hl
      have hle : l = cssVarsBlock
          (cssVarsToInclude i env groupAVars ((g.cssVariables).getD [])) := by
        simpa using hl
      subst hle
      exact ⟨scanBal_cssVarsBlock _ hcssm, no_sl_cssVarsBlock _ hcssm⟩

theorem groupBProps_each (g : GroupBCfg) (i : Bool) (env : Str → Str)
    (hmk : ∀ p ∈ (g.fretMarkers).getD defaultFretMarkers,
      0 ≤ p.1 ∧ plainStr p.2 = true)
    (hcssm : ∀ p ∈ cssVarsToInclude i env groupBVars ((g.cssVariables).getD []),
      plainStr p.1 = true ∧ plainStr p.2 = true)
    (hcustom : ∀ v, g.customCSS = some v → plainStr v = true) :
    ∀ l ∈ groupBProps g i env, ScanBal l ∧ sl ∉ l := by
  intro l hl
  unfold groupBProps at hl
  dsimp only at hl
  rcases List.mem_append.mp hl with hl | hl
  · rcases List.mem_append.mp hl with hl | hl
    · simp only [List.mem_cons, List.not_mem_nil, or_false] at hl
      rcases hl with rfl | rfl
      · exact ⟨scanBal_intBlock _ (by decide) _ hmk,
          no_sl_intBlock _ (by decide) _ hmk⟩
      · cases hb : (g.fretboardBindingDisplay).getD true with
        | true =>
            rw [if_pos rfl]
            exact ⟨scanBal_neutral _ (by decide), by decide⟩
        | false =>
            rw [if_neg (by decide)]
            exact ⟨scanBal_neutral _ (by decide), by decide⟩
    · by_cases hc : cssVarsToInclude i env groupBVars ((g.cssVariables).getD []) = []
      · rw [if_pos hc] at hl
        exact absurd hl (List.not_mem_nil l)
      · rw [if_neg hc] at hl
        have hle : l = cssVarsBlock
            (cssVarsToInclude i env groupBVars ((g.cssVariables).getD [])) := by
          simpa using hl
        subst hle
        exact ⟨scanBal_cssVarsBlock _ hcssm, no_sl_cssVarsBlock _ hcssm⟩
  · revert hl
    cases hcu : g.customCSS with
    | none => intro hl; exact absurd hl (List.not_mem_nil l)
    | some v =>
        intro hl
        dsimp only at hl
        by_cases hv2 : jsTrim v = [] ∨ v = []
        · rw [if_pos hv2] at hl
          exact absurd hl (List.not_mem_nil l)
        · rw [if_neg hv2] at hl
          have hle : l = ("        customCSS: ").data ++ [sq] ++
              escapeCustomCSS v ++ [sq] := by
            simpa using hl
          subst hle
          rw [escapeCustomCSS_plain (hcustom v hcu)]
          exact ⟨scanBal_sqProp _ (by decide) _ (hcustom v hcu),
            no_sl_sqProp _ (by decide) _ (hcustom v hcu)⟩

theorem groupCProps_each (g : GroupCCfg)
    (hname : ∀ n, g.name = some n → plainStr n = true)
    (hroot : ∀ r, g.root = some r → plainStr r = true) :
    ∀ l ∈ groupCProps g, ScanBal l ∧ sl ∉ l := by
  intro l hl
  unfold groupCProps at hl
  dsimp only at hl
  simp only [List.mem_cons, List.not_mem_nil, or_false] at hl
  rcases hl with rfl | rfl | rfl | rfl | rfl
  · cases hn : g.name with
    | some n =>
        exact ⟨scanBal_dqProp _ (by decide) n (hname n hn),
          no_sl_append (by decide) (no_sl_dqWrap n (hname n hn))⟩
    | none => exact ⟨scanBal_append _ _ (scanBal_neutral _ (by decide))
        (scanBal_neutral _ (by decide)),
        no_sl_append (by decide) (by decide)⟩
  · cases hr : g.root with
    | some r =>
        exact ⟨scanBal_dqProp _ (by decide) r (hroot r hr),
          no_sl_append (by decide) (no_sl_dqWrap r (hroot r hr))⟩
    | none => exact ⟨scanBal_append _ _ (scanBal_neutral _ (by decide))
        (scanBal_neutral _ (by decide)),
        no_sl_append (by decide) (by decide)⟩
  · exact ⟨scanBal_append _ _ (scanBal_neutral _ (by decide)) (scanBal_intStr _),
      no_sl_append (by decide) (no_sl_intStr _)⟩
  · exact ⟨scanBal_append _ _ (scanBal_neutral _ (by decide)) (scanBal_intStr _),
      no_sl_append (by decide) (no_sl_intStr _)⟩
  · rw [show (Char.ofNat 10) = nlc from rfl]
    constructor
    · refine scanBal_append _ _ (scanBal_append _ _ (scanBal_append _ _
        (scanBal_neutral _ (by decide)) (scanBal_neutral _ (by decide)))
        (scanBal_emitLines _ ?_)) (scanBal_neutral _ (by decide))
      intro x hx
      rcases List.mem_map.mp hx with ⟨f, hf, rfl⟩
      exact scanBal_fingLine f
    · refine no_sl_append (no_sl_append (no_sl_append
        (by decide) (by decide)) (no_sl_emitLines _ ?_)) (by decide)
      intro x hx
      rcases List.mem_map.mp hx with ⟨f, hf, rfl⟩
      exact no_sl_fingLine f

theorem no_sl_cons {c : Char} {t : Str} (hc : ¬(c = sl)) (ht : sl ∉ t) :
    sl ∉ c :: t := by
  intro hm
  rcases List.mem_cons.mp hm with h | h
  · exact hc h.symm
  · exact ht h

theorem jsTrim_id_of_ends (t : Str)
    (h1 : ∀ c, t.head? = some c → isJsWs c = false)
    (h2 : ∀ c, t.reverse.head? = some c → isJsWs c = false) : jsTrim t = t := by
  unfold jsTrim
  have hd : t.dropWhile isJsWs = t := by
    cases t with
    | nil => rfl
    | cons c rest =>
        exact List.dropWhile_cons_of_neg
          (by rw [h1 c rfl]; exact Bool.false_ne_true)
  rw [hd]
  have hr : t.reverse.dropWhile isJsWs = t.reverse := by
    cases hrev : t.reverse with
    | nil => rfl
    | cons c rest =>
        refine List.dropWhile_cons_of_neg ?_
        rw [h2 c (by rw [hrev]; rfl)]
        exact Bool.false_ne_true
  rw [hr, List.reverse_reverse]

theorem idxOfSub_at_start (pat rest : Str) (hne : pat ≠ []) :
    idxOfSub pat (pat ++ rest) = some 0 := by
  cases pat with
  | nil => exact absurd rfl hne
  | cons c p =>
      rw [List.cons_append, idxOfSub,
        if_pos (show (c :: p).isPrefixOf (c :: (p ++ rest)) = true from
          List.isPrefixOf_iff_prefix.mpr (List.prefix_append (c :: p) rest))]

theorem idxOfChar_lit (ch : Char) (a b : Str) (ha : ch ∉ a) :
    idxOfChar ch (a ++ ch :: b) = some a.length := by
  induction a with
  | nil =>
      rw [List.nil_append, idxOfChar, if_pos rfl]
      rfl
  | cons c a2 ih =>
      rw [List.cons_append, idxOfChar,
        if_neg (fun hc => ha (by rw [hc]; exact List.mem_cons_self ch a2)),
        ih (fun hm => ha (List.mem_cons_of_mem _ hm))]
      rfl

/-- The three fixed header lines of the exported text (lines 2656-2663). -/
def exportHdr (cid tid : Str) : Str :=
  ("    containerId: ").data ++ [sq] ++ cid ++ [sq, ',', nlc] ++
  (("    fretboardId: ").data ++ [sq] ++ tid ++ [sq, ',', nlc]) ++
  (("    cssPath: ").data ++ [sq] ++ ("fretboard.css").data ++ [sq, ',', nlc])

/-- The `settingsGroupA` block of the export, without the comment line and
trailing newline. -/
def bodyAc (g : GroupACfg) (i : Bool) (env : Str → Str) : Str :=
  ("    settingsGroupA: ").data ++ [obr, nlc] ++
  joinWith [',', nlc] (groupAProps g i env) ++ [nlc] ++ ("    ").data ++ [cbr, ',']

/-- The `settingsGroupB` block of the export, without the comment line and
trailing newline. -/
def bodyBc (g : GroupBCfg) (i : Bool) (env : Str → Str) : Str :=
  ("    settingsGroupB: ").data ++ [obr, nlc] ++
  joinWith [',', nlc] (groupBProps g i env) ++ [nlc] ++ ("    ").data ++ [cbr, ',']

/-- The `settingsGroupC` block of the export, without the comment line and
trailing newline. -/
def bodyCc (g : GroupCCfg) : Str :=
  ("    settingsGroupC: ").data ++ [obr, nlc] ++
  joinWith [',', nlc] (groupCProps g) ++ [nlc] ++ ("    ").data ++ [cbr]

/-- The Group A comment line (line 2668). -/
def cmtA : Str := ("    // Settings Group A - Fretboard Variables").data

/-- The Group B comment line (line 2739). -/
def cmtB : Str := ("    // Settings Group B - Fretboard Skin").data

/-- The Group C comment line (line 2822). -/
def cmtC : Str := ("    // Settings Group C - Chord Variables").data

theorem topPairsChunk (cid tid tA tB tC : Str) (vA vB vC : JsValue)
    (hcid : plainStr cid = true) (htid : plainStr tid = true)
    (hvA : ValChunk tA vA) (hvB : ValChunk tB vB) (hvC : ValChunk tC vC) :
    PairsChunk
      (([nlc] ++ ("    containerId: ").data ++ ([sq] ++ cid ++ [sq])) ++ ',' ::
       (([nlc] ++ ("    fretboardId: ").data ++ ([sq] ++ tid ++ [sq])) ++ ',' ::
        (([nlc] ++ ("    cssPath: ").data ++
            ([sq] ++ ("fretboard.css").data ++ [sq])) ++ ',' ::
         (([nlc, nlc, nlc] ++ ("    settingsGroupA: ").data ++ tA) ++ ',' ::
          (([nlc, nlc, nlc] ++ ("    settingsGroupB: ").data ++ tB) ++ ',' ::
           (([nlc, nlc, nlc] ++ ("    settingsGroupC: ").data ++ tC) ++
             ([nlc] ++ [cbr])))))))
      [(("containerId").data, .str cid), (("fretboardId").data, .str tid),
       (("cssPath").data, .str (("fretboard.css").data)),
       (("settingsGroupA").data, vA), (("settingsGroupB").data, vB),
       (("settingsGroupC").data, vC)] := by
  have p1 : PairPart ([nlc] ++ ("    containerId: ").data ++ ([sq] ++ cid ++ [sq]))
      (("containerId").data) (.str cid) :=
    sqStrPart ([nlc] ++ ("    containerId: ").data) ([nlc] ++ ("    ").data)
      (("containerId").data) cid (by decide) (by decide) (by decide) (by decide) hcid
  have p2 : PairPart ([nlc] ++ ("    fretboardId: ").data ++ ([sq] ++ tid ++ [sq]))
      (("fretboardId").data) (.str tid) :=
    sqStrPart ([nlc] ++ ("    fretboardId: ").data) ([nlc] ++ ("    ").data)
      (("fretboardId").data) tid (by decide) (by decide) (by decide) (by decide) htid
  have p3 : PairPart ([nlc] ++ ("    cssPath: ").data ++
        ([sq] ++ ("fretboard.css").data ++ [sq]))
      (("cssPath").data) (.str (("fretboard.css").data)) :=
    sqStrPart ([nlc] ++ ("    cssPath: ").data) ([nlc] ++ ("    ").data)
      (("cssPath").data) (("fretboard.css").data) (by decide) (by decide)
      (by decide) (by decide) (by decide)
  have p4 : PairPart ([nlc, nlc, nlc] ++ ("    settingsGroupA: ").data ++ tA)
      (("settingsGroupA").data) vA :=
    pairPart_lit ([nlc, nlc, nlc] ++ ("    settingsGroupA: ").data)
      ([nlc, nlc, nlc] ++ ("    ").data) (("settingsGroupA").data) tA vA
      (by decide) (by decide) (by decide) (by decide) hvA
  have p5 : PairPart ([nlc, nlc, nlc] ++ ("    settingsGroupB: ").data ++ tB)
      (("settingsGroupB").data) vB :=
    pairPart_lit ([nlc, nlc, nlc] ++ ("    settingsGroupB: ").data)
      ([nlc, nlc, nlc] ++ ("    ").data) (("settingsGroupB").data) tB vB
      (by decide) (by decide) (by decide) (by decide) hvB
  have p6 : PairPart ([nlc, nlc, nlc] ++ ("    settingsGroupC: ").data ++ tC)
      (("settingsGroupC").data) vC :=
    pairPart_lit ([nlc, nlc, nlc] ++ ("    settingsGroupC: ").data)
      ([nlc, nlc, nlc] ++ ("    ").data) (("settingsGroupC").data) tC vC
      (by decide) (by decide) (by decide) (by decide) hvC
  exact p1.1 _ _ (p2.1 _ _ (p3.1 _ _ (p4.1 _ _ (p5.1 _ _
    (p6.2 [nlc] (by decide))))))

theorem exportHdr_facts (cid tid : Str) (hcid : plainStr cid = true)
    (htid : plainStr tid = true) :
    ScanBal (exportHdr cid tid) ∧ sl ∉ exportHdr cid tid := by
  have hsh : exportHdr cid tid =
      ("    containerId: ").data ++ (([sq] ++ cid ++ [sq]) ++ ([',', nlc] ++
      (("    fretboardId: ").data ++ (([sq] ++ tid ++ [sq]) ++ ([',', nlc] ++
      (("    cssPath: ").data ++ (([sq] ++ ("fretboard.css").data ++ [sq]) ++
        [',', nlc]))))))) := by
    unfold exportHdr
    simp only [List.append_assoc, List.cons_append, List.singleton_append,
      List.nil_append]
  rw [hsh]
  constructor
  · refine scanBal_append _ _ (scanBal_neutral _ (by decide))
      (scanBal_append _ _ (scanBal_sqWrap cid hcid)
        (scanBal_append _ _ (scanBal_neutral _ (by decide))
          (scanBal_append _ _ (scanBal_neutral _ (by decide))
            (scanBal_append _ _ (scanBal_sqWrap tid htid)
              (scanBal_append _ _ (scanBal_neutral _ (by decide))
                (scanBal_append _ _ (scanBal_neutral _ (by decide))
                  (scanBal_append _ _ (scanBal_sqWrap _ (by decide))
                    (scanBal_neutral _ (by decide)))))))))
  · exact no_sl_append (by decide)
      (no_sl_append (no_sl_sqWrap cid hcid)
        (no_sl_append (by decide)
          (no_sl_append (by decide)
            (no_sl_append (no_sl_sqWrap tid htid)
              (no_sl_append (by decide)
                (no_sl_append (by decide)
                  (no_sl_append (no_sl_sqWrap _ (by decide)) (by decide))))))))

theorem bodyAc_facts (g : GroupACfg) (i : Bool) (env : Str → Str)
    (heach : ∀ l ∈ groupAProps g i env, ScanBal l ∧ sl ∉ l) :
    ScanBal (bodyAc g i env) ∧ sl ∉ bodyAc g i env := by
  have hsh : bodyAc g i env =
      ("    settingsGroupA: ").data ++
      ((obr :: (([nlc] ++ (joinWith [',', nlc] (groupAProps g i env) ++
        ([nlc] ++ ("    ").data))) ++ [cbr])) ++ [',']) := by
    unfold bodyAc
    simp only [List.append_assoc, List.cons_append, List.singleton_append,
      List.nil_append]
  constructor
  · rw [hsh]
    refine scanBal_append _ _ (scanBal_neutral _ (by decide))
      (scanBal_append _ _ (scanBal_block _ ?_) (scanBal_neutral _ (by decide)))
    exact scanBal_append _ _ (scanBal_neutral _ (by decide))
      (scanBal_append _ _ (scanBal_joinWith _ (fun l hl => (heach l hl).1))
        (scanBal_append _ _ (scanBal_neutral _ (by decide))
          (scanBal_neutral _ (by decide))))
  · unfold bodyAc
    exact no_sl_append (no_sl_append (no_sl_append (no_sl_append (no_sl_append
      (by decide) (by decide)) (no_sl_joinWith _ (fun l hl => (heach l hl).2)))
      (by decide)) (by decide)) (by decide)

theorem bodyBc_facts (g : GroupBCfg) (i : Bool) (env : Str → Str)
    (heach : ∀ l ∈ groupBProps g i env, ScanBal l ∧ sl ∉ l) :
    ScanBal (bodyBc g i env) ∧ sl ∉ bodyBc g i env := by
  have hsh : bodyBc g i env =
      ("    settingsGroupB: ").data ++
      ((obr :: (([nlc] ++ (joinWith [',', nlc] (groupBProps g i env) ++
        ([nlc] ++ ("    ").data))) ++ [cbr])) ++ [',']) := by
    unfold bodyBc
    simp only [List.append_assoc, List.cons_append, List.singleton_append,
      List.nil_append]
  constructor
  · rw [hsh]
    refine scanBal_append _ _ (scanBal_neutral _ (by decide))
      (scanBal_append _ _ (scanBal_block _ ?_) (scanBal_neutral _ (by decide)))
    exact scanBal_append _ _ (scanBal_neutral _ (by decide))
      (scanBal_append _ _ (scanBal_joinWith _ (fun l hl => (heach l hl).1))
        (scanBal_append _ _ (scanBal_neutral _ (by decide))
          (scanBal_neutral _ (by decide))))
  · unfold bodyBc
    exact no_sl_append (no_sl_append (no_sl_append (no_sl_append (no_sl_append
      (by decide) (by decide)) (no_sl_joinWith _ (fun l hl => (heach l hl).2)))
      (by decide)) (by decide)) (by decide)

theorem bodyCc_facts (g : GroupCCfg)
    (heach : ∀ l ∈ groupCProps g, ScanBal l ∧ sl ∉ l) :
    ScanBal (bodyCc g) ∧ sl ∉ bodyCc g := by
  have hsh : bodyCc g =
      ("    settingsGroupC: ").data ++
      (obr :: (([nlc] ++ (joinWith [',', nlc] (groupCProps g) ++
        ([nlc] ++ ("    ").data))) ++ [cbr])) := by
    unfold bodyCc
    simp only [List.append_assoc, List.cons_append, List.singleton_append,
      List.nil_append]
  constructor
  · rw [hsh]
    refine scanBal_append _ _ (scanBal_neutral _ (by decide)) (scanBal_block _ ?_)
    exact scanBal_append _ _ (scanBal_neutral _ (by decide))
      (scanBal_append _ _ (scanBal_joinWith _ (fun l hl => (heach l hl).1))
        (scanBal_append _ _ (scanBal_neutral _ (by decide))
          (scanBal_neutral _ (by decide))))
  · unfold bodyCc
    exact no_sl_append (no_sl_append (no_sl_append (no_sl_append (no_sl_append
      (by decide) (by decide)) (no_sl_joinWith _ (fun l hl => (heach l hl).2)))
      (by decide)) (by decide)) (by decide)

theorem strip_six (A1 c1 A2 c2 A3 c3 A4 : Str)
    (h1 : sl ∉ A1) (h2 : sl ∉ A2) (h3 : sl ∉ A3) (h4 : sl ∉ A4)
    (hc1 : stripLineComments c1 = []) (hc2 : stripLineComments c2 = [])
    (hc3 : stripLineComments c3 = []) :
    stripLineComments (A1 ++ nlc :: (c1 ++ nlc :: (A2 ++ nlc ::
        (c2 ++ nlc :: (A3 ++ nlc :: (c3 ++ nlc :: A4)))))) =
      A1 ++ nlc :: ([] ++ nlc :: (A2 ++ nlc :: ([] ++ nlc ::
        (A3 ++ nlc :: ([] ++ nlc :: A4))))) := by
  rw [stripLineComments_append_nl A1, stripLineComments_append_nl c1,
    stripLineComments_append_nl A2, stripLineComments_append_nl c2,
    stripLineComments_append_nl A3, stripLineComments_append_nl c3,
    stripLineComments_no_sl A1 h1, stripLineComments_no_sl A2 h2,
    stripLineComments_no_sl A3 h3, stripLineComments_no_sl A4 h4,
    hc1, hc2, hc3]

theorem no_sl_six (A1 A2 A3 A4 : Str)
    (h1 : sl ∉ A1) (h2 : sl ∉ A2) (h3 : sl ∉ A3) (h4 : sl ∉ A4) :
    sl ∉ A1 ++ nlc :: ([] ++ nlc :: (A2 ++ nlc :: ([] ++ nlc ::
      (A3 ++ nlc :: ([] ++ nlc :: A4))))) :=
  no_sl_append h1 (no_sl_cons (by decide)
    (no_sl_append (List.not_mem_nil sl) (no_sl_cons (by decide)
      (no_sl_append h2 (no_sl_cons (by decide)
        (no_sl_append (List.not_mem_nil sl) (no_sl_cons (by decide)
          (no_sl_append h3 (no_sl_cons (by decide)
            (no_sl_append (List.not_mem_nil sl)
              (no_sl_cons (by decide) h4)))))))))))

/-- The emitted full-config text, rewritten with the newline split points
around the three comment lines made explicit. -/
def exportSplit (gA : GroupACfg) (gB : GroupBCfg) (gC : GroupCCfg)
    (cid tid : Str) (i : Bool) (env : Str → Str) : Str :=
  (("Fretboard.init(").data ++ [obr, nlc] ++ exportHdr cid tid) ++ nlc ::
    (cmtA ++ nlc :: ((bodyAc gA i env ++ [nlc]) ++ nlc ::
      (cmtB ++ nlc :: ((bodyBc gB i env ++ [nlc]) ++ nlc ::
        (cmtC ++ nlc :: (bodyCc gC ++ [nlc] ++ [cbr] ++ (");").data))))))

/-- The text strictly between the top-level braces after comment stripping. -/
def exportInner (gA : GroupACfg) (gB : GroupBCfg) (gC : GroupCCfg)
    (cid tid : Str) (i : Bool) (env : Str → Str) : Str :=
  [nlc] ++ (exportHdr cid tid ++ ([nlc] ++ ([nlc] ++ (bodyAc gA i env ++
    ([nlc] ++ ([nlc] ++ ([nlc] ++ (bodyBc gB i env ++
      ([nlc] ++ ([nlc] ++ ([nlc] ++ (bodyCc gC ++ [nlc]))))))))))))

/-- The comment-stripped emitted text. -/
def exportStripped (gA : GroupACfg) (gB : GroupBCfg) (gC : GroupCCfg)
    (cid tid : Str) (i : Bool) (env : Str → Str) : Str :=
  ("Fretboard.init(").data ++
    (obr :: ((exportInner gA gB gC cid tid i env ++ [cbr]) ++ (");").data))

theorem stripComments_export (gA : GroupACfg) (gB : GroupBCfg) (gC : GroupCCfg)
    (cid tid : Str) (i : Bool) (env : Str → Str)
    (hcid : plainStr cid = true) (htid : plainStr tid = true)
    (hA : ∀ l ∈ groupAProps gA i env, ScanBal l ∧ sl ∉ l)
    (hB : ∀ l ∈ groupBProps gB i env, ScanBal l ∧ sl ∉ l)
    (hC : ∀ l ∈ groupCProps gC, ScanBal l ∧ sl ∉ l) :
    stripComments (exportSplit gA gB gC cid tid i env) =
      exportStripped gA gB gC cid tid i env := by
  have h1 : sl ∉ (("Fretboard.init(").data ++ [obr, nlc] ++ exportHdr cid tid) :=
    no_sl_append (no_sl_append (by decide) (by decide))
      (exportHdr_facts cid tid hcid htid).2
  have h2 : sl ∉ bodyAc gA i env ++ [nlc] :=
    no_sl_append (bodyAc_facts gA i env hA).2 (by decide)
  have h3 : sl ∉ bodyBc gB i env ++ [nlc] :=
    no_sl_append (bodyBc_facts gB i env hB).2 (by decide)
  have h4 : sl ∉ bodyCc gC ++ [nlc] ++ [cbr] ++ (");").data :=
    no_sl_append (no_sl_append (no_sl_append (bodyCc_facts gC hC).2 (by decide))
      (by decide)) (by decide)
  unfold stripComments exportSplit
  rw [strip_six _ cmtA _ cmtB _ cmtC _ h1 h2 h3 h4 (by decide) (by decide)
    (by decide)]
  rw [stripBlock_id _ (hasSub2_false_of_no sl ast _
    (no_sl_six _ _ _ _ h1 h2 h3 h4))]
  unfold exportStripped exportInner
  simp only [List.append_assoc, List.cons_append, List.singleton_append,
    List.nil_append]

theorem findObjStart_export (gA : GroupACfg) (gB : GroupBCfg) (gC : GroupCCfg)
    (cid tid : Str) (i : Bool) (env : Str → Str) :
    findObjStart (exportStripped gA gB gC cid tid i env) =
      .ok (obr :: ((exportInner gA gB gC cid tid i env ++ [cbr]) ++ (");").data)) := by
  unfold exportStripped findObjStart
  rw [idxOfSub_at_start _ _ (by decide)]
  dsimp only
  rw [List.drop_zero, idxOfChar_lit obr _ _ (by decide)]
  dsimp only
  rw [List.drop_left]

theorem braceScan_export (gA : GroupACfg) (gB : GroupBCfg) (gC : GroupCCfg)
    (cid tid : Str) (i : Bool) (env : Str → Str)
    (hcid : plainStr cid = true) (htid : plainStr tid = true)
    (hA : ∀ l ∈ groupAProps gA i env, ScanBal l ∧ sl ∉ l)
    (hB : ∀ l ∈ groupBProps gB i env, ScanBal l ∧ sl ∉ l)
    (hC : ∀ l ∈ groupCProps gC, ScanBal l ∧ sl ∉ l) :
    braceScanAux (obr :: ((exportInner gA gB gC cid tid i env ++ [cbr]) ++
        (");").data)) false none 0 none none [] =
      .ok (obr :: (exportInner gA gB gC cid tid i env ++ [cbr])) := by
  rw [show obr :: ((exportInner gA gB gC cid tid i env ++ [cbr]) ++ (");").data) =
    (obr :: (exportInner gA gB gC cid tid i env ++ [cbr])) ++ (");").data from
    (List.cons_append _ _ _).symm]
  refine braceScan_top _ _ ?_
  unfold exportInner
  refine scanBal_append _ _ (scanBal_neutral _ (by decide)) ?_
  refine scanBal_append _ _ (exportHdr_facts cid tid hcid htid).1 ?_
  refine scanBal_append _ _ (scanBal_neutral _ (by decide)) ?_
  refine scanBal_append _ _ (scanBal_neutral _ (by decide)) ?_
  refine scanBal_append _ _ (bodyAc_facts gA i env hA).1 ?_
  refine scanBal_append _ _ (scanBal_neutral _ (by decide)) ?_
  refine scanBal_append _ _ (scanBal_neutral _ (by decide)) ?_
  refine scanBal_append _ _ (scanBal_neutral _ (by decide)) ?_
  refine scanBal_append _ _ (bodyBc_facts gB i env hB).1 ?_
  refine scanBal_append _ _ (scanBal_neutral _ (by decide)) ?_
  refine scanBal_append _ _ (scanBal_neutral _ (by decide)) ?_
  refine scanBal_append _ _ (scanBal_neutral _ (by decide)) ?_
  exact scanBal_append _ _ (bodyCc_facts gC hC).1 (scanBal_neutral _ (by decide))

/-- The decoded top-level configuration object for a restricted snapshot. -/
def topObj (gA : GroupACfg) (gB : GroupBCfg) (gC : GroupCCfg)
    (cid tid : Str) (i : Bool) (env : Str → Str) : JsObj :=
  [(("containerId").data, .str cid), (("fretboardId").data, .str tid),
   (("cssPath").data, .str (("fretboard.css").data)),
   (("settingsGroupA").data, .obj (decodedGroupA gA i env)),
   (("settingsGroupB").data, .obj (decodedGroupB gB i env)),
   (("settingsGroupC").data, .obj (decodedGroupC gC))]

set_option maxRecDepth 8192 in
theorem eval_export (gA : GroupACfg) (gB : GroupBCfg) (gC : GroupCCfg)
    (cid tid : Str) (i : Bool) (env : Str → Str)
    (hcid : plainStr cid = true) (htid : plainStr tid = true)
    (hdtm : ∀ s, gA.dotTextMode = some s → s ≠ [] ∧ plainStr s = true)
    (hsfi : ∀ s, gA.showFretIndicators = some s → s ≠ [] ∧ plainStr s = true)
    (hstt : ∀ s, gA.stringType = some s → s ≠ [] ∧ plainStr s = true)
    (htun : ∀ t, gA.tuning = some t → ∀ p ∈ t, 0 ≤ p.1 ∧ plainStr p.2 = true)
    (hcssmA : ∀ p ∈ cssVarsToInclude i env groupAVars ((gA.cssVariables).getD []),
      plainStr p.1 = true ∧ plainStr p.2 = true)
    (hmk : ∀ p ∈ (gB.fretMarkers).getD defaultFretMarkers,
      0 ≤ p.1 ∧ plainStr p.2 = true)
    (hcssmB : ∀ p ∈ cssVarsToInclude i env groupBVars ((gB.cssVariables).getD []),
      plainStr p.1 = true ∧ plainStr p.2 = true)
    (hcustom : ∀ v, gB.customCSS = some v → plainStr v = true)
    (hname : ∀ n, gC.name = some n → plainStr n = true)
    (hroot : ∀ r, gC.root = some r → plainStr r = true) :
    evalObjectLiteral (obr :: (exportInner gA gB gC cid tid i env ++ [cbr])) =
      .ok (.obj (topObj gA gB gC cid tid i env)) := by
  have hvA : ValChunk (obr :: ([nlc] ++ (joinWith [',', nlc] (groupAProps gA i env) ++
      (([nlc] ++ ("    ").data) ++ [cbr])))) (.obj (decodedGroupA gA i env)) :=
    valChunk_obj _ _ (pairsChunk_ws [nlc] _ _ (by decide)
      (groupA_pairs gA i env hdtm hsfi hstt htun hcssmA
        ([nlc] ++ ("    ").data) (by decide)))
  have hvB : ValChunk (obr :: ([nlc] ++ (joinWith [',', nlc] (groupBProps gB i env) ++
      (([nlc] ++ ("    ").data) ++ [cbr])))) (.obj (decodedGroupB gB i env)) :=
    valChunk_obj _ _ (pairsChunk_ws [nlc] _ _ (by decide)
      (groupB_pairs gB i env hmk hcssmB hcustom
        ([nlc] ++ ("    ").data) (by decide)))
  have hvC : ValChunk (obr :: ([nlc] ++ (joinWith [',', nlc] (groupCProps gC) ++
      (([nlc] ++ ("    ").data) ++ [cbr])))) (.obj (decodedGroupC gC)) :=
    valChunk_obj _ _ (pairsChunk_ws [nlc] _ _ (by decide)
      (groupC_pairs gC hname hroot ([nlc] ++ ("    ").data) (by decide)))
  have htop := topPairsChunk cid tid _ _ _ _ _ _ hcid htid hvA hvB hvC
  have hsh : exportInner gA gB gC cid tid i env ++ [cbr] =
      (([nlc] ++ ("    containerId: ").data ++ ([sq] ++ cid ++ [sq])) ++ ',' ::
       (([nlc] ++ ("    fretboardId: ").data ++ ([sq] ++ tid ++ [sq])) ++ ',' ::
        (([nlc] ++ ("    cssPath: ").data ++
            ([sq] ++ ("fretboard.css").data ++ [sq])) ++ ',' ::
         (([nlc, nlc, nlc] ++ ("    settingsGroupA: ").data ++
            (obr :: ([nlc] ++ (joinWith [',', nlc] (groupAProps gA i env) ++
              (([nlc] ++ ("    ").data) ++ [cbr]))))) ++ ',' ::
          (([nlc, nlc, nlc] ++ ("    settingsGroupB: ").data ++
            (obr :: ([nlc] ++ (joinWith [',', nlc] (groupBProps gB i env) ++
              (([nlc] ++ ("    ").data) ++ [cbr]))))) ++ ',' ::
           (([nlc, nlc, nlc] ++ ("    settingsGroupC: ").data ++
            (obr :: ([nlc] ++ (joinWith [',', nlc] (groupCProps gC) ++
              (([nlc] ++ ("    ").data) ++ [cbr]))))) ++
             ([nlc] ++ [cbr]))))))) := by
    unfold exportInner exportHdr bodyAc bodyBc bodyCc
    simp only [List.append_assoc, List.cons_append, List.singleton_append,
      List.nil_append]
  have hpairs : PairsChunk (exportInner gA gB gC cid tid i env ++ [cbr])
      (topObj gA gB gC cid tid i env) := by
    rw [hsh]
    exact htop
  have hval := valChunk_obj _ _ hpairs
  have h := hval [] ((obr :: (exportInner gA gB gC cid tid i env ++ [cbr])).length + 1)
    (by omega) (fun c hc => Option.noConfusion hc)
  rw [List.append_nil] at h
  unfold evalObjectLiteral
  rw [h]
  rfl

set_option maxRecDepth 8192 in
theorem export_parse_ok (state : FretboardState)
    (gA : GroupACfg) (gB : GroupBCfg) (gC : GroupCCfg)
    (cid tid : Str) (i : Bool) (env : Str → Str)
    (hgA : (state.settingsGroupA).getD {} = gA)
    (hgB : (state.settingsGroupB).getD {} = gB)
    (hgC : (state.settingsGroupC).getD {} = gC)
    (hcid : plainStr cid = true) (htid : plainStr tid = true)
    (henv : ∀ k, plainStr (env k) = true)
    (hdtm : ∀ s, gA.dotTextMode = some s → s ≠ [] ∧ plainStr s = true)
    (hsfi : ∀ s, gA.showFretIndicators = some s → s ≠ [] ∧ plainStr s = true)
    (hstt : ∀ s, gA.stringType = some s → s ≠ [] ∧ plainStr s = true)
    (htun : ∀ t, gA.tuning = some t → ∀ p ∈ t, 0 ≤ p.1 ∧ plainStr p.2 = true)
    (hcssA : ∀ p ∈ (gA.cssVariables).getD [],
      plainStr p.1 = true ∧ plainStr p.2 = true)
    (hmk : ∀ p ∈ (gB.fretMarkers).getD defaultFretMarkers,
      0 ≤ p.1 ∧ plainStr p.2 = true)
    (hcssB : ∀ p ∈ (gB.cssVariables).getD [],
      plainStr p.1 = true ∧ plainStr p.2 = true)
    (hcustom : ∀ v, gB.customCSS = some v → plainStr v = true)
    (hname : ∀ n, gC.name = some n → plainStr n = true)
    (hroot : ∀ r, gC.root = some r → plainStr r = true)
    (hfing : hasValidFingering ((gC.fingering).getD []) = true) :
    parseExportCode (generateExportCode state cid tid true true true i env) =
      .ok ⟨.obj (decodedGroupA gA i env), .obj (decodedGroupB gB i env),
           .obj (decodedGroupC gC)⟩ := by
  have hcssmA := cssVarsToInclude_plain i env groupAVars
    ((gA.cssVariables).getD []) henv (by decide) hcssA
  have hcssmB := cssVarsToInclude_plain i env groupBVars
    ((gB.cssVariables).getD []) henv (by decide) hcssB
  have heachA := groupAProps_each gA i env (fun s hs => (hdtm s hs).2)
    (fun s hs => (hsfi s hs).2) (fun s hs => (hstt s hs).2) htun hcssmA
  have heachB := groupBProps_each gB i env hmk hcssmB hcustom
  have heachC := groupCProps_each gC hname hroot
  have htext : generateExportCode state cid tid true true true i env =
      exportSplit gA gB gC cid tid i env := by
    unfold generateExportCode groupASection groupBSection groupCSection
    rw [if_pos rfl, if_pos rfl, if_pos rfl]
    dsimp only
    rw [hgA, hgB, hgC, if_pos hfing]
    unfold exportSplit exportHdr bodyAc bodyBc bodyCc cmtA cmtB cmtC
    rw [show (Char.ofNat 10) = nlc from rfl]
    simp only [List.append_assoc, List.cons_append, List.singleton_append,
      List.nil_append]
  have htrim : jsTrim (exportSplit gA gB gC cid tid i env) =
      exportSplit gA gB gC cid tid i env := by
    refine jsTrim_id_of_ends _ ?_ ?_
    · intro ch hch
      unfold exportSplit at hch
      rw [show ("Fretboard.init(").data =
        'F' :: ("retboard.init(").data from by decide] at hch
      simp only [List.cons_append, List.head?_cons] at hch
      rw [← Option.some.inj hch]
      decide
    · intro ch hch
      unfold exportSplit at hch
      rw [show ((");").data) = [')'] ++ [';'] from by decide] at hch
      simp only [List.reverse_append, List.reverse_cons, List.reverse_nil,
        List.nil_append, List.append_assoc, List.cons_append,
        List.singleton_append, List.head?_cons] at hch
      rw [← Option.some.inj hch]
      decide
  have hx1 : extractGroup (.obj (topObj gA gB gC cid tid i env))
      (("settingsGroupA").data) = .obj (decodedGroupA gA i env) := by
    unfold extractGroup topObj
    dsimp only
    rw [aGet_cons, if_neg (fun h => (by decide : ¬(("containerId").data = ("settingsGroupA").data)) h),
      aGet_cons, if_neg (fun h => (by decide : ¬(("fretboardId").data = ("settingsGroupA").data)) h),
      aGet_cons, if_neg (fun h => (by decide : ¬(("cssPath").data = ("settingsGroupA").data)) h),
      aGet_cons, if_pos rfl]
  have hx2 : extractGroup (.obj (topObj gA gB gC cid tid i env))
      (("settingsGroupB").data) = .obj (decodedGroupB gB i env) := by
    unfold extractGroup topObj
    dsimp only
    rw [aGet_cons, if_neg (fun h => (by decide : ¬(("containerId").data = ("settingsGroupB").data)) h),
      aGet_cons, if_neg (fun h => (by decide : ¬(("fretboardId").data = ("settingsGroupB").data)) h),
      aGet_cons, if_neg (fun h => (by decide : ¬(("cssPath").data = ("settingsGroupB").data)) h),
      aGet_cons, if_neg (fun h => (by decide : ¬(("settingsGroupA").data = ("settingsGroupB").data)) h),
      aGet_cons, if_pos rfl]
  have hx3 : extractGroup (.obj (topObj gA gB gC cid tid i env))
      (("settingsGroupC").data) = .obj (decodedGroupC gC) := by
    unfold extractGroup topObj
    dsimp only
    rw [aGet_cons, if_neg (fun h => (by decide : ¬(("containerId").data = ("settingsGroupC").data)) h),
      aGet_cons, if_neg (fun h => (by decide : ¬(("fretboardId").data = ("settingsGroupC").data)) h),
      aGet_cons, if_neg (fun h => (by decide : ¬(("cssPath").data = ("settingsGroupC").data)) h),
      aGet_cons, if_neg (fun h => (by decide : ¬(("settingsGroupA").data = ("settingsGroupC").data)) h),
      aGet_cons, if_neg (fun h => (by decide : ¬(("settingsGroupB").data = ("settingsGroupC").data)) h),
      aGet_cons, if_pos rfl]
  unfold parseExportCode parseInner
  dsimp only
  rw [htext, htrim,
    stripComments_export gA gB gC cid tid i env hcid htid heachA heachB heachC,
    findObjStart_export]
  dsimp only
  rw [braceScan_export gA gB gC cid tid i env hcid htid heachA heachB heachC]
  dsimp only
  rw [eval_export gA gB gC cid tid i env hcid htid hdtm hsfi hstt htun hcssmA
    hmk hcssmB hcustom hname hroot]
  dsimp only
  unfold checkConfig
  rw [if_neg (fun hor => by rcases hor with h | h <;> exact Bool.noConfusion h)]
  rw [hx1, hx2, hx3]

/-- `e.isOk` for the decode result. -/
def exceptIsOk {ε α : Type} : Except ε α → Bool
  | .ok _ => true
  | .error _ => false

/-- A snapshot with one valid fingering entry whose chord name is a single
double-quote character. -/
def c1CexGroupC : GroupCCfg :=
  { name := some [dq], fingering := some [⟨1, .num 0, none⟩] }

/-- The counterexample snapshot. -/
def c1CexState : FretboardState := { settingsGroupC := some c1CexGroupC }

set_option maxRecDepth 8192 in
/-- **C1, counterexample.** The claim quantifies over every settings snapshot
with at least one valid fingering entry. The snapshot whose chord name is the
one-character string `"` has a valid fingering entry, yet decoding the full
encoder output fails: the exporter emits `name: """` (the name is interpolated
into a double-quoted literal without escaping, lines 2829-2831), the emitted
string literal ends at the embedded quote, and the evaluator rejects the
trailing quote, so `parseExportCode` throws instead of reproducing the
snapshot. -/
theorem c1_counterexample :
    hasValidFingering ((((c1CexState.settingsGroupC).getD {}).fingering).getD [])
      = true ∧
    exceptIsOk (parseExportCode (generateExportCode c1CexState (("a").data)
      (("b").data) true true true false (fun x => []))) = false := by
  constructor
  · decide
  · decide

/-- **C1 (amended).** For restricted snapshots — every string field that is
set is free of quotes, backslashes, backticks, newlines and slashes (chord
name and root, `dotTextMode`/`showFretIndicators`/`stringType` additionally
nonempty when set, CSS variable keys and values, `customCSS`, tuning and fret
marker labels, container and fretboard ids, and the computed-style
environment), tuning and fret-marker keys are non-negative, and the snapshot
has at least one valid fingering entry — decoding the full-config encoder
output with all three groups included yields exactly the decoded group
objects: every explicitly-set field is reproduced with an equal value,
defaults fill the unset scalar fields, and with `includeAllVariables` the
merged default CSS variables are reproduced as well. -/
theorem c1_roundtrip (state : FretboardState) (cid tid : Str) (i : Bool)
    (env : Str → Str)
    (hcid : plainStr cid = true) (htid : plainStr tid = true)
    (henv : ∀ k, plainStr (env k) = true)
    (hdtm : ∀ s, ((state.settingsGroupA).getD {}).dotTextMode = some s →
      s ≠ [] ∧ plainStr s = true)
    (hsfi : ∀ s, ((state.settingsGroupA).getD {}).showFretIndicators = some s →
      s ≠ [] ∧ plainStr s = true)
    (hstt : ∀ s, ((state.settingsGroupA).getD {}).stringType = some s →
      s ≠ [] ∧ plainStr s = true)
    (htun : ∀ t, ((state.settingsGroupA).getD {}).tuning = some t →
      ∀ p ∈ t, 0 ≤ p.1 ∧ plainStr p.2 = true)
    (hcssA : ∀ p ∈ (((state.settingsGroupA).getD {}).cssVariables).getD [],
      plainStr p.1 = true ∧ plainStr p.2 = true)
    (hmk : ∀ p ∈ (((state.settingsGroupB).getD {}).fretMarkers).getD
        defaultFretMarkers, 0 ≤ p.1 ∧ plainStr p.2 = true)
    (hcssB : ∀ p ∈ (((state.settingsGroupB).getD {}).cssVariables).getD [],
      plainStr p.1 = true ∧ plainStr p.2 = true)
    (hcustom : ∀ v, ((state.settingsGroupB).getD {}).customCSS = some v →
      plainStr v = true)
    (hname : ∀ n, ((state.settingsGroupC).getD {}).name = some n →
      plainStr n = true)
    (hroot : ∀ r, ((state.settingsGroupC).getD {}).root = some r →
      plainStr r = true)
    (hfing : hasValidFingering
      ((((state.settingsGroupC).getD {}).fingering).getD []) = true) :
    parseExportCode (generateExportCode state cid tid true true true i env) =
      .ok ⟨.obj (decodedGroupA ((state.settingsGroupA).getD {}) i env),
           .obj (decodedGroupB ((state.settingsGroupB).getD {}) i env),
           .obj (decodedGroupC ((state.settingsGroupC).getD {}))⟩ :=
  export_parse_ok state _ _ _ cid tid i env rfl rfl rfl hcid htid henv
    hdtm hsfi hstt htun hcssA hmk hcssB hcustom hname hroot hfing

/-- The concrete snapshot the round-trip theorem is instantiated at. -/
def c1WitGroupC : GroupCCfg :=
  { name := some (("C").data), root := none, startFret := some 3,
    numFrets := none,
    fingering := some [⟨2, .num 1, some 2⟩, ⟨1, .num 0, none⟩] }

/-- The witness snapshot. -/
def c1WitState : FretboardState := { settingsGroupC := some c1WitGroupC }

theorem c1_roundtrip_witness :
    hasValidFingering ((((c1WitState.settingsGroupC).getD {}).fingering).getD [])
      = true ∧
    parseExportCode (generateExportCode c1WitState (("my-fretboard").data)
        (("fb1").data) true true true true (fun x => [])) =
      .ok ⟨.obj (decodedGroupA ((c1WitState.settingsGroupA).getD {}) true
             (fun x => [])),
           .obj (decodedGroupB ((c1WitState.settingsGroupB).getD {}) true
             (fun x => [])),
           .obj (decodedGroupC ((c1WitState.settingsGroupC).getD {}))⟩ :=
  ⟨by decide,
   c1_roundtrip c1WitState (("my-fretboard").data) (("fb1").data) true
     (fun x => []) (by decide) (by decide) (fun k => rfl)
     (fun s hs => Option.noConfusion hs)
     (fun s hs => Option.noConfusion hs)
     (fun s hs => Option.noConfusion hs)
     (fun t ht => Option.noConfusion ht)
     (fun p hp => absurd hp (List.not_mem_nil p))
     (by decide)
     (fun p hp => absurd hp (List.not_mem_nil p))
     (fun v hv => Option.noConfusion hv)
     (fun n hn => (Option.some.inj hn) ▸ (by decide))
     (fun r hr => Option.noConfusion hr)
     (by decide)⟩

end ChordDiagram
